import Mathlib

/-!
# MannVsFate: the pressure engine (`pressure_manager.cpp`)

A shallow embedding of `pressure_manager` and of the value types it works on.

* `float` quantities live in an arbitrary linearly ordered field `α` with a
  floor function (`ℚ` for evaluation, `ℝ` for the power function), so rounding
  is not modelled.
* `int` quantities are `Int`; their range is not modelled.
* `unsigned int` values are `Nat` taken modulo `UINT_MOD = 2 ^ 32` wherever the
  source computes with them (the index of the live-spawn loop and
  `active_spawns`).
* Loops that the source writes as `while`/`for` over mutable state take a fuel
  argument and return `none` when the fuel is used up before the loop
  condition fails.
-/

set_option linter.dupNamespace false
set_option linter.unusedSectionVars false

namespace MannVsFate

/-- Number of values of an `unsigned int`. -/
def UINT_MOD : Nat := 2 ^ 32

/-! ## Value types -/

/-- The fields of `virtual_wavespawn` that `pressure_manager.cpp` reads and writes. -/
structure virtual_wavespawn (α : Type) where
  time_until_next_spawn : α
  wait_between_spawns : α
  spawns_remaining : Int
  time_to_kill : α
  effective_pressure : α
  currency_per_spawn : Int
  is_tank : Bool

/-- The constructor arguments of `virtual_spawn` as passed at
`pressure_manager.cpp:149`: lifetime, pressure per second, effective pressure, currency. -/
structure virtual_spawn (α : Type) where
  time_left : Int
  pressure_per_second : α
  effective_pressure : α
  currency : Int

/-- Modelled from the spec: `virtual_spawn::decrement_time` (virtual_spawn.h/.cpp are absent);
"decrement `remaining_lifetime` by one tick", the rate being "constant for the instance's life". -/
def virtual_spawn.decrement_time {α : Type} (sp : virtual_spawn α) : virtual_spawn α :=
  { sp with time_left := sp.time_left - 1 }

/-- Modelled from the spec: `virtual_spawn::is_dead` (virtual_spawn.h/.cpp are absent);
an instance is destroyed "exactly when `remaining_lifetime` reaches zero". -/
def virtual_spawn.is_dead {α : Type} (sp : virtual_spawn α) : Bool :=
  sp.time_left == 0

/-- Modelled from the spec: `virtual_spawn::get_currency` (virtual_spawn.h/.cpp are absent);
the `currency_value` "copied from its descriptor". -/
def virtual_spawn.get_currency {α : Type} (sp : virtual_spawn α) : Int :=
  sp.currency

/-- Modelled from the spec: `virtual_spawn::get_pressure_per_second`
(virtual_spawn.h/.cpp are absent); the stored per-tick threat contribution. -/
def virtual_spawn.get_pressure_per_second {α : Type} (sp : virtual_spawn α) : α :=
  sp.pressure_per_second

/-! ## The economic feedback provider -/

/-- One call received by the currency manager from the engine. -/
inductive currency_call where
  | add_currency (amount : Int)
  | add_approximated_additional_currency (amount : Int)
  deriving DecidableEq, Repr

/-- Modelled from the spec: `currency_manager` (currency_manager.h/.cpp are absent). Its use of
the two credit signals "is opaque to the engine", so the state kept here is the sequence of
credit calls it has received, oldest first. -/
structure currency_manager where
  calls : List currency_call
  deriving DecidableEq, Repr

/-- Modelled from the spec: `currency_manager::add_currency`, the direct credit. -/
def currency_manager.add_currency (cm : currency_manager) (amount : Int) : currency_manager :=
  { calls := cm.calls ++ [currency_call.add_currency amount] }

/-- Modelled from the spec: `currency_manager::add_approximated_additional_currency`, the
separate "approximated additional currency" signal. -/
def currency_manager.add_approximated_additional_currency (cm : currency_manager)
    (amount : Int) : currency_manager :=
  { calls := cm.calls ++ [currency_call.add_approximated_additional_currency amount] }

/-- Total amount credited through `add_currency` in a sequence of calls. -/
def credited_calls : List currency_call → Int
  | [] => 0
  | currency_call.add_currency a :: rest => a + credited_calls rest
  | currency_call.add_approximated_additional_currency _ :: rest => credited_calls rest

/-- Total amount credited through `add_approximated_additional_currency`. -/
def approximated_calls : List currency_call → Int
  | [] => 0
  | currency_call.add_currency _ :: rest => approximated_calls rest
  | currency_call.add_approximated_additional_currency a :: rest => a + approximated_calls rest

/-- What the engine cannot see of its collaborators: the value
`currency_manager::get_currency_pressure` returns in a given currency state, and `pow` of
`<cmath>`. -/
structure externals (α : Type) where
  get_currency_pressure : currency_manager → α
  pow : α → α → α

/-! ## The engine -/

/-- The data members of `pressure_manager`; `mission_currency` is the referenced currency
manager. -/
structure pressure_manager (α : Type) where
  mission_currency : currency_manager
  pressure : α
  pressure_decay_rate : α
  players : Int
  base_pressure_decay_rate : α
  pressure_decay_rate_multiplier : α
  pressure_decay_rate_multiplier_in_time : α
  bot_path_length : α
  pps_factor_tfbot : α
  pps_factor_tank : α
  player_exponent : α
  wavespawns : List (virtual_wavespawn α)
  spawns : List (virtual_spawn α)

section engine

variable {α : Type} [LinearOrderedField α] [FloorRing α]

/-- The constructor `pressure_manager::pressure_manager`. The initialiser list leaves
`pressure_decay_rate` unset, so its initial value `decay0` is an argument. -/
def pressure_manager.pressure_manager (cm : currency_manager) (decay0 : α) :
    pressure_manager α where
  mission_currency := cm
  pressure := 0
  pressure_decay_rate := decay0
  players := 4
  base_pressure_decay_rate := 600
  pressure_decay_rate_multiplier := 175 / 10000
  pressure_decay_rate_multiplier_in_time := 3
  bot_path_length := 1
  pps_factor_tfbot := 1
  pps_factor_tank := 5 / 100
  player_exponent := 1
  wavespawns := []
  spawns := []

/-- The getter `pressure_manager::get_pressure`. -/
def get_pressure (s : pressure_manager α) : α := s.pressure

/-- The getter `pressure_manager::get_pressure_decay_rate`. -/
def get_pressure_decay_rate (s : pressure_manager α) : α := s.pressure_decay_rate

/-- The setter `pressure_manager::set_players`. -/
def set_players (s : pressure_manager α) (n : Int) : pressure_manager α :=
  { s with players := n }

/-- The getter `pressure_manager::get_players`. -/
def get_players (s : pressure_manager α) : Int := s.players

/-- The method `pressure_manager::multiply_pressure_decay_rate_multiplier`. -/
def multiply_pressure_decay_rate_multiplier (s : pressure_manager α) (multiplier : α) :
    pressure_manager α :=
  { s with pressure_decay_rate_multiplier := s.pressure_decay_rate_multiplier * multiplier }

/-- The setter `pressure_manager::set_pressure_decay_rate_multiplier_in_time`. -/
def set_pressure_decay_rate_multiplier_in_time (s : pressure_manager α) (x : α) :
    pressure_manager α :=
  { s with pressure_decay_rate_multiplier_in_time := x }

/-- The setter `pressure_manager::set_bot_path_length`. -/
def set_bot_path_length (s : pressure_manager α) (x : α) : pressure_manager α :=
  { s with bot_path_length := x }

/-- The method `pressure_manager::reset_pressure`. -/
def reset_pressure (s : pressure_manager α) : pressure_manager α :=
  { s with pressure := 0 }

/-- The method `pressure_manager::get_effective_players`:
`pow(static_cast<float>(players), player_exponent)`. -/
def get_effective_players (e : externals α) (s : pressure_manager α) : α :=
  e.pow (s.players : α) s.player_exponent

/-- The method `pressure_manager::calculate_pressure_decay_rate`. -/
def calculate_pressure_decay_rate (e : externals α) (s : pressure_manager α) :
    pressure_manager α :=
  { s with pressure_decay_rate :=
      (e.get_currency_pressure s.mission_currency + s.base_pressure_decay_rate)
        * get_effective_players e s * s.pressure_decay_rate_multiplier * s.bot_path_length }

/-- The getter `pressure_manager::get_pressure_decay_rate_per_player`. -/
def get_pressure_decay_rate_per_player (e : externals α) (s : pressure_manager α) : α :=
  s.pressure_decay_rate / get_effective_players e s

/-- The instance `add_virtual_spawn` builds from a descriptor (lines 130-149). -/
def make_virtual_spawn (s : pressure_manager α) (ws : virtual_wavespawn α) : virtual_spawn α :=
  let rounded_time_to_kill : Int := Int.ceil ws.time_to_kill
  let pressure_per_second : α := ws.effective_pressure / (rounded_time_to_kill : α)
  let pps_multiplier : α := if ws.is_tank then s.pps_factor_tank else s.pps_factor_tfbot
  { time_left := rounded_time_to_kill
    pressure_per_second := pressure_per_second * pps_multiplier
    effective_pressure := ws.effective_pressure
    currency := ws.currency_per_spawn }

/-- The method `pressure_manager::add_virtual_spawn`: build the instance, append it to `spawns`, add its
initial pressure. -/
def add_virtual_spawn (s : pressure_manager α) (ws : virtual_wavespawn α) : pressure_manager α :=
  let spawn := make_virtual_spawn s ws
  let s1 := { s with spawns := s.spawns ++ [spawn] }
  { s1 with pressure := s1.pressure + spawn.get_pressure_per_second }

/-- The method `pressure_manager::add_virtual_wavespawn`. -/
def add_virtual_wavespawn (s : pressure_manager α) (ws : virtual_wavespawn α) :
    pressure_manager α :=
  add_virtual_spawn { s with wavespawns := s.wavespawns ++ [ws] } ws

/-- The inner `while` of the descriptor loop (lines 75-82) on one descriptor `ws`; the engine
state is threaded because `add_virtual_spawn` writes `spawns` and `pressure`. -/
def fire_spawns : Nat → pressure_manager α → virtual_wavespawn α →
    Option (pressure_manager α × virtual_wavespawn α)
  | fuel, s, ws =>
    if ws.spawns_remaining ≠ 0 ∧ ws.time_until_next_spawn ≤ 0 then
      match fuel with
      | 0 => none
      | fuel + 1 =>
        let ws1 := { ws with spawns_remaining := ws.spawns_remaining - 1 }
        let ws2 := { ws1 with
          time_until_next_spawn := ws1.time_until_next_spawn + ws1.wait_between_spawns }
        fire_spawns fuel (add_virtual_spawn s ws2) ws2
    else some (s, ws)

/-- The range-`for` over `wavespawns` (lines 71-83), on the part `l` of the list that is still
to be visited; returns the engine state and the visited descriptors as they were left. -/
def step_wavespawns_from (fuel : Nat) : pressure_manager α → List (virtual_wavespawn α) →
    Option (pressure_manager α × List (virtual_wavespawn α))
  | s, [] => some (s, [])
  | s, ws :: rest =>
    let ws0 := { ws with time_until_next_spawn := ws.time_until_next_spawn - 1 }
    match fire_spawns fuel s ws0 with
    | none => none
    | some (s1, ws1) =>
      match step_wavespawns_from fuel s1 rest with
      | none => none
      | some (s2, rest1) => some (s2, ws1 :: rest1)

/-- The descriptor phase of a tick (lines 71-83). -/
def step_wavespawns (fuel : Nat) (s : pressure_manager α) : Option (pressure_manager α) :=
  match step_wavespawns_from fuel s s.wavespawns with
  | none => none
  | some (s1, l) => some { s1 with wavespawns := l }

/-- The `for` over `spawns` (lines 86-110) from index `i` on. `--i` and `++i` are taken modulo
`UINT_MOD`, the index being an `unsigned int`. -/
def step_spawns_from : Nat → Nat → pressure_manager α → Option (pressure_manager α)
  | fuel, i, s =>
    if h : i < s.spawns.length then
      match fuel with
      | 0 => none
      | fuel + 1 =>
        let spawn := (s.spawns.get ⟨i, h⟩).decrement_time
        let s1 := { s with spawns := s.spawns.set i spawn }
        if spawn.is_dead then
          let spawn_currency := spawn.get_currency
          let cm1 := s1.mission_currency.add_currency spawn_currency
          let cm2 := cm1.add_approximated_additional_currency spawn_currency
          let s2 := { s1 with mission_currency := cm2, spawns := s1.spawns.eraseIdx i }
          let i1 := (i + UINT_MOD - 1) % UINT_MOD
          step_spawns_from fuel ((i1 + 1) % UINT_MOD) s2
        else
          let s2 := { s1 with pressure := s1.pressure + spawn.get_pressure_per_second }
          step_spawns_from fuel ((i + 1) % UINT_MOD) s2
    else some s

/-- The live-spawn phase of a tick (lines 86-110). -/
def step_spawns (fuel : Nat) (s : pressure_manager α) : Option (pressure_manager α) :=
  step_spawns_from fuel 0 s

/-- The decay at the end of a tick (lines 116-117); `active_spawns` is an `unsigned int`. -/
def apply_decay (s : pressure_manager α) : pressure_manager α :=
  let active_spawns : Nat := s.spawns.length % UINT_MOD
  { s with pressure := s.pressure
      - s.pressure_decay_rate * s.pressure_decay_rate_multiplier_in_time
        / ((active_spawns : α) * (2 / 10) + 1) }

/-- One pass through the body of the `while` of `step_through_time` (lines 64-117), the counter
`t` included. -/
def tick (fuel : Nat) (s : pressure_manager α) (t : Int) : Option (pressure_manager α × Int) :=
  match step_wavespawns fuel s with
  | none => none
  | some s1 =>
    match step_spawns fuel s1 with
    | none => none
    | some s2 => some (apply_decay s2, t + 1)

/-- The `while` of `pressure_manager::step_through_time` (lines 62-118): `fuel` bounds the number
of ticks and `inner` the number of iterations of each loop inside a tick. -/
def step_through_time_loop (inner : Nat) : Nat → pressure_manager α → Int →
    Option (pressure_manager α × Int)
  | fuel, s, t =>
    if 0 < s.pressure then
      match fuel with
      | 0 => none
      | fuel + 1 =>
        match tick inner s t with
        | none => none
        | some (s1, t1) => step_through_time_loop inner fuel s1 t1
    else some (s, t)

/-- The method `pressure_manager::step_through_time`, every loop of the call limited to `fuel`
iterations. -/
def step_through_time (fuel : Nat) (s : pressure_manager α) (t : Int) :
    Option (pressure_manager α × Int) :=
  step_through_time_loop fuel fuel s t

end engine

/-! ## Derived quantities used in the statements -/

section quantities

variable {α : Type} [LinearOrderedField α] [FloorRing α]

/-- Sum of `get_pressure_per_second` over a list of instances. -/
def pps_sum (l : List (virtual_spawn α)) : α :=
  (l.map virtual_spawn.get_pressure_per_second).sum

/-- Sum of `get_currency` over a list of instances. -/
def currency_sum (l : List (virtual_spawn α)) : Int :=
  (l.map virtual_spawn.get_currency).sum

/-- The instances of `l` after `decrement_time` that are not dead, in list order. -/
def survivors (l : List (virtual_spawn α)) : List (virtual_spawn α) :=
  (l.map virtual_spawn.decrement_time).filter (fun sp => !sp.is_dead)

/-- The instances of `l` after `decrement_time` that are dead, in list order. -/
def casualties (l : List (virtual_spawn α)) : List (virtual_spawn α) :=
  (l.map virtual_spawn.decrement_time).filter (fun sp => sp.is_dead)

/-- The two credit calls made for each instance of `l`, in list order. -/
def death_calls : List (virtual_spawn α) → List currency_call
  | [] => []
  | sp :: rest =>
    currency_call.add_currency sp.get_currency
      :: currency_call.add_approximated_additional_currency sp.get_currency
      :: death_calls rest

/-- The live-spawn phase written with a keep-predicate: keep the survivors, add their pressure,
credit the casualties. -/
def step_spawns_filter (s : pressure_manager α) : pressure_manager α :=
  { s with
    mission_currency := { calls := s.mission_currency.calls ++ death_calls (casualties s.spawns) }
    pressure := s.pressure + pps_sum (survivors s.spawns)
    spawns := survivors s.spawns }

/-- The descriptor after the tick's `time_until_next_spawn -= 1`. -/
def counted_down (ws : virtual_wavespawn α) : virtual_wavespawn α :=
  { ws with time_until_next_spawn := ws.time_until_next_spawn - 1 }

/-- The descriptor after `k` passes through the body of the inner `while`. -/
def rearmed (ws : virtual_wavespawn α) (k : Nat) : virtual_wavespawn α :=
  { ws with
    time_until_next_spawn := ws.time_until_next_spawn + (k : α) * ws.wait_between_spawns
    spawns_remaining := ws.spawns_remaining - (k : Int) }

/-- The condition of the inner `while` (line 75). -/
def may_fire (ws : virtual_wavespawn α) : Prop :=
  ws.spawns_remaining ≠ 0 ∧ ws.time_until_next_spawn ≤ 0

/-- The engine after the instances `new` have been appended by `add_virtual_spawn`. -/
def spawned (s : pressure_manager α) (new : List (virtual_spawn α)) : pressure_manager α :=
  { s with pressure := s.pressure + pps_sum new, spawns := s.spawns ++ new }

/-- Runs of the descriptor loop: `wavespawns_run s l s1 l1` when visiting the descriptors `l` in
order from the engine state `s`, each one counted down and then fired as long as `may_fire`
holds, ends in state `s1` with the descriptors left as `l1`. -/
inductive wavespawns_run : pressure_manager α → List (virtual_wavespawn α) →
    pressure_manager α → List (virtual_wavespawn α) → Prop
  | nil (s : pressure_manager α) : wavespawns_run s [] s []
  | cons (s : pressure_manager α) (ws : virtual_wavespawn α) (rest : List (virtual_wavespawn α))
      (k : Nat) (s1 : pressure_manager α) (rest1 : List (virtual_wavespawn α)) :
      (∀ j, j < k → may_fire (rearmed (counted_down ws) j)) →
      ¬ may_fire (rearmed (counted_down ws) k) →
      wavespawns_run (spawned s (List.replicate k (make_virtual_spawn s ws))) rest s1 rest1 →
      wavespawns_run s (ws :: rest) s1 (rearmed (counted_down ws) k :: rest1)

/-- The first `n` passes through the body of the `while` of `step_through_time`, whatever the
pressure. -/
def ticks (inner : Nat) : Nat → pressure_manager α → Int → Option (pressure_manager α × Int)
  | 0, s, t => some (s, t)
  | n + 1, s, t =>
    match tick inner s t with
    | none => none
    | some (s1, t1) => ticks inner n s1 t1

/-- The instances the descriptor phase of one tick appends to the live-spawn list. -/
def spawned_in_tick (fuel : Nat) (s : pressure_manager α) : List (virtual_spawn α) :=
  match step_wavespawns fuel s with
  | none => []
  | some s1 => s1.spawns.drop s.spawns.length

/-- Total amount the engine has credited through `add_currency`. -/
def credited (s : pressure_manager α) : Int :=
  credited_calls s.mission_currency.calls

/-- Total amount the engine has signalled through `add_approximated_additional_currency`. -/
def approximated (s : pressure_manager α) : Int :=
  approximated_calls s.mission_currency.calls

/-- Histories of an engine constructed on the currency manager `cm0`:
`history e cm0 s created removed` when `s` is reached from the fresh engine by registrations,
configuration calls, decay-rate recomputations and ticks of `step_through_time` (each with its
live-spawn list within `unsigned int` index range), `created` lists every instance created on the
way and `removed` every instance taken off the live-spawn list, both oldest first. -/
inductive history (e : externals α) (cm0 : currency_manager) :
    pressure_manager α → List (virtual_spawn α) → List (virtual_spawn α) → Prop
  | fresh (decay0 : α) : history e cm0 (pressure_manager.pressure_manager cm0 decay0) [] []
  | register {s : pressure_manager α} {created removed : List (virtual_spawn α)}
      (ws : virtual_wavespawn α) :
      history e cm0 s created removed →
      history e cm0 (add_virtual_wavespawn s ws) (created ++ [make_virtual_spawn s ws]) removed
  | recalculate {s : pressure_manager α} {created removed : List (virtual_spawn α)} :
      history e cm0 s created removed →
      history e cm0 (calculate_pressure_decay_rate e s) created removed
  | players {s : pressure_manager α} {created removed : List (virtual_spawn α)} (n : Int) :
      history e cm0 s created removed → history e cm0 (set_players s n) created removed
  | multiply {s : pressure_manager α} {created removed : List (virtual_spawn α)} (x : α) :
      history e cm0 s created removed →
      history e cm0 (multiply_pressure_decay_rate_multiplier s x) created removed
  | in_time {s : pressure_manager α} {created removed : List (virtual_spawn α)} (x : α) :
      history e cm0 s created removed →
      history e cm0 (set_pressure_decay_rate_multiplier_in_time s x) created removed
  | path_length {s : pressure_manager α} {created removed : List (virtual_spawn α)} (x : α) :
      history e cm0 s created removed →
      history e cm0 (set_bot_path_length s x) created removed
  | reset {s : pressure_manager α} {created removed : List (virtual_spawn α)} :
      history e cm0 s created removed → history e cm0 (reset_pressure s) created removed
  | tick {s s1 : pressure_manager α} {created removed : List (virtual_spawn α)}
      (fuel : Nat) (t t1 : Int) :
      history e cm0 s created removed →
      MannVsFate.tick fuel s t = some (s1, t1) →
      (s.spawns ++ spawned_in_tick fuel s).length < UINT_MOD →
      history e cm0 s1 (created ++ spawned_in_tick fuel s)
        (removed ++ casualties (s.spawns ++ spawned_in_tick fuel s))

/-- The live-spawn loop (lines 86-110) run `n` times in a row, nothing else happening in
between: the per-tick accumulation without registration, descriptors or decay. -/
def spawn_phases (fuel : Nat) : Nat → pressure_manager α → Option (pressure_manager α)
  | 0, s => some s
  | n + 1, s =>
    match step_spawns fuel s with
    | none => none
    | some s1 => spawn_phases fuel n s1

/-- The caller preconditions on a registered descriptor: `time_to_kill > 0`,
`spawns_remaining ≥ 0`, and `wait_between_spawns > 0` whenever `spawns_remaining > 0`. -/
def wavespawn_ok (ws : virtual_wavespawn α) : Prop :=
  0 < ws.time_to_kill ∧ 0 ≤ ws.spawns_remaining
    ∧ (0 < ws.spawns_remaining → 0 < ws.wait_between_spawns)

/-- Number of instances the descriptors `l` may still spawn. -/
def pending : List (virtual_wavespawn α) → Nat
  | [] => 0
  | ws :: rest => ws.spawns_remaining.toNat + pending rest

/-- Bound on the length the live-spawn list can ever reach: the live instances and those still
to be spawned. -/
def capacity (s : pressure_manager α) : Nat :=
  s.spawns.length + pending s.wavespawns

/-- Bound on the pressure the per-tick accumulation can still add for a live instance. -/
def spawn_load (sp : virtual_spawn α) : α :=
  ((sp.time_left : α) - 1) * max sp.get_pressure_per_second 0

/-- Sum of `spawn_load` over a list of instances. -/
def live_load : List (virtual_spawn α) → α
  | [] => 0
  | sp :: rest => spawn_load sp + live_load rest

/-- Bound on the pressure the instances a descriptor may still spawn can add: front-load and
per-tick accumulation of each. -/
def descriptor_load (s : pressure_manager α) (ws : virtual_wavespawn α) : α :=
  (ws.spawns_remaining : α) * (((make_virtual_spawn s ws).time_left : α)
    * max (make_virtual_spawn s ws).get_pressure_per_second 0)

/-- Sum of `descriptor_load` over a list of descriptors. -/
def pending_load (s : pressure_manager α) : List (virtual_wavespawn α) → α
  | [] => 0
  | ws :: rest => descriptor_load s ws + pending_load s rest

/-- Bound on the pressure before decay at any later time: the pressure now and everything the
live and pending instances can still add. -/
def potential (s : pressure_manager α) : α :=
  s.pressure + live_load s.spawns + pending_load s s.wavespawns

/-- The least amount a tick's decay can subtract while at most `c` instances are live. -/
def least_decay (s : pressure_manager α) (c : Nat) : α :=
  s.pressure_decay_rate * s.pressure_decay_rate_multiplier_in_time / ((c : α) * (2 / 10) + 1)

/-- The amount the decay at the end of a tick (lines 116-117) subtracts from the pressure. -/
def decay_subtracted (s : pressure_manager α) : α :=
  s.pressure - (apply_decay s).pressure

/-- The tunables and the stored decay rate of `s1` are those of `s`: everything but the pressure,
the currency manager and the two live lists. -/
def same_settings (s s1 : pressure_manager α) : Prop :=
  s1.pressure_decay_rate = s.pressure_decay_rate
    ∧ s1.players = s.players
    ∧ s1.base_pressure_decay_rate = s.base_pressure_decay_rate
    ∧ s1.pressure_decay_rate_multiplier = s.pressure_decay_rate_multiplier
    ∧ s1.pressure_decay_rate_multiplier_in_time = s.pressure_decay_rate_multiplier_in_time
    ∧ s1.bot_path_length = s.bot_path_length
    ∧ s1.pps_factor_tfbot = s.pps_factor_tfbot
    ∧ s1.pps_factor_tank = s.pps_factor_tank
    ∧ s1.player_exponent = s.player_exponent

/-- The inner `while` fires the descriptor `ws` exactly `k` times in a tick: counted down, its
condition `may_fire` holds before each of the `k` passes and fails after the last. -/
def fires (ws : virtual_wavespawn α) (k : Nat) : Prop :=
  (∀ j, j < k → may_fire (rearmed (counted_down ws) j)) ∧ ¬ may_fire (rearmed (counted_down ws) k)

/-- The instances a descriptor phase appends when the descriptors `l` fire `ks` times each: for
every descriptor in turn, that many copies of its instance. -/
def fired_blocks (s : pressure_manager α) :
    List (virtual_wavespawn α) → List Nat → List (virtual_spawn α)
  | ws :: l, k :: ks => List.replicate k (make_virtual_spawn s ws) ++ fired_blocks s l ks
  | _, _ => []

/-- The descriptors `l` after a descriptor phase in which they fired `ks` times each. -/
def rearmed_all : List (virtual_wavespawn α) → List Nat → List (virtual_wavespawn α)
  | ws :: l, k :: ks => rearmed (counted_down ws) k :: rearmed_all l ks
  | _, _ => []

/-- The lifetime invariant: every registered descriptor has `time_to_kill > 0` and every live
instance has at least one tick to live. -/
def lifetimes_ok (s : pressure_manager α) : Prop :=
  (∀ ws ∈ s.wavespawns, 0 < ws.time_to_kill) ∧ (∀ sp ∈ s.spawns, 1 ≤ sp.time_left)

/-- How a descriptor `ws` may differ from itself at a later time, `ws1`: `spawns_remaining` has
not grown and has stayed non-negative if it was, and everything but the countdown and
`spawns_remaining` is as it was. -/
def descriptor_step (ws ws1 : virtual_wavespawn α) : Prop :=
  ws1.spawns_remaining ≤ ws.spawns_remaining
    ∧ (0 ≤ ws.spawns_remaining → 0 ≤ ws1.spawns_remaining)
    ∧ ws1.wait_between_spawns = ws.wait_between_spawns
    ∧ ws1.time_to_kill = ws.time_to_kill
    ∧ ws1.effective_pressure = ws.effective_pressure
    ∧ ws1.currency_per_spawn = ws.currency_per_spawn
    ∧ ws1.is_tank = ws.is_tank

/-- The book of instance counts after a tick in which the descriptors fired `ks` times each: the
count of every descriptor grows by the number of instances fired for it. -/
def credit_book :
    List (virtual_wavespawn α × Nat) → List Nat → List (virtual_wavespawn α × Nat)
  | p :: book, k :: ks => (p.1, p.2 + k) :: credit_book book ks
  | _, _ => []

/-- Instance counts per descriptor: `instance_book s book` when `s` is reached from a fresh engine
by registrations, configuration calls, decay-rate recomputations and ticks of
`step_through_time`, and `book` lists, for every registered descriptor in registration order, the
descriptor as it was registered and the number of instances created from it so far: one at
registration, and in every tick the number of times it was fired. -/
inductive instance_book (e : externals α) :
    pressure_manager α → List (virtual_wavespawn α × Nat) → Prop
  | fresh (cm : currency_manager) (decay0 : α) :
      instance_book e (pressure_manager.pressure_manager cm decay0) []
  | register {s : pressure_manager α} {book : List (virtual_wavespawn α × Nat)}
      (ws : virtual_wavespawn α) :
      instance_book e s book → instance_book e (add_virtual_wavespawn s ws) (book ++ [(ws, 1)])
  | recalculate {s : pressure_manager α} {book : List (virtual_wavespawn α × Nat)} :
      instance_book e s book → instance_book e (calculate_pressure_decay_rate e s) book
  | players {s : pressure_manager α} {book : List (virtual_wavespawn α × Nat)} (n : Int) :
      instance_book e s book → instance_book e (set_players s n) book
  | multiply {s : pressure_manager α} {book : List (virtual_wavespawn α × Nat)} (x : α) :
      instance_book e s book → instance_book e (multiply_pressure_decay_rate_multiplier s x) book
  | in_time {s : pressure_manager α} {book : List (virtual_wavespawn α × Nat)} (x : α) :
      instance_book e s book →
      instance_book e (set_pressure_decay_rate_multiplier_in_time s x) book
  | path_length {s : pressure_manager α} {book : List (virtual_wavespawn α × Nat)} (x : α) :
      instance_book e s book → instance_book e (set_bot_path_length s x) book
  | reset {s : pressure_manager α} {book : List (virtual_wavespawn α × Nat)} :
      instance_book e s book → instance_book e (reset_pressure s) book
  | tick {s s1 : pressure_manager α} {book : List (virtual_wavespawn α × Nat)}
      (fuel : Nat) (t t1 : Int) (ks : List Nat) :
      instance_book e s book →
      MannVsFate.tick fuel s t = some (s1, t1) →
      List.Forall₂ fires s.wavespawns ks →
      instance_book e s1 (credit_book book ks)

/-- The count `p.2` booked for a descriptor registered as `p.1` and now standing as `ws` is one
more than the instances it has given up: `1 + (n - spawns_remaining)`. -/
def booked (ws : virtual_wavespawn α) (p : virtual_wavespawn α × Nat) : Prop :=
  (p.2 : Int) = 1 + (p.1.spawns_remaining - ws.spawns_remaining)

/-- What makes a tick return within `fuel`: no descriptor has a negative `spawns_remaining`, and
the live instances together with those still to be spawned fit the `unsigned int` index and the
fuel. -/
def tick_ready (fuel : Nat) (s : pressure_manager α) : Prop :=
  (∀ ws ∈ s.wavespawns, 0 ≤ ws.spawns_remaining) ∧ capacity s < UINT_MOD ∧ capacity s ≤ fuel

/-- The state a tick leaves when its descriptors fire `ks` times each: the instances are appended
with their front-load and the descriptors rearmed (lines 71-83), the live-spawn list is filtered
(lines 86-110), and the decay is applied (lines 116-117). -/
def tick_result (s : pressure_manager α) (ks : List Nat) : pressure_manager α :=
  apply_decay (step_spawns_filter
    { spawned s (fired_blocks s s.wavespawns ks) with
      wavespawns := rearmed_all s.wavespawns ks })

/-- The amount one pass of the live-spawn loop adds to the pressure for the instance `sp`
(lines 89-108): nothing if the decrement kills it, its rate otherwise. -/
def tick_share (sp : virtual_spawn α) : α :=
  if sp.decrement_time.is_dead then 0 else sp.decrement_time.get_pressure_per_second

/-- The instance `sp` after `n` calls of `decrement_time`. -/
def aged (sp : virtual_spawn α) (n : Nat) : virtual_spawn α :=
  { sp with time_left := sp.time_left - (n : Int) }

/-- The instance `sp` after one pass of the live-spawn loop, as a list: empty if the pass
removed it. -/
def kept (sp : virtual_spawn α) : List (virtual_spawn α) :=
  if sp.decrement_time.is_dead then [] else [sp.decrement_time]

/-- The number `k` is the least with `r - k = 0` or `(c - 1) + k * w > 0`, for the descriptor
`ws` with `spawns_remaining = r`, countdown `c` and interval `w`. -/
def least_firing (ws : virtual_wavespawn α) (k : Nat) : Prop :=
  (ws.spawns_remaining - (k : Int) = 0
      ∨ 0 < ws.time_until_next_spawn - 1 + (k : α) * ws.wait_between_spawns)
    ∧ ∀ j : Nat, j < k →
        ¬ (ws.spawns_remaining - (j : Int) = 0
            ∨ 0 < ws.time_until_next_spawn - 1 + (j : α) * ws.wait_between_spawns)

/-- The descriptor `ws1` is what the descriptor phase of a tick makes of `ws`: for the least `k`
with `r - k = 0` or `(c - 1) + k * w > 0`, `spawns_remaining` is `r - k` and the countdown is
`(c - 1) + k * w`. -/
def descriptor_after_tick (ws ws1 : virtual_wavespawn α) : Prop :=
  ∃ k : Nat, least_firing ws k
    ∧ ws1.spawns_remaining = ws.spawns_remaining - (k : Int)
    ∧ ws1.time_until_next_spawn
        = ws.time_until_next_spawn - 1 + (k : α) * ws.wait_between_spawns

end quantities

/-! ## Concrete scenarios -/

/-- The descriptor of the spec's scenario: `effective_pressure = 50`, `time_to_kill = 4.2`,
not a tank, nothing left to spawn. -/
def descriptor_50 : virtual_wavespawn ℚ where
  time_until_next_spawn := 0
  wait_between_spawns := 1
  spawns_remaining := 0
  time_to_kill := 42 / 10
  effective_pressure := 50
  currency_per_spawn := 7
  is_tank := false

/-- A freshly constructed engine whose decay rate is 42, the value
`calculate_pressure_decay_rate` gives for the constructor defaults and no currency pressure. -/
def engine_42 : pressure_manager ℚ :=
  pressure_manager.pressure_manager { calls := [] } 42

/-- A descriptor that still has three instances to spawn, two ticks apart. -/
def descriptor_wave : virtual_wavespawn ℚ where
  time_until_next_spawn := 2
  wait_between_spawns := 2
  spawns_remaining := 3
  time_to_kill := 42 / 10
  effective_pressure := 50
  currency_per_spawn := 7
  is_tank := false

/-- A descriptor whose instance lives a single tick: `time_to_kill = 1`, `effective_pressure = 50`,
7 currency, nothing left to spawn. -/
def descriptor_quick : virtual_wavespawn ℚ where
  time_until_next_spawn := 0
  wait_between_spawns := 1
  spawns_remaining := 0
  time_to_kill := 1
  effective_pressure := 50
  currency_per_spawn := 7
  is_tank := false

/-- The engine reached by `-difficulty 0`: on the default engine with decay rate 42 the multiplier
in time is set to 0, then a descriptor whose instance lives one tick is registered. -/
def engine_no_decay : pressure_manager ℚ :=
  add_virtual_wavespawn (set_pressure_decay_rate_multiplier_in_time engine_42 0) descriptor_quick

/-- A descriptor with a short interval: five instances left, half a tick apart, due now. -/
def descriptor_burst : virtual_wavespawn ℚ where
  time_until_next_spawn := 0
  wait_between_spawns := 1 / 2
  spawns_remaining := 5
  time_to_kill := 42 / 10
  effective_pressure := 50
  currency_per_spawn := 7
  is_tank := false

/-- The default engine with two live instances, the first in its last tick. -/
def engine_two : pressure_manager ℚ :=
  { engine_42 with
    spawns := [{ time_left := 1, pressure_per_second := 10, effective_pressure := 50,
                 currency := 7 },
               { time_left := 3, pressure_per_second := 5, effective_pressure := 50,
                 currency := 2 }] }

/-- A descriptor outside the caller preconditions: `time_to_kill = 0`. -/
def descriptor_zero : virtual_wavespawn ℚ where
  time_until_next_spawn := 0
  wait_between_spawns := 1
  spawns_remaining := 0
  time_to_kill := 0
  effective_pressure := 50
  currency_per_spawn := 7
  is_tank := false

/-- A descriptor with one instance left that is due in the next tick. -/
def descriptor_due : virtual_wavespawn ℚ where
  time_until_next_spawn := 1
  wait_between_spawns := 3
  spawns_remaining := 1
  time_to_kill := 42 / 10
  effective_pressure := 50
  currency_per_spawn := 7
  is_tank := false

/-- The default engine with decay rate 42 holding `descriptor_due` and no live instance, as after
the death of the instance created at registration. -/
def engine_due : pressure_manager ℚ :=
  { engine_42 with wavespawns := [descriptor_due] }

/-- The default engine with decay rate 42 in the middle of a wave: two live instances, the first
in its last tick, and a descriptor due now with five instances left, half a tick apart. -/
def engine_busy : pressure_manager ℚ :=
  { engine_two with wavespawns := [descriptor_burst] }

/-! ## Registration and the decay rate -/

section registration

variable {α : Type} [LinearOrderedField α] [FloorRing α]

theorem ceil_42_10 : Int.ceil (42 / 10 : ℚ) = 5 := by
  rw [Int.ceil_eq_iff]; norm_num

/-- C2: for a descriptor with `time_to_kill > 0`, `add_virtual_spawn` appends one instance at the
end of the live-spawn list; its lifetime is the ceiling of `time_to_kill` (the least integer not
below it, at least 1), its rate is `effective_pressure / ceil(time_to_kill)` times the tank or
standard factor, and its currency value is the descriptor's `currency_per_spawn`. -/
theorem add_virtual_spawn_instance (s : pressure_manager α) (ws : virtual_wavespawn α)
    (h : 0 < ws.time_to_kill) :
    ∃ sp : virtual_spawn α,
      (add_virtual_spawn s ws).spawns = s.spawns ++ [sp]
      ∧ sp.time_left = Int.ceil ws.time_to_kill
      ∧ ((sp.time_left : α) - 1 < ws.time_to_kill ∧ ws.time_to_kill ≤ (sp.time_left : α))
      ∧ 1 ≤ sp.time_left
      ∧ sp.get_pressure_per_second
          = ws.effective_pressure / ((Int.ceil ws.time_to_kill : Int) : α)
            * (if ws.is_tank then s.pps_factor_tank else s.pps_factor_tfbot)
      ∧ sp.get_currency = ws.currency_per_spawn := by
  refine ⟨make_virtual_spawn s ws, rfl, rfl, ?_, ?_, rfl, rfl⟩
  · have h1 : Int.ceil ws.time_to_kill = Int.ceil ws.time_to_kill := rfl
    rw [Int.ceil_eq_iff] at h1
    exact h1
  · exact Int.one_le_ceil_iff.mpr h

/-- The scenario of C2: `effective_pressure = 50`, `time_to_kill = 4.2`, not a tank, factor 1
give an instance of lifetime 5 and rate 10. -/
theorem add_virtual_spawn_instance_witness :
    (0 : ℚ) < descriptor_50.time_to_kill
    ∧ ∃ sp : virtual_spawn ℚ,
        (add_virtual_spawn engine_42 descriptor_50).spawns = engine_42.spawns ++ [sp]
        ∧ sp.time_left = 5 ∧ sp.get_pressure_per_second = 10
        ∧ sp.get_currency = descriptor_50.currency_per_spawn := by
  have h0 : (0 : ℚ) < descriptor_50.time_to_kill := by
    norm_num [descriptor_50]
  refine ⟨h0, ?_⟩
  obtain ⟨sp, h1, h2, -, -, h5, h6⟩ := add_virtual_spawn_instance engine_42 descriptor_50 h0
  refine ⟨sp, h1, ?_, ?_, h6⟩
  · rw [h2]; exact ceil_42_10
  · rw [h5]
    have : Int.ceil descriptor_50.time_to_kill = 5 := ceil_42_10
    rw [this]
    norm_num [descriptor_50, engine_42, pressure_manager.pressure_manager]

/-- C3: `add_virtual_wavespawn` appends the descriptor to the descriptor list, appends exactly one
instance (the one `add_virtual_spawn` builds from it) to the live-spawn list, raises the pressure
by that instance's rate, and credits nothing; on a fresh engine the descriptor
`effective_pressure = 50`, `time_to_kill = 4.2` takes the pressure from 0 to 10. -/
theorem add_virtual_wavespawn_effect :
    (∀ (s : pressure_manager α) (ws : virtual_wavespawn α),
      (add_virtual_wavespawn s ws).wavespawns = s.wavespawns ++ [ws]
      ∧ (add_virtual_wavespawn s ws).spawns = s.spawns ++ [make_virtual_spawn s ws]
      ∧ (add_virtual_wavespawn s ws).pressure
          = s.pressure + (make_virtual_spawn s ws).get_pressure_per_second
      ∧ (add_virtual_wavespawn s ws).spawns.length = s.spawns.length + 1
      ∧ (add_virtual_wavespawn s ws).wavespawns.length = s.wavespawns.length + 1
      ∧ (add_virtual_wavespawn s ws).mission_currency = s.mission_currency)
    ∧ (engine_42.pressure = 0 ∧ (add_virtual_wavespawn engine_42 descriptor_50).pressure = 10) := by
  refine ⟨fun s ws => ⟨rfl, rfl, rfl, ?_, ?_, rfl⟩, rfl, ?_⟩
  · simp [add_virtual_wavespawn, add_virtual_spawn]
  · simp [add_virtual_wavespawn, add_virtual_spawn]
  · have h : Int.ceil (descriptor_50.time_to_kill) = 5 := ceil_42_10
    simp only [add_virtual_wavespawn, add_virtual_spawn, make_virtual_spawn,
      virtual_spawn.get_pressure_per_second, h]
    norm_num [descriptor_50, engine_42, pressure_manager.pressure_manager]

/-- C4: `calculate_pressure_decay_rate` stores
`(currency_pressure + base_decay_rate) * players ^ player_exponent * decay_rate_multiplier *
bot_path_length` in `pressure_decay_rate` and leaves every other member as it was; over the reals,
with the constructor defaults and currency pressure 0, the stored value is 42. -/
theorem calculate_pressure_decay_rate_effect :
    (∀ (e : externals α) (s : pressure_manager α),
      (calculate_pressure_decay_rate e s).pressure_decay_rate
          = (e.get_currency_pressure s.mission_currency + s.base_pressure_decay_rate)
            * e.pow (s.players : α) s.player_exponent
            * s.pressure_decay_rate_multiplier * s.bot_path_length
      ∧ get_effective_players e s = e.pow (s.players : α) s.player_exponent
      ∧ calculate_pressure_decay_rate e s
          = { s with pressure_decay_rate := (calculate_pressure_decay_rate e s).pressure_decay_rate })
    ∧ (∀ (cm : currency_manager) (decay0 : ℝ),
        (calculate_pressure_decay_rate
          ({ get_currency_pressure := fun _ => 0, pow := fun (x y : ℝ) => x ^ y } : externals ℝ)
          (pressure_manager.pressure_manager cm decay0)).pressure_decay_rate = 42) := by
  refine ⟨fun e s => ⟨rfl, rfl, rfl⟩, fun cm decay0 => ?_⟩
  simp only [calculate_pressure_decay_rate, get_effective_players,
    pressure_manager.pressure_manager]
  norm_num

end registration

section spawn_loop
variable {α : Type} [LinearOrderedField α] [FloorRing α]

theorem uint_step_back (i : Nat) (h : i < UINT_MOD) :
    ((i + UINT_MOD - 1) % UINT_MOD + 1) % UINT_MOD = i := by
  unfold UINT_MOD at *
  omega

theorem survivors_cons_dead (x : virtual_spawn α) (xs : List (virtual_spawn α))
    (h : x.decrement_time.is_dead = true) : survivors (x :: xs) = survivors xs := by
  simp [survivors, h]

theorem survivors_cons_alive (x : virtual_spawn α) (xs : List (virtual_spawn α))
    (h : x.decrement_time.is_dead = false) :
    survivors (x :: xs) = x.decrement_time :: survivors xs := by
  simp [survivors, h]

theorem casualties_cons_dead (x : virtual_spawn α) (xs : List (virtual_spawn α))
    (h : x.decrement_time.is_dead = true) :
    casualties (x :: xs) = x.decrement_time :: casualties xs := by
  simp [casualties, h]

theorem casualties_cons_alive (x : virtual_spawn α) (xs : List (virtual_spawn α))
    (h : x.decrement_time.is_dead = false) : casualties (x :: xs) = casualties xs := by
  simp [casualties, h]

/-- The state the live-spawn loop reaches from index `pre.length` when the list is
`pre ++ suf`. -/
theorem step_spawns_from_eq (suf : List (virtual_spawn α)) :
    ∀ (pre : List (virtual_spawn α)) (s : pressure_manager α) (fuel : Nat),
      s.spawns = pre ++ suf → (pre ++ suf).length < UINT_MOD →
      step_spawns_from fuel pre.length s
        = if suf.length ≤ fuel then
            some { s with
              mission_currency :=
                { calls := s.mission_currency.calls ++ death_calls (casualties suf) }
              pressure := s.pressure + pps_sum (survivors suf)
              spawns := pre ++ survivors suf }
          else none := by
  induction suf with
  | nil =>
    intro pre s fuel hs hlen
    obtain ⟨cm, p, d, pl, b, m, mt, bp, f1, f2, pe, wsl, sps⟩ := s
    simp only at hs
    subst hs
    unfold step_spawns_from
    simp [survivors, casualties, death_calls, pps_sum]
  | cons x xs ih =>
    intro pre s fuel hs hlen
    obtain ⟨cm, p, d, pl, b, m, mt, bp, f1, f2, pe, wsl, sps⟩ := s
    simp only at hs
    subst hs
    unfold step_spawns_from
    have hi : pre.length < (pre ++ x :: xs).length := by simp
    rw [dif_pos hi]
    cases fuel with
    | zero => simp
    | succ f =>
      have hget : (pre ++ x :: xs).get ⟨pre.length, hi⟩ = x := by
        simp [List.getElem_append_right]
      simp only [hget]
      have hset : (pre ++ x :: xs).set pre.length x.decrement_time
          = pre ++ x.decrement_time :: xs := by
        simp
      simp only [hset]
      have herase : (pre ++ x.decrement_time :: xs).eraseIdx pre.length = pre ++ xs := by
        simp [List.eraseIdx_append_of_length_le]
      cases hd : x.decrement_time.is_dead with
      | true =>
        simp only [hd, if_true]
        have hib : pre.length < UINT_MOD := by
          simp at hlen; omega
        rw [uint_step_back _ hib]
        rw [ih pre _ f (by simp [herase]) (by simp at hlen ⊢; omega)]
        simp [survivors_cons_dead _ _ hd, casualties_cons_dead _ _ hd, death_calls,
          currency_manager.add_currency, currency_manager.add_approximated_additional_currency]
      | false =>
        simp only [Bool.false_eq_true, ↓reduceIte]
        have hib : (pre.length + 1) % UINT_MOD = (pre ++ [x.decrement_time]).length := by
          simp at hlen ⊢
          exact Nat.mod_eq_of_lt (by omega)
        rw [hib]
        rw [ih (pre ++ [x.decrement_time]) _ f (by simp) (by simp at hlen ⊢; omega)]
        simp [survivors_cons_alive _ _ hd, casualties_cons_alive _ _ hd, pps_sum, add_assoc]
end spawn_loop

section descriptors

variable {α : Type} [LinearOrderedField α] [FloorRing α]

theorem pps_sum_nil : pps_sum ([] : List (virtual_spawn α)) = 0 := rfl

theorem pps_sum_cons (x : virtual_spawn α) (l : List (virtual_spawn α)) :
    pps_sum (x :: l) = x.get_pressure_per_second + pps_sum l := by
  simp [pps_sum]

theorem pps_sum_append (l1 l2 : List (virtual_spawn α)) :
    pps_sum (l1 ++ l2) = pps_sum l1 + pps_sum l2 := by
  simp [pps_sum]

theorem pps_sum_replicate (k : Nat) (x : virtual_spawn α) :
    pps_sum (List.replicate k x) = (k : α) * x.get_pressure_per_second := by
  induction k with
  | zero => simp [pps_sum]
  | succ n ih =>
    rw [List.replicate_succ, pps_sum_cons, ih]
    push_cast
    ring

theorem spawned_nil (s : pressure_manager α) : spawned s [] = s := by
  cases s
  simp [spawned, pps_sum]

theorem spawned_spawned (s : pressure_manager α) (l1 l2 : List (virtual_spawn α)) :
    spawned (spawned s l1) l2 = spawned s (l1 ++ l2) := by
  simp [spawned, pps_sum_append, add_assoc]

theorem add_virtual_spawn_eq_spawned (s : pressure_manager α) (ws : virtual_wavespawn α) :
    add_virtual_spawn s ws = spawned s [make_virtual_spawn s ws] := by
  simp [add_virtual_spawn, spawned, pps_sum]

theorem make_virtual_spawn_spawned (s : pressure_manager α) (l : List (virtual_spawn α))
    (ws : virtual_wavespawn α) :
    make_virtual_spawn (spawned s l) ws = make_virtual_spawn s ws := rfl

theorem make_virtual_spawn_rearmed (s : pressure_manager α) (ws : virtual_wavespawn α) (k : Nat) :
    make_virtual_spawn s (rearmed ws k) = make_virtual_spawn s ws := rfl

theorem make_virtual_spawn_counted_down (s : pressure_manager α) (ws : virtual_wavespawn α) :
    make_virtual_spawn s (counted_down ws) = make_virtual_spawn s ws := rfl

theorem rearmed_zero (ws : virtual_wavespawn α) : rearmed ws 0 = ws := by
  cases ws
  simp [rearmed]

/-- What the inner `while` of the descriptor loop returns: some number `k` of instances of the
descriptor was fired, the loop condition held before each of them and fails at the end. -/
theorem fire_spawns_eq (fuel : Nat) :
    ∀ (s : pressure_manager α) (ws : virtual_wavespawn α)
      (r : pressure_manager α × virtual_wavespawn α),
      fire_spawns fuel s ws = some r →
      ∃ k : Nat, k ≤ fuel
        ∧ r = (spawned s (List.replicate k (make_virtual_spawn s ws)), rearmed ws k)
        ∧ (∀ j, j < k → may_fire (rearmed ws j))
        ∧ ¬ may_fire (rearmed ws k) := by
  induction fuel with
  | zero =>
    intro s ws r h
    unfold fire_spawns at h
    by_cases hc : ws.spawns_remaining ≠ 0 ∧ ws.time_until_next_spawn ≤ 0
    · rw [if_pos hc] at h
      simp at h
    · rw [if_neg hc] at h
      refine ⟨0, le_refl _, ?_, ?_, ?_⟩
      · simp at h
        simp [← h, spawned_nil, rearmed_zero]
      · intro j hj
        omega
      · rw [rearmed_zero]
        exact hc
  | succ f ih =>
    intro s ws r h
    unfold fire_spawns at h
    by_cases hc : ws.spawns_remaining ≠ 0 ∧ ws.time_until_next_spawn ≤ 0
    · rw [if_pos hc] at h
      simp only at h
      obtain ⟨k, hk, hr, hbefore, hafter⟩ := ih _ _ r h
      have hre : ∀ j : Nat,
          rearmed ({ ws with
            spawns_remaining := ws.spawns_remaining - 1
            time_until_next_spawn := ws.time_until_next_spawn + ws.wait_between_spawns }) j
          = rearmed ws (j + 1) := by
        intro j
        simp only [rearmed]
        congr 1
        · push_cast; ring
        · push_cast; ring
      refine ⟨k + 1, by omega, ?_, ?_, ?_⟩
      · rw [hr, add_virtual_spawn_eq_spawned, spawned_spawned, hre]
        rfl
      · intro j hj
        cases j with
        | zero =>
          rw [rearmed_zero]
          exact hc
        | succ j =>
          rw [← hre]
          exact hbefore j (by omega)
      · rw [← hre]
        exact hafter
    · rw [if_neg hc] at h
      refine ⟨0, Nat.zero_le _, ?_, ?_, ?_⟩
      · simp at h
        simp [← h, spawned_nil, rearmed_zero]
      · intro j hj
        omega
      · rw [rearmed_zero]
        exact hc

/-- The descriptor loop, when it returns, has made a run. -/
theorem step_wavespawns_from_run (fuel : Nat) (l : List (virtual_wavespawn α)) :
    ∀ (s s1 : pressure_manager α) (l1 : List (virtual_wavespawn α)),
      step_wavespawns_from fuel s l = some (s1, l1) → wavespawns_run s l s1 l1 := by
  induction l with
  | nil =>
    intro s s1 l1 h
    simp [step_wavespawns_from] at h
    obtain ⟨h1, h2⟩ := h
    subst h1 h2
    exact wavespawns_run.nil s
  | cons ws rest ih =>
    intro s s1 l1 h
    simp only [step_wavespawns_from] at h
    cases hf : fire_spawns fuel s
        { ws with time_until_next_spawn := ws.time_until_next_spawn - 1 } with
    | none => simp [hf] at h
    | some r =>
      obtain ⟨k, -, hr, hbefore, hafter⟩ := fire_spawns_eq fuel _ _ r hf
      subst hr
      simp only [hf] at h
      cases hrest : step_wavespawns_from fuel
          (spawned s (List.replicate k (make_virtual_spawn s
            { ws with time_until_next_spawn := ws.time_until_next_spawn - 1 })))
          rest with
      | none => simp [hrest] at h
      | some r2 =>
        obtain ⟨s2, rest2⟩ := r2
        simp only [hrest] at h
        simp at h
        obtain ⟨h1, h2⟩ := h
        subst h1 h2
        exact wavespawns_run.cons s ws rest k s2 rest2 hbefore hafter (ih _ _ _ hrest)

end descriptors

section effective_players

/-- C10 (as amended): over the reals, with `pow` the real power function,
`get_effective_players` returns `players ^ player_exponent`; it equals `players` whenever
`player_exponent = 1`; for more than one player it equals `players` exactly when
`player_exponent = 1`; for one player it equals `players` whatever the exponent; and for
`player_exponent ≥ 0` it is non-decreasing in the player count on `0 ≤ n ≤ m`. -/
theorem get_effective_players_real (e : externals ℝ)
    (he : e.pow = fun (x y : ℝ) => x ^ y) :
    (∀ s : pressure_manager ℝ,
        get_effective_players e s = (s.players : ℝ) ^ s.player_exponent)
    ∧ (∀ s : pressure_manager ℝ, s.player_exponent = 1 →
        get_effective_players e s = (s.players : ℝ))
    ∧ (∀ s : pressure_manager ℝ, 1 < s.players →
        (get_effective_players e s = (s.players : ℝ) ↔ s.player_exponent = 1))
    ∧ (∀ s : pressure_manager ℝ, s.players = 1 →
        get_effective_players e s = (s.players : ℝ))
    ∧ (∀ (s : pressure_manager ℝ) (n m : Int), 0 ≤ s.player_exponent → 0 ≤ n → n ≤ m →
        get_effective_players e (set_players s n) ≤ get_effective_players e (set_players s m)) := by
  refine ⟨?_, ?_, ?_, ?_, ?_⟩
  · intro s
    simp [get_effective_players, he]
  · intro s h1
    simp [get_effective_players, he, h1]
  · intro s hs
    constructor
    · intro heq
      simp only [get_effective_players, he] at heq
      have hbase : (1 : ℝ) < (s.players : ℝ) := by exact_mod_cast hs
      have h1 : (s.players : ℝ) ^ s.player_exponent = (s.players : ℝ) ^ (1 : ℝ) := by
        rw [heq, Real.rpow_one]
      apply le_antisymm
      · exact (Real.rpow_le_rpow_left_iff hbase).mp (le_of_eq h1)
      · exact (Real.rpow_le_rpow_left_iff hbase).mp (le_of_eq h1.symm)
    · intro h1
      simp [get_effective_players, he, h1]
  · intro s h1
    simp [get_effective_players, he, h1]
  · intro s n m hexp hn hnm
    simp only [get_effective_players, he, set_players]
    apply Real.rpow_le_rpow
    · exact_mod_cast hn
    · exact_mod_cast hnm
    · exact hexp

/-- Four players are worth no less than two, with the default exponent; and with four players
the value is 4 exactly when the exponent is 1, as it is by default. -/
theorem get_effective_players_real_witness :
    get_effective_players
        ({ get_currency_pressure := fun _ => 0, pow := fun (x y : ℝ) => x ^ y } : externals ℝ)
        (set_players (pressure_manager.pressure_manager { calls := [] } 0) 2)
      ≤ get_effective_players
        ({ get_currency_pressure := fun _ => 0, pow := fun (x y : ℝ) => x ^ y } : externals ℝ)
        (set_players (pressure_manager.pressure_manager { calls := [] } 0) 4)
    ∧ (get_effective_players
        ({ get_currency_pressure := fun _ => 0, pow := fun (x y : ℝ) => x ^ y } : externals ℝ)
        (pressure_manager.pressure_manager { calls := [] } 0)
          = (((pressure_manager.pressure_manager { calls := [] } 0
              : pressure_manager ℝ).players : Int) : ℝ)
        ↔ (pressure_manager.pressure_manager { calls := [] } 0
            : pressure_manager ℝ).player_exponent = 1) :=
  ⟨(get_effective_players_real _ rfl).2.2.2.2 _ 2 4
      (by simp [pressure_manager.pressure_manager]) (by norm_num) (by norm_num),
    (get_effective_players_real _ rfl).2.2.1 _ (by simp [pressure_manager.pressure_manager])⟩

/-- Counterexample to C10 as stated (the value equals the player count exactly when the exponent
is 1): with one player the value is `1 ^ y = 1`, the player count, whatever the exponent, here
for the exponent 2 and for the exponent 1.175 that the constructor names in its comment. -/
theorem effective_players_one_player :
    (get_effective_players
        ({ get_currency_pressure := fun _ => 0, pow := fun (x y : ℝ) => x ^ y } : externals ℝ)
        { set_players (pressure_manager.pressure_manager { calls := [] } 0) 1 with
          player_exponent := 2 }
      = ((({ set_players (pressure_manager.pressure_manager { calls := [] } 0) 1 with
            player_exponent := 2 } : pressure_manager ℝ).players : Int) : ℝ)
      ∧ ({ set_players (pressure_manager.pressure_manager { calls := [] } 0) 1 with
            player_exponent := 2 } : pressure_manager ℝ).player_exponent ≠ 1)
    ∧ (get_effective_players
        ({ get_currency_pressure := fun _ => 0, pow := fun (x y : ℝ) => x ^ y } : externals ℝ)
        { set_players (pressure_manager.pressure_manager { calls := [] } 0) 1 with
          player_exponent := 1175 / 1000 }
      = ((({ set_players (pressure_manager.pressure_manager { calls := [] } 0) 1 with
            player_exponent := 1175 / 1000 } : pressure_manager ℝ).players : Int) : ℝ)
      ∧ ({ set_players (pressure_manager.pressure_manager { calls := [] } 0) 1 with
            player_exponent := 1175 / 1000 } : pressure_manager ℝ).player_exponent ≠ 1) := by
  refine ⟨⟨?_, ?_⟩, ⟨?_, ?_⟩⟩
  · simp [get_effective_players, set_players]
  · simp [set_players]
  · simp [get_effective_players, set_players]
  · simp only [set_players]
    norm_num

end effective_players

section one_tick

variable {α : Type} [LinearOrderedField α] [FloorRing α]

/-- A run of the descriptor loop only appends instances. -/
theorem wavespawns_run_spawned {s s1 : pressure_manager α} {l l1 : List (virtual_wavespawn α)}
    (h : wavespawns_run s l s1 l1) : ∃ new, s1 = spawned s new := by
  induction h with
  | nil s => exact ⟨[], (spawned_nil s).symm⟩
  | cons s ws rest k s1 rest1 _ _ _ ih =>
    obtain ⟨new, hnew⟩ := ih
    exact ⟨_, by rw [hnew, spawned_spawned]⟩

/-- The descriptor phase, when it returns, has made a run over the registered descriptors. -/
theorem step_wavespawns_eq {fuel : Nat} {s s1 : pressure_manager α}
    (h : step_wavespawns fuel s = some s1) :
    ∃ s2 l1, wavespawns_run s s.wavespawns s2 l1 ∧ s1 = { s2 with wavespawns := l1 } := by
  unfold step_wavespawns at h
  cases hr : step_wavespawns_from fuel s s.wavespawns with
  | none => simp [hr] at h
  | some r =>
    obtain ⟨s2, l1⟩ := r
    simp [hr] at h
    exact ⟨s2, l1, step_wavespawns_from_run fuel _ _ _ _ hr, h.symm⟩

/-- The descriptor phase appends instances, adds their front-load and rewrites the descriptors;
nothing else. -/
theorem step_wavespawns_spawned {fuel : Nat} {s s1 : pressure_manager α}
    (h : step_wavespawns fuel s = some s1) :
    ∃ new, s1 = { spawned s new with wavespawns := s1.wavespawns } := by
  obtain ⟨s2, l1, hrun, hs1⟩ := step_wavespawns_eq h
  obtain ⟨new, hnew⟩ := wavespawns_run_spawned hrun
  exact ⟨new, by rw [hs1, hnew]⟩

/-- The live-spawn loop agrees with its keep-predicate formulation as long as the index fits an
`unsigned int`. -/
theorem step_spawns_eq (fuel : Nat) (s : pressure_manager α)
    (hfit : s.spawns.length < UINT_MOD) :
    step_spawns fuel s
      = if s.spawns.length ≤ fuel then some (step_spawns_filter s) else none := by
  have h := step_spawns_from_eq s.spawns [] s fuel (by simp) (by simpa using hfit)
  simpa [step_spawns, step_spawns_filter] using h

theorem spawned_in_tick_eq {fuel : Nat} {s s1 : pressure_manager α}
    {new : List (virtual_spawn α)} (h : step_wavespawns fuel s = some s1)
    (hnew : s1.spawns = s.spawns ++ new) : spawned_in_tick fuel s = new := by
  simp [spawned_in_tick, h, hnew]

/-- One tick, when it returns: the descriptor phase appended `spawned_in_tick`, and if the
live-spawn list then fits an `unsigned int` index the rest of the tick is the keep-predicate
phase followed by the decay. -/
theorem tick_eq {fuel : Nat} {s s1 : pressure_manager α} {t t1 : Int}
    (h : tick fuel s t = some (s1, t1)) :
    t1 = t + 1
    ∧ ∃ s2, step_wavespawns fuel s = some s2
        ∧ s2 = { spawned s (spawned_in_tick fuel s) with wavespawns := s2.wavespawns }
        ∧ (s2.spawns.length < UINT_MOD → s1 = apply_decay (step_spawns_filter s2)) := by
  unfold tick at h
  cases hw : step_wavespawns fuel s with
  | none => simp [hw] at h
  | some s2 =>
    simp only [hw] at h
    cases hsp : step_spawns fuel s2 with
    | none => simp [hsp] at h
    | some s3 =>
      simp only [hsp] at h
      simp at h
      obtain ⟨h1, h2⟩ := h
      refine ⟨h2.symm, s2, rfl, ?_, ?_⟩
      · obtain ⟨new, hnew⟩ := step_wavespawns_spawned hw
        have : s2.spawns = s.spawns ++ new := by
          rw [hnew]; rfl
        rw [spawned_in_tick_eq hw this]
        exact hnew
      · intro hfit
        rw [step_spawns_eq fuel s2 hfit] at hsp
        by_cases hle : s2.spawns.length ≤ fuel
        · rw [if_pos hle] at hsp
          simp at hsp
          rw [← h1, hsp]
        · rw [if_neg hle] at hsp
          simp at hsp

end one_tick

section tick_laws

variable {α : Type} [LinearOrderedField α] [FloorRing α]

theorem credited_calls_append (l1 l2 : List currency_call) :
    credited_calls (l1 ++ l2) = credited_calls l1 + credited_calls l2 := by
  induction l1 with
  | nil => simp [credited_calls]
  | cons c rest ih =>
    cases c with
    | add_currency a => simp [credited_calls, ih, add_assoc]
    | add_approximated_additional_currency a => simp [credited_calls, ih]

theorem approximated_calls_append (l1 l2 : List currency_call) :
    approximated_calls (l1 ++ l2) = approximated_calls l1 + approximated_calls l2 := by
  induction l1 with
  | nil => simp [approximated_calls]
  | cons c rest ih =>
    cases c with
    | add_currency a => simp [approximated_calls, ih]
    | add_approximated_additional_currency a => simp [approximated_calls, ih, add_assoc]

theorem credited_death_calls (l : List (virtual_spawn α)) :
    credited_calls (death_calls l) = currency_sum l := by
  induction l with
  | nil => rfl
  | cons x rest ih => simp [death_calls, credited_calls, currency_sum, ih] at ih ⊢

theorem approximated_death_calls (l : List (virtual_spawn α)) :
    approximated_calls (death_calls l) = currency_sum l := by
  induction l with
  | nil => rfl
  | cons x rest ih => simp [death_calls, approximated_calls, currency_sum, ih] at ih ⊢

theorem currency_sum_append (l1 l2 : List (virtual_spawn α)) :
    currency_sum (l1 ++ l2) = currency_sum l1 + currency_sum l2 := by
  simp [currency_sum]

/-- Decrementing splits a list into survivors and casualties without changing any currency
value. -/
theorem currency_sum_split (l : List (virtual_spawn α)) :
    currency_sum (survivors l) + currency_sum (casualties l) = currency_sum l := by
  induction l with
  | nil => rfl
  | cons x rest ih =>
    have hx : x.decrement_time.get_currency = x.get_currency := rfl
    cases hd : x.decrement_time.is_dead with
    | true =>
      rw [survivors_cons_dead _ _ hd, casualties_cons_dead _ _ hd]
      simp only [currency_sum, List.map_cons, List.sum_cons] at ih ⊢
      rw [hx]
      omega
    | false =>
      rw [survivors_cons_alive _ _ hd, casualties_cons_alive _ _ hd]
      simp only [currency_sum, List.map_cons, List.sum_cons] at ih ⊢
      rw [hx]
      omega

end tick_laws

section conservation

variable {α : Type} [LinearOrderedField α] [FloorRing α]

theorem death_calls_append (l1 l2 : List (virtual_spawn α)) :
    death_calls (l1 ++ l2) = death_calls l1 ++ death_calls l2 := by
  induction l1 with
  | nil => rfl
  | cons x rest ih => simp [death_calls, ih]

/-- Credits of one tick: the calls made are those of the casualties, and the live-spawn list is
left with the survivors. -/
theorem tick_calls {fuel : Nat} {s s1 : pressure_manager α} {t t1 : Int}
    (h : tick fuel s t = some (s1, t1))
    (hfit : (s.spawns ++ spawned_in_tick fuel s).length < UINT_MOD) :
    s1.mission_currency.calls
        = s.mission_currency.calls
          ++ death_calls (casualties (s.spawns ++ spawned_in_tick fuel s))
    ∧ s1.spawns = survivors (s.spawns ++ spawned_in_tick fuel s) := by
  obtain ⟨-, s2, hw, hs2, hrest⟩ := tick_eq h
  have hsp : s2.spawns = s.spawns ++ spawned_in_tick fuel s := by
    rw [hs2]; rfl
  have hcm : s2.mission_currency = s.mission_currency := by
    rw [hs2]; rfl
  have hs1 := hrest (by rw [hsp]; exact hfit)
  constructor
  · rw [hs1, ← hsp, ← hcm]; rfl
  · rw [hs1, ← hsp]; rfl

/-- C6: along every history of the engine the credit calls received by the currency manager are
exactly one `add_currency(c)` followed by one `add_approximated_additional_currency(c)` for each
instance removed from the live-spawn list, `c` being its currency value, and nothing else; hence
the amount credited plus the currency of the live instances equals the currency of all instances
ever created, and with an empty live-spawn list the amount credited is that total. -/
theorem currency_conserved (e : externals α) (cm0 : currency_manager) (s : pressure_manager α)
    (created removed : List (virtual_spawn α)) (h : history e cm0 s created removed) :
    s.mission_currency.calls = cm0.calls ++ death_calls removed
    ∧ credited s = credited_calls cm0.calls + currency_sum removed
    ∧ approximated s = approximated_calls cm0.calls + currency_sum removed
    ∧ currency_sum removed + currency_sum s.spawns = currency_sum created
    ∧ credited s + currency_sum s.spawns = credited_calls cm0.calls + currency_sum created
    ∧ (s.spawns = [] → credited s = credited_calls cm0.calls + currency_sum created) := by
  have key : s.mission_currency.calls = cm0.calls ++ death_calls removed
      ∧ currency_sum removed + currency_sum s.spawns = currency_sum created := by
    induction h with
    | fresh decay0 => exact ⟨by simp [pressure_manager.pressure_manager, death_calls], rfl⟩
    | @register s0 c0 r0 ws _ ih =>
      refine ⟨ih.1, ?_⟩
      have : (add_virtual_wavespawn s0 ws).spawns = s0.spawns ++ [make_virtual_spawn s0 ws] := rfl
      rw [this, currency_sum_append, currency_sum_append, ← ih.2]
      ring
    | recalculate _ ih => exact ih
    | players n _ ih => exact ih
    | multiply x _ ih => exact ih
    | in_time x _ ih => exact ih
    | path_length x _ ih => exact ih
    | reset _ ih => exact ih
    | @tick s0 s1 c0 r0 fuel t t1 _ ht hfit ih =>
      obtain ⟨hc, hs⟩ := tick_calls ht hfit
      refine ⟨?_, ?_⟩
      · rw [hc, ih.1, death_calls_append, List.append_assoc]
      · have hsplit := currency_sum_split (s0.spawns ++ spawned_in_tick fuel s0)
        rw [currency_sum_append] at hsplit
        rw [hs, currency_sum_append, currency_sum_append, ← ih.2]
        omega
  obtain ⟨hc, hsum⟩ := key
  have hcr : credited s = credited_calls cm0.calls + currency_sum removed := by
    simp only [credited, hc, credited_calls_append, credited_death_calls]
  have hap : approximated s = approximated_calls cm0.calls + currency_sum removed := by
    simp only [approximated, hc, approximated_calls_append, approximated_death_calls]
  refine ⟨hc, hcr, hap, hsum, ?_, ?_⟩
  · rw [hcr, ← hsum]; ring
  · intro hempty
    rw [hcr, ← hsum, hempty]
    simp [currency_sum]

end conservation

section counter

variable {α : Type} [LinearOrderedField α] [FloorRing α]

theorem ticks_succ_last (inner : Nat) (n : Nat) :
    ∀ (s s1 s2 : pressure_manager α) (t t1 t2 : Int),
      ticks inner n s t = some (s1, t1) → tick inner s1 t1 = some (s2, t2) →
      ticks inner (n + 1) s t = some (s2, t2) := by
  induction n with
  | zero =>
    intro s s1 s2 t t1 t2 h1 h2
    simp [ticks] at h1
    obtain ⟨rfl, rfl⟩ := h1
    simp [ticks, h2]
  | succ n ih =>
    intro s s1 s2 t t1 t2 h1 h2
    simp only [ticks] at h1 ⊢
    cases hk : tick inner s t with
    | none => simp [hk] at h1
    | some r =>
      obtain ⟨s3, t3⟩ := r
      simp only [hk] at h1 ⊢
      exact ih _ _ _ _ _ _ h1 h2

/-- What the `while` of `step_through_time` has done when it returns: some number `n` of ticks,
each started with positive pressure, the last one leaving no positive pressure. -/
theorem step_through_time_loop_eq (inner : Nat) (fuel : Nat) :
    ∀ (s s1 : pressure_manager α) (t t1 : Int),
      step_through_time_loop inner fuel s t = some (s1, t1) →
      s1.pressure ≤ 0
      ∧ ∃ n : Nat, n ≤ fuel ∧ t1 = t + (n : Int) ∧ ticks inner n s t = some (s1, t1)
          ∧ ∀ j, j < n → ∃ sj tj, ticks inner j s t = some (sj, tj) ∧ 0 < sj.pressure := by
  induction fuel with
  | zero =>
    intro s s1 t t1 h
    unfold step_through_time_loop at h
    by_cases hp : 0 < s.pressure
    · simp [hp] at h
    · simp [hp] at h
      obtain ⟨rfl, rfl⟩ := h
      exact ⟨not_lt.mp hp, 0, le_refl _, by simp, rfl, fun j hj => by omega⟩
  | succ f ih =>
    intro s s1 t t1 h
    unfold step_through_time_loop at h
    by_cases hp : 0 < s.pressure
    · simp only [hp, if_true] at h
      cases hk : tick inner s t with
      | none => simp [hk] at h
      | some r =>
        obtain ⟨s2, t2⟩ := r
        simp only [hk] at h
        obtain ⟨hle, n, hn, ht, hticks, hpos⟩ := ih _ _ _ _ h
        have ht2 : t2 = t + 1 := (tick_eq hk).1
        refine ⟨hle, n + 1, by omega, ?_, ?_, ?_⟩
        · rw [ht, ht2]; push_cast; ring
        · simp [ticks, hk, hticks]
        · intro j hj
          cases j with
          | zero => exact ⟨s, t, rfl, hp⟩
          | succ j =>
            obtain ⟨sj, tj, h1, h2⟩ := hpos j (by omega)
            exact ⟨sj, tj, by simp [ticks, hk, h1], h2⟩
    · simp [hp] at h
      obtain ⟨rfl, rfl⟩ := h
      exact ⟨not_lt.mp hp, 0, Nat.zero_le _, by simp, rfl, fun j hj => by omega⟩

/-- C7: (1) called with `pressure ≤ 0`, `step_through_time` returns at once with the engine and
the counter unchanged; (2) whenever it returns, `pressure ≤ 0`, and the counter has grown by
exactly the number `n` of ticks executed, each of which started with `pressure > 0`; the counter
never decreases, is unchanged together with the whole engine state if `pressure ≤ 0` at the call,
and grows by at least 1 if `pressure > 0` at the call. -/
theorem step_through_time_counter :
    (∀ (fuel : Nat) (s : pressure_manager α) (t : Int),
        s.pressure ≤ 0 → step_through_time fuel s t = some (s, t))
    ∧ (∀ (fuel : Nat) (s s1 : pressure_manager α) (t t1 : Int),
        step_through_time fuel s t = some (s1, t1) →
        s1.pressure ≤ 0
        ∧ (∃ n : Nat, t1 = t + (n : Int) ∧ ticks fuel n s t = some (s1, t1)
            ∧ (∀ j, j < n → ∃ sj tj, ticks fuel j s t = some (sj, tj) ∧ 0 < sj.pressure)
            ∧ (s.pressure ≤ 0 → n = 0)
            ∧ (0 < s.pressure → 1 ≤ n))
        ∧ t ≤ t1
        ∧ (s.pressure ≤ 0 → s1 = s ∧ t1 = t)
        ∧ (0 < s.pressure → t + 1 ≤ t1)) := by
  have hzero : ∀ (fuel : Nat) (s : pressure_manager α) (t : Int),
      s.pressure ≤ 0 → step_through_time fuel s t = some (s, t) := by
    intro fuel s t hp
    unfold step_through_time step_through_time_loop
    simp [not_lt.mpr hp]
  refine ⟨hzero, ?_⟩
  intro fuel s s1 t t1 h
  obtain ⟨hle, n, -, ht, hticks, hpos⟩ := step_through_time_loop_eq fuel fuel s s1 t t1 h
  have hn0 : s.pressure ≤ 0 → n = 0 := by
    intro hp
    by_contra hne
    obtain ⟨sj, tj, h0, hj⟩ := hpos 0 (Nat.pos_of_ne_zero hne)
    simp [ticks] at h0
    rw [← h0.1] at hj
    exact absurd hj (not_lt.mpr hp)
  have hn1 : 0 < s.pressure → 1 ≤ n := by
    intro hp
    by_contra hlt
    have : n = 0 := by omega
    subst this
    simp [ticks] at hticks
    rw [← hticks.1] at hle
    exact absurd hp (not_lt.mpr hle)
  refine ⟨hle, ⟨n, ht, hticks, hpos, hn0, hn1⟩, ?_, ?_, ?_⟩
  · rw [ht]; omega
  · intro hp
    have := hzero fuel s t hp
    rw [this] at h
    simp at h
    exact ⟨h.1.symm, h.2.symm⟩
  · intro hp
    have := hn1 hp
    rw [ht]; omega

/-- Two calls for C7 on the default engine with decay rate 42: with pressure 0 nothing happens;
with pressure 100 one tick is executed and the counter goes from 0 to 1. -/
theorem step_through_time_counter_witness :
    step_through_time 1 engine_42 0 = some (engine_42, 0)
    ∧ step_through_time 1 { engine_42 with pressure := 100 } 0
        = some (apply_decay { engine_42 with pressure := 100 }, 1)
    ∧ (apply_decay { engine_42 with pressure := 100 }).pressure ≤ 0
    ∧ (0 : Int) + 1 ≤ 1 := by
  have h0 : engine_42.pressure ≤ 0 := by
    simp [engine_42, pressure_manager.pressure_manager]
  have h1 : step_through_time 1 { engine_42 with pressure := 100 } 0
      = some (apply_decay { engine_42 with pressure := 100 }, 1) := by
    simp [step_through_time, step_through_time_loop, tick, step_wavespawns,
      step_wavespawns_from, step_spawns, step_spawns_from, engine_42,
      pressure_manager.pressure_manager, apply_decay]
    norm_num
  have h2 := (@step_through_time_counter ℚ _ _).2 1 _ _ 0 1 h1
  exact ⟨(@step_through_time_counter ℚ _ _).1 1 engine_42 0 h0, h1, h2.1,
    h2.2.2.2.2 (by simp)⟩

end counter

section lone_instance

variable {α : Type} [LinearOrderedField α] [FloorRing α]

/-- One pass of the live-spawn loop over a single instance with more than one tick to live. -/
theorem step_spawns_lone_alive (fuel : Nat) (s : pressure_manager α) (sp : virtual_spawn α)
    (hs : s.spawns = [sp]) (hl : 2 ≤ sp.time_left) :
    step_spawns (fuel + 1) s
      = some { s with
          pressure := s.pressure + sp.get_pressure_per_second
          spawns := [sp.decrement_time] } := by
  have hfit : s.spawns.length < UINT_MOD := by
    rw [hs]; simp [UINT_MOD]
  have hd : sp.decrement_time.is_dead = false := by
    simp only [virtual_spawn.is_dead, virtual_spawn.decrement_time, beq_eq_false_iff_ne]
    omega
  rw [step_spawns_eq _ _ hfit, if_pos (by rw [hs]; simp)]
  simp only [step_spawns_filter, hs, survivors_cons_alive _ _ hd, casualties_cons_alive _ _ hd]
  obtain ⟨cm, p, d, pl, b, m, mt, bp, f1, f2, pe, wsl, sps⟩ := s
  simp [survivors, casualties, death_calls, pps_sum, virtual_spawn.get_pressure_per_second,
    virtual_spawn.decrement_time]

/-- One pass of the live-spawn loop over a single instance with one tick to live: it dies, is
credited, and adds no pressure. -/
theorem step_spawns_lone_dying (fuel : Nat) (s : pressure_manager α) (sp : virtual_spawn α)
    (hs : s.spawns = [sp]) (hl : sp.time_left = 1) :
    step_spawns (fuel + 1) s
      = some { s with
          mission_currency :=
            (s.mission_currency.add_currency sp.get_currency).add_approximated_additional_currency
              sp.get_currency
          spawns := [] } := by
  have hfit : s.spawns.length < UINT_MOD := by
    rw [hs]; simp [UINT_MOD]
  have hd : sp.decrement_time.is_dead = true := by
    simp [virtual_spawn.is_dead, virtual_spawn.decrement_time, hl]
  rw [step_spawns_eq _ _ hfit, if_pos (by rw [hs]; simp)]
  simp only [step_spawns_filter, hs, survivors_cons_dead _ _ hd, casualties_cons_dead _ _ hd]
  obtain ⟨cm, p, d, pl, b, m, mt, bp, f1, f2, pe, wsl, sps⟩ := s
  simp [survivors, casualties, death_calls, pps_sum, virtual_spawn.get_currency,
    virtual_spawn.decrement_time, currency_manager.add_currency,
    currency_manager.add_approximated_additional_currency]

/-- The first `j` passes over a single instance that has more than `j` ticks to live: it is
still there, `j` ticks older, and its rate has been added `j` times. -/
theorem spawn_phases_lone_alive (fuel : Nat) (j : Nat) :
    ∀ (s : pressure_manager α) (sp : virtual_spawn α), s.spawns = [sp] →
      (j : Int) + 1 ≤ sp.time_left →
      spawn_phases (fuel + 1) j s
        = some { s with
            pressure := s.pressure + (j : α) * sp.get_pressure_per_second
            spawns := [{ sp with time_left := sp.time_left - (j : Int) }] } := by
  induction j with
  | zero =>
    intro s sp hs _
    obtain ⟨cm, p, d, pl, b, m, mt, bp, f1, f2, pe, wsl, sps⟩ := s
    simp only at hs
    simp [spawn_phases, hs]
  | succ j ih =>
    intro s sp hs hl
    simp only [spawn_phases]
    rw [step_spawns_lone_alive fuel s sp hs (by push_cast at hl; omega)]
    simp only
    rw [ih _ sp.decrement_time rfl
      (by simp only [virtual_spawn.decrement_time]; push_cast at hl; omega)]
    simp only [virtual_spawn.decrement_time, virtual_spawn.get_pressure_per_second]
    congr 2
    · push_cast; ring
    · congr 2
      push_cast; ring

/-- The whole life of a single instance of lifetime `n + 1` under the live-spawn loop: after
`n + 1` passes it is gone, it has been credited once, and its rate has been added `n` times. -/
theorem spawn_phases_lone_life (fuel : Nat) (n : Nat) (s : pressure_manager α)
    (sp : virtual_spawn α) (hs : s.spawns = [sp]) (hl : sp.time_left = (n : Int) + 1) :
    spawn_phases (fuel + 1) (n + 1) s
      = some { s with
          mission_currency :=
            (s.mission_currency.add_currency sp.get_currency).add_approximated_additional_currency
              sp.get_currency
          pressure := s.pressure + (n : α) * sp.get_pressure_per_second
          spawns := [] } := by
  have hchain : ∀ (k : Nat) (s0 s1 : pressure_manager α),
      spawn_phases (fuel + 1) k s0 = some s1 →
      spawn_phases (fuel + 1) (k + 1) s0 = step_spawns (fuel + 1) s1 := by
    intro k
    induction k with
    | zero =>
      intro s0 s1 h
      simp [spawn_phases] at h
      subst h
      simp only [spawn_phases]
      cases step_spawns (fuel + 1) s0 <;> rfl
    | succ k ih =>
      intro s0 s1 h
      simp only [spawn_phases] at h ⊢
      cases hk : step_spawns (fuel + 1) s0 with
      | none => simp [hk] at h
      | some s2 =>
        simp only [hk] at h ⊢
        have := ih s2 s1 h
        simp only [spawn_phases] at this
        exact this
  rw [hchain n s _ (spawn_phases_lone_alive fuel n s sp hs (by omega))]
  rw [step_spawns_lone_dying fuel _ { sp with time_left := sp.time_left - (n : Int) } rfl
    (by simp only; omega)]
  rfl

end lone_instance

section accumulation

variable {α : Type} [LinearOrderedField α] [FloorRing α]

theorem make_virtual_spawn_50 :
    make_virtual_spawn engine_42 descriptor_50
      = { time_left := 5, pressure_per_second := 10, effective_pressure := 50, currency := 7 } := by
  have h : Int.ceil (descriptor_50.time_to_kill) = 5 := ceil_42_10
  simp only [make_virtual_spawn, h]
  norm_num [descriptor_50, engine_42, pressure_manager.pressure_manager]

end accumulation

section quiescence

variable {α : Type} [LinearOrderedField α] [FloorRing α]

/-- A descriptor with nothing left to spawn passes the inner `while` untouched. -/
theorem fire_spawns_inert (fuel : Nat) (s : pressure_manager α) (ws : virtual_wavespawn α)
    (h : ws.spawns_remaining = 0) : fire_spawns fuel s ws = some (s, ws) := by
  unfold fire_spawns
  simp [h]

/-- With only inert descriptors the descriptor phase counts every countdown down by one tick and
does nothing else. -/
theorem step_wavespawns_from_inert (fuel : Nat) (l : List (virtual_wavespawn α)) :
    ∀ s : pressure_manager α, (∀ ws ∈ l, ws.spawns_remaining = 0) →
      step_wavespawns_from fuel s l = some (s, l.map counted_down) := by
  induction l with
  | nil =>
    intro s _
    rfl
  | cons ws rest ih =>
    intro s h
    have hf := fire_spawns_inert fuel s (counted_down ws) (h ws (List.mem_cons_self _ _))
    unfold counted_down at hf
    simp only [step_wavespawns_from, hf, ih s (fun w hw => h w (List.mem_cons_of_mem _ hw))]
    rfl

theorem step_wavespawns_inert (fuel : Nat) (s : pressure_manager α)
    (h : ∀ ws ∈ s.wavespawns, ws.spawns_remaining = 0) :
    step_wavespawns fuel s = some { s with wavespawns := s.wavespawns.map counted_down } := by
  unfold step_wavespawns
  rw [step_wavespawns_from_inert fuel _ s h]

/-- The first tick of the scenario `effective_pressure = 50`, `time_to_kill = 4.2` registered on
the default engine with decay rate 42: the instance survives with 4 ticks left, nothing is
credited, and the pressure goes from 10 to `10 + 10 - 105 = -85`. -/
theorem tick_registered_50 :
    ∃ r : pressure_manager ℚ,
      tick 1 (add_virtual_wavespawn engine_42 descriptor_50) 0 = some (r, 1)
      ∧ r.pressure = -85
      ∧ r.spawns = [{ time_left := 4, pressure_per_second := 10, effective_pressure := 50,
                      currency := 7 }]
      ∧ r.mission_currency.calls = [] := by
  have hw : step_wavespawns 1 (add_virtual_wavespawn engine_42 descriptor_50)
      = some { add_virtual_wavespawn engine_42 descriptor_50 with
          wavespawns := (add_virtual_wavespawn engine_42 descriptor_50).wavespawns.map
            counted_down } := by
    apply step_wavespawns_inert
    intro ws hws
    have : (add_virtual_wavespawn engine_42 descriptor_50).wavespawns = [descriptor_50] := rfl
    rw [this] at hws
    simp at hws
    rw [hws]
    rfl
  have hsp := step_spawns_lone_alive 0
    { add_virtual_wavespawn engine_42 descriptor_50 with
      wavespawns := (add_virtual_wavespawn engine_42 descriptor_50).wavespawns.map counted_down }
    (make_virtual_spawn engine_42 descriptor_50) rfl (by rw [make_virtual_spawn_50]; decide)
  have key : ∀ X, step_spawns 1 { add_virtual_wavespawn engine_42 descriptor_50 with
        wavespawns := (add_virtual_wavespawn engine_42 descriptor_50).wavespawns.map
          counted_down } = some X →
      tick 1 (add_virtual_wavespawn engine_42 descriptor_50) 0 = some (apply_decay X, 1) := by
    intro X hX
    simp only [tick, hw, hX]
    rfl
  refine ⟨_, key _ hsp, ?_, ?_, ?_⟩
  · simp only [apply_decay]
    have hp : (add_virtual_wavespawn engine_42 descriptor_50).pressure = 10 := by
      have : (add_virtual_wavespawn engine_42 descriptor_50).pressure
          = engine_42.pressure
            + (make_virtual_spawn engine_42 descriptor_50).get_pressure_per_second := rfl
      rw [this, make_virtual_spawn_50]
      norm_num [engine_42, pressure_manager.pressure_manager,
        virtual_spawn.get_pressure_per_second]
    rw [hp, make_virtual_spawn_50]
    norm_num [UINT_MOD, virtual_spawn.get_pressure_per_second, add_virtual_wavespawn,
      add_virtual_spawn, engine_42, pressure_manager.pressure_manager]
  · simp only [apply_decay]
    rw [make_virtual_spawn_50]
    simp [virtual_spawn.decrement_time]
  · rfl

/-- C8 (as amended): immediately after `step_through_time` returns the pressure is at most 0, and
nothing brings a negative value back to 0, so it may be strictly negative at quiescence; it is
exactly 0 in a freshly constructed engine and after `reset_pressure`. -/
theorem pressure_at_quiescence :
    (∀ (fuel : Nat) (s s1 : pressure_manager α) (t t1 : Int),
        step_through_time fuel s t = some (s1, t1) → s1.pressure ≤ 0)
    ∧ (∀ (cm : currency_manager) (decay0 : α),
        (pressure_manager.pressure_manager cm decay0).pressure = 0)
    ∧ (∀ s : pressure_manager α, (reset_pressure s).pressure = 0)
    ∧ (∀ (e : externals α) (s : pressure_manager α),
        (calculate_pressure_decay_rate e s).pressure = s.pressure) := by
  refine ⟨?_, fun _ _ => rfl, fun _ => rfl, fun _ _ => rfl⟩
  intro fuel s s1 t t1 h
  exact (step_through_time_loop_eq fuel fuel s s1 t t1 h).1

/-- The scenario of C8: registering `effective_pressure = 50`, `time_to_kill = 4.2` on the default
engine with decay rate 42 and stepping; the call returns after one tick with pressure -85. -/
theorem step_registered_50 :
    ∃ r : pressure_manager ℚ,
      step_through_time 1 (add_virtual_wavespawn engine_42 descriptor_50) 0 = some (r, 1)
      ∧ r.pressure = -85 := by
  obtain ⟨r, ht, hp, -, -⟩ := tick_registered_50
  refine ⟨r, ?_, hp⟩
  have hpos : (0 : ℚ) < (add_virtual_wavespawn engine_42 descriptor_50).pressure := by
    have : (add_virtual_wavespawn engine_42 descriptor_50).pressure
        = engine_42.pressure
          + (make_virtual_spawn engine_42 descriptor_50).get_pressure_per_second := rfl
    rw [this, make_virtual_spawn_50]
    norm_num [engine_42, pressure_manager.pressure_manager,
      virtual_spawn.get_pressure_per_second]
  have hneg : ¬ (0 : ℚ) < r.pressure := by
    rw [hp]; norm_num
  unfold step_through_time
  unfold step_through_time_loop
  rw [if_pos hpos]
  simp only [ht]
  unfold step_through_time_loop
  rw [if_neg hneg]

/-- A call for C8: the step of the scenario returns with non-positive pressure. -/
theorem pressure_at_quiescence_witness :
    ∃ r : pressure_manager ℚ,
      step_through_time 1 (add_virtual_wavespawn engine_42 descriptor_50) 0 = some (r, 1)
      ∧ r.pressure ≤ 0 := by
  obtain ⟨r, h, -⟩ := step_registered_50
  exact ⟨r, h, (@pressure_at_quiescence ℚ _ _).1 1 _ r 0 1 h⟩

/-- Counterexample to C8 as stated: the engine reached from a freshly constructed one by one
registration (`effective_pressure = 50`, `time_to_kill = 4.2`) and one completed
`step_through_time` call has pressure -85, which is neither non-negative nor 0. -/
theorem pressure_negative_after_step :
    ∃ r : pressure_manager ℚ,
      step_through_time 1
          (add_virtual_wavespawn (pressure_manager.pressure_manager { calls := [] } 42)
            descriptor_50) 0 = some (r, 1)
      ∧ r.pressure = -85 ∧ ¬ (0 ≤ r.pressure) ∧ r.pressure ≠ 0 := by
  obtain ⟨r, h, hp⟩ := step_registered_50
  refine ⟨r, h, hp, ?_, ?_⟩
  · rw [hp]; norm_num
  · rw [hp]; norm_num

end quiescence

section conservation_scenario

variable {α : Type} [LinearOrderedField α] [FloorRing α]

/-- A tick over inert descriptors and a single instance in its last tick: the instance is
credited and removed, and the decay is applied. -/
theorem tick_lone_dying (fuel : Nat) (s : pressure_manager α) (t : Int) (sp : virtual_spawn α)
    (hinert : ∀ ws ∈ s.wavespawns, ws.spawns_remaining = 0)
    (hs : s.spawns = [sp]) (hl : sp.time_left = 1) :
    tick (fuel + 1) s t
      = some (apply_decay { s with
          mission_currency :=
            (s.mission_currency.add_currency sp.get_currency).add_approximated_additional_currency
              sp.get_currency
          wavespawns := s.wavespawns.map counted_down
          spawns := [] }, t + 1) := by
  have hw := step_wavespawns_inert (fuel + 1) s hinert
  have hsp := step_spawns_lone_dying fuel
    { s with wavespawns := s.wavespawns.map counted_down } sp hs hl
  simp only [tick, hw, hsp]

/-- A history for C6: on a fresh engine a descriptor whose instance lives one tick is registered
and one tick is run; the instance has died, its 7 currency has been credited, and nothing is
live. -/
theorem currency_conserved_witness :
    ∃ (r : pressure_manager ℚ) (created removed : List (virtual_spawn ℚ)),
      history ({ get_currency_pressure := fun _ => 0, pow := fun x _ => x } : externals ℚ)
        { calls := [] } r created removed
      ∧ r.spawns = []
      ∧ r.mission_currency.calls
          = [currency_call.add_currency 7, currency_call.add_approximated_additional_currency 7]
      ∧ credited r = 0 + currency_sum created
      ∧ credited r = 7 := by
  have hc : Int.ceil (descriptor_quick.time_to_kill) = 1 := by
    simp [descriptor_quick]
  have hl : (make_virtual_spawn engine_42 descriptor_quick).time_left = 1 := hc
  have hinert : ∀ ws ∈ (add_virtual_wavespawn engine_42 descriptor_quick).wavespawns,
      ws.spawns_remaining = 0 := by
    intro ws hws
    have : (add_virtual_wavespawn engine_42 descriptor_quick).wavespawns
        = [descriptor_quick] := rfl
    rw [this] at hws
    simp at hws
    rw [hws]
    rfl
  have ht := tick_lone_dying 0 (add_virtual_wavespawn engine_42 descriptor_quick) 0
    (make_virtual_spawn engine_42 descriptor_quick) hinert rfl hl
  have hfit : ((add_virtual_wavespawn engine_42 descriptor_quick).spawns
      ++ spawned_in_tick (0 + 1) (add_virtual_wavespawn engine_42 descriptor_quick)).length
      < UINT_MOD := by
    have h0 : spawned_in_tick (0 + 1) (add_virtual_wavespawn engine_42 descriptor_quick)
        = [] := by
      simp [spawned_in_tick, step_wavespawns_inert _ _ hinert]
    rw [h0]
    simp [add_virtual_wavespawn, add_virtual_spawn, engine_42,
      pressure_manager.pressure_manager, UINT_MOD]
  have hfresh : history
      ({ get_currency_pressure := fun _ => 0, pow := fun x _ => x } : externals ℚ)
      { calls := [] } engine_42 [] [] := history.fresh 42
  have h := history.tick (0 + 1) 0 (0 + 1) (history.register descriptor_quick hfresh) ht hfit
  have hcons := currency_conserved _ _ _ _ _ h
  refine ⟨_, _, _, h, rfl, rfl, hcons.2.2.2.2.1, ?_⟩
  rw [hcons.2.2.2.2.2 rfl]
  have h0 : spawned_in_tick (0 + 1) (add_virtual_wavespawn engine_42 descriptor_quick) = [] := by
    simp [spawned_in_tick, step_wavespawns_inert _ _ hinert]
  rw [h0]
  simp [credited_calls, currency_sum, make_virtual_spawn, descriptor_quick,
    virtual_spawn.get_currency]

end conservation_scenario

section loads

variable {α : Type} [LinearOrderedField α] [FloorRing α]

theorem live_load_append (l1 l2 : List (virtual_spawn α)) :
    live_load (l1 ++ l2) = live_load l1 + live_load l2 := by
  induction l1 with
  | nil => simp [live_load]
  | cons x rest ih => simp [live_load, ih, add_assoc]

theorem live_load_replicate (k : Nat) (x : virtual_spawn α) :
    live_load (List.replicate k x) = (k : α) * spawn_load x := by
  induction k with
  | zero => simp [live_load]
  | succ n ih =>
    rw [List.replicate_succ, live_load, ih]
    push_cast
    ring

theorem live_load_nonneg (l : List (virtual_spawn α)) (h : ∀ sp ∈ l, 1 ≤ sp.time_left) :
    0 ≤ live_load l := by
  induction l with
  | nil => simp [live_load]
  | cons x rest ih =>
    have hx : (1 : α) ≤ (x.time_left : α) := by
      exact_mod_cast h x (List.mem_cons_self _ _)
    have h1 : 0 ≤ spawn_load x :=
      mul_nonneg (by linarith) (le_max_right _ _)
    have h2 := ih (fun sp hsp => h sp (List.mem_cons_of_mem _ hsp))
    simp only [live_load]
    linarith

/-- The survivors of a pass are alive. -/
theorem survivors_alive (l : List (virtual_spawn α)) (h : ∀ sp ∈ l, 1 ≤ sp.time_left) :
    ∀ sp ∈ survivors l, 1 ≤ sp.time_left := by
  intro sp hsp
  simp only [survivors, List.mem_filter, List.mem_map] at hsp
  obtain ⟨⟨x, hx, rfl⟩, hd⟩ := hsp
  have h1 := h x hx
  simp only [virtual_spawn.is_dead, virtual_spawn.decrement_time, Bool.not_eq_true',
    beq_eq_false_iff_ne] at hd
  simp only [virtual_spawn.decrement_time]
  omega

theorem survivors_length_le (l : List (virtual_spawn α)) :
    (survivors l).length ≤ l.length := by
  simp only [survivors]
  exact le_trans (List.length_filter_le _ _) (by simp)

/-- A pass of the live-spawn loop adds no more pressure than the load it takes off the list. -/
theorem survivors_load (l : List (virtual_spawn α)) (h : ∀ sp ∈ l, 1 ≤ sp.time_left) :
    pps_sum (survivors l) + live_load (survivors l) ≤ live_load l := by
  induction l with
  | nil => simp [survivors, pps_sum, live_load]
  | cons x rest ih =>
    have ih1 := ih (fun sp hsp => h sp (List.mem_cons_of_mem _ hsp))
    have hx : (1 : α) ≤ (x.time_left : α) := by
      exact_mod_cast h x (List.mem_cons_self _ _)
    have hmax0 : (0 : α) ≤ max x.get_pressure_per_second 0 := le_max_right _ _
    have hmax1 : x.get_pressure_per_second ≤ max x.get_pressure_per_second 0 := le_max_left _ _
    cases hd : x.decrement_time.is_dead with
    | true =>
      rw [survivors_cons_dead _ _ hd]
      have h1 : 0 ≤ spawn_load x := mul_nonneg (by linarith) hmax0
      simp only [live_load]
      linarith
    | false =>
      rw [survivors_cons_alive _ _ hd, pps_sum_cons]
      simp only [live_load]
      have h2 : spawn_load x.decrement_time
          = spawn_load x - max x.get_pressure_per_second 0 := by
        simp only [spawn_load, virtual_spawn.decrement_time,
          virtual_spawn.get_pressure_per_second]
        push_cast
        ring
      have h3 : x.decrement_time.get_pressure_per_second = x.get_pressure_per_second := rfl
      rw [h2, h3]
      linarith

theorem pending_load_spawned (s : pressure_manager α) (new : List (virtual_spawn α))
    (l : List (virtual_wavespawn α)) :
    pending_load (spawned s new) l = pending_load s l := by
  induction l with
  | nil => rfl
  | cons ws rest ih =>
    simp only [pending_load, ih]
    rfl

end loads

section descriptor_phase

variable {α : Type} [LinearOrderedField α] [FloorRing α]

/-- While the inner `while` keeps firing a descriptor with `spawns_remaining ≥ 0`, it has not
fired more instances than were remaining. -/
theorem fired_le_remaining (ws : virtual_wavespawn α) (k : Nat) (h0 : 0 ≤ ws.spawns_remaining)
    (h : ∀ j, j < k → may_fire (rearmed ws j)) : (k : Int) ≤ ws.spawns_remaining := by
  by_contra hlt
  have hjk : ws.spawns_remaining.toNat < k := by omega
  have := (h _ hjk).1
  simp only [rearmed] at this
  omega

/-- What one run of the descriptor loop preserves and bounds, for descriptors that satisfy the
caller preconditions. -/
theorem wavespawns_run_ok {s s1 : pressure_manager α} {l l1 : List (virtual_wavespawn α)}
    (h : wavespawns_run s l s1 l1) (hok : ∀ ws ∈ l, wavespawn_ok ws) :
    (∀ ws ∈ l1, wavespawn_ok ws)
    ∧ ∃ new, s1 = spawned s new
        ∧ (∀ sp ∈ new, 1 ≤ sp.time_left)
        ∧ new.length + pending l1 = pending l
        ∧ pps_sum new + live_load new + pending_load s l1 ≤ pending_load s l := by
  induction h with
  | nil s =>
    exact ⟨hok, [], (spawned_nil s).symm, by simp, rfl, by simp [pps_sum, live_load]⟩
  | cons s ws rest k s1 rest1 hbefore hafter hrun ih =>
    have hws := hok ws (List.mem_cons_self _ _)
    obtain ⟨hT, hrem, hwait⟩ := hws
    obtain ⟨hok1, new, hs1, halive, hcount, hload⟩ :=
      ih (fun w hw => hok w (List.mem_cons_of_mem _ hw))
    have hk : (k : Int) ≤ ws.spawns_remaining :=
      fired_le_remaining (counted_down ws) k hrem hbefore
    have hL : 1 ≤ (make_virtual_spawn s ws).time_left := Int.one_le_ceil_iff.mpr hT
    refine ⟨?_, List.replicate k (make_virtual_spawn s ws) ++ new, ?_, ?_, ?_, ?_⟩
    · intro w hw
      rcases List.mem_cons.mp hw with rfl | hw
      · refine ⟨hT, ?_, ?_⟩
        · simp only [rearmed, counted_down]; omega
        · intro hpos
          simp only [rearmed, counted_down] at hpos ⊢
          exact hwait (by omega)
      · exact hok1 w hw
    · rw [hs1, spawned_spawned]
    · intro sp hsp
      rcases List.mem_append.mp hsp with hsp | hsp
      · rw [List.eq_of_mem_replicate hsp]
        exact hL
      · exact halive sp hsp
    · simp only [pending, List.length_append, List.length_replicate, rearmed, counted_down]
        at hcount ⊢
      omega
    · simp only [pending_load_spawned] at hload
      rw [pps_sum_append, live_load_append, pps_sum_replicate, live_load_replicate]
      simp only [pending_load]
      have hLc : (1 : α) ≤ ((make_virtual_spawn s ws).time_left : α) := by exact_mod_cast hL
      have hmax0 : (0 : α) ≤ max (make_virtual_spawn s ws).get_pressure_per_second 0 :=
        le_max_right _ _
      have hmax1 : (make_virtual_spawn s ws).get_pressure_per_second
          ≤ max (make_virtual_spawn s ws).get_pressure_per_second 0 := le_max_left _ _
      have hk0 : (0 : α) ≤ (k : α) := Nat.cast_nonneg k
      have hd : descriptor_load s (rearmed (counted_down ws) k)
          = descriptor_load s ws
            - (k : α) * (((make_virtual_spawn s ws).time_left : α)
              * max (make_virtual_spawn s ws).get_pressure_per_second 0) := by
        simp only [descriptor_load, make_virtual_spawn_rearmed, make_virtual_spawn_counted_down]
        simp only [rearmed, counted_down]
        push_cast
        ring
      have hpps : (k : α) * (make_virtual_spawn s ws).get_pressure_per_second
          ≤ (k : α) * max (make_virtual_spawn s ws).get_pressure_per_second 0 :=
        mul_le_mul_of_nonneg_left hmax1 hk0
      have hsl : (k : α) * spawn_load (make_virtual_spawn s ws)
          = (k : α) * (((make_virtual_spawn s ws).time_left : α)
              * max (make_virtual_spawn s ws).get_pressure_per_second 0)
            - (k : α) * max (make_virtual_spawn s ws).get_pressure_per_second 0 := by
        simp only [spawn_load]
        ring
      rw [hd, hsl]
      linarith

/-- The inner `while` returns once the fuel covers the instances remaining. -/
theorem fire_spawns_total (fuel : Nat) :
    ∀ (s : pressure_manager α) (ws : virtual_wavespawn α), 0 ≤ ws.spawns_remaining →
      ws.spawns_remaining.toNat ≤ fuel → ∃ r, fire_spawns fuel s ws = some r := by
  induction fuel with
  | zero =>
    intro s ws h0 hle
    unfold fire_spawns
    have : ws.spawns_remaining = 0 := by omega
    simp [this]
  | succ f ih =>
    intro s ws h0 hle
    unfold fire_spawns
    by_cases hc : ws.spawns_remaining ≠ 0 ∧ ws.time_until_next_spawn ≤ 0
    · rw [if_pos hc]
      simp only
      apply ih
      · simp only; omega
      · simp only; omega
    · rw [if_neg hc]
      exact ⟨_, rfl⟩

/-- The descriptor loop returns once the fuel covers every descriptor's remaining instances. -/
theorem step_wavespawns_from_total (fuel : Nat) (l : List (virtual_wavespawn α)) :
    ∀ s : pressure_manager α, (∀ ws ∈ l, 0 ≤ ws.spawns_remaining) → pending l ≤ fuel →
      ∃ r, step_wavespawns_from fuel s l = some r := by
  induction l with
  | nil =>
    intro s _ _
    exact ⟨_, rfl⟩
  | cons ws rest ih =>
    intro s h0 hle
    simp only [pending] at hle
    obtain ⟨r, hr⟩ := fire_spawns_total fuel s (counted_down ws)
      (h0 ws (List.mem_cons_self _ _)) (by simp only [counted_down]; omega)
    obtain ⟨s1, ws1⟩ := r
    obtain ⟨r2, hr2⟩ := ih s1 (fun w hw => h0 w (List.mem_cons_of_mem _ hw)) (by omega)
    obtain ⟨s2, rest1⟩ := r2
    unfold counted_down at hr
    exact ⟨(s2, ws1 :: rest1), by simp only [step_wavespawns_from, hr, hr2]⟩

end descriptor_phase

section termination

variable {α : Type} [LinearOrderedField α] [FloorRing α]

theorem pending_load_congr (s s1 : pressure_manager α) (l : List (virtual_wavespawn α))
    (h1 : s1.pps_factor_tank = s.pps_factor_tank)
    (h2 : s1.pps_factor_tfbot = s.pps_factor_tfbot) :
    pending_load s1 l = pending_load s l := by
  induction l with
  | nil => rfl
  | cons ws rest ih =>
    simp only [pending_load, ih, descriptor_load, make_virtual_spawn, h1, h2]

theorem least_decay_anti (s : pressure_manager α) (n c : Nat) (hn : n ≤ c)
    (hd : 0 ≤ s.pressure_decay_rate * s.pressure_decay_rate_multiplier_in_time) :
    least_decay s c ≤ least_decay s n := by
  simp only [least_decay]
  have hnc : (n : α) ≤ (c : α) := by exact_mod_cast hn
  have hn0 : (0 : α) ≤ (n : α) := Nat.cast_nonneg n
  apply div_le_div_of_nonneg_left hd
  · linarith
  · linarith

/-- One tick from a state that satisfies the caller preconditions: it returns, the preconditions
and the bound `c` on the live-spawn list still hold, and the potential has dropped by at least the
least decay. -/
theorem tick_progress (fuel c : Nat) (s : pressure_manager α) (t : Int)
    (hws : ∀ ws ∈ s.wavespawns, wavespawn_ok ws) (hsp : ∀ sp ∈ s.spawns, 1 ≤ sp.time_left)
    (hcap : capacity s ≤ c) (hc : c < UINT_MOD) (hfuel : c ≤ fuel)
    (hd : 0 ≤ s.pressure_decay_rate * s.pressure_decay_rate_multiplier_in_time) :
    ∃ s1, tick fuel s t = some (s1, t + 1)
      ∧ (∀ ws ∈ s1.wavespawns, wavespawn_ok ws) ∧ (∀ sp ∈ s1.spawns, 1 ≤ sp.time_left)
      ∧ capacity s1 ≤ c
      ∧ s1.pressure_decay_rate = s.pressure_decay_rate
      ∧ s1.pressure_decay_rate_multiplier_in_time = s.pressure_decay_rate_multiplier_in_time
      ∧ potential s1 ≤ potential s - least_decay s c := by
  simp only [capacity] at hcap
  obtain ⟨r, hfrom⟩ := step_wavespawns_from_total fuel s.wavespawns s
    (fun ws hw => (hws ws hw).2.1) (by omega)
  obtain ⟨s2, l1⟩ := r
  have hrun := step_wavespawns_from_run fuel _ _ _ _ hfrom
  obtain ⟨hok1, new, hs2, halive, hcount, hload⟩ := wavespawns_run_ok hrun hws
  subst hs2
  have hw : step_wavespawns fuel s = some { spawned s new with wavespawns := l1 } := by
    simp only [step_wavespawns, hfrom]
  have hlen : ({ spawned s new with wavespawns := l1 } : pressure_manager α).spawns.length
      = s.spawns.length + new.length := by
    simp [spawned]
  have hstep : step_spawns fuel { spawned s new with wavespawns := l1 }
      = some (step_spawns_filter { spawned s new with wavespawns := l1 }) := by
    rw [step_spawns_eq _ _ (by rw [hlen]; omega), if_pos (by rw [hlen]; omega)]
  have hsurv := survivors_length_le (s.spawns ++ new)
  rw [List.length_append] at hsurv
  refine ⟨apply_decay (step_spawns_filter { spawned s new with wavespawns := l1 }),
    by simp only [tick, hw, hstep], hok1, ?_, ?_, rfl, rfl, ?_⟩
  · intro sp hmem
    refine survivors_alive (s.spawns ++ new) ?_ sp hmem
    intro x hx
    rcases List.mem_append.mp hx with hx | hx
    · exact hsp x hx
    · exact halive x hx
  · show (survivors (s.spawns ++ new)).length + pending l1 ≤ c
    omega
  · have hall : ∀ x ∈ s.spawns ++ new, 1 ≤ x.time_left := by
      intro x hx
      rcases List.mem_append.mp hx with hx | hx
      · exact hsp x hx
      · exact halive x hx
    have hsl := survivors_load (s.spawns ++ new) hall
    rw [live_load_append] at hsl
    have hmod : (survivors (s.spawns ++ new)).length % UINT_MOD
        = (survivors (s.spawns ++ new)).length := Nat.mod_eq_of_lt (by omega)
    have hleast := least_decay_anti s (survivors (s.spawns ++ new)).length c (by omega) hd
    simp only [least_decay] at hleast
    have hpl : pending_load
        (apply_decay (step_spawns_filter { spawned s new with wavespawns := l1 })) l1
        = pending_load s l1 := pending_load_congr _ _ _ rfl rfl
    have hpot : potential (apply_decay (step_spawns_filter { spawned s new with wavespawns := l1 }))
        = s.pressure + pps_sum new + pps_sum (survivors (s.spawns ++ new))
          - s.pressure_decay_rate * s.pressure_decay_rate_multiplier_in_time
            / (((survivors (s.spawns ++ new)).length : α) * (2 / 10) + 1)
          + live_load (survivors (s.spawns ++ new)) + pending_load s l1 := by
      simp only [potential]
      rw [show (apply_decay (step_spawns_filter
        { spawned s new with wavespawns := l1 })).wavespawns = l1 from rfl, hpl]
      simp only [apply_decay, step_spawns_filter, spawned, hmod]
    rw [hpot]
    simp only [potential, least_decay]
    linarith

/-- The `while` of `step_through_time` returns once the fuel covers the potential. -/
theorem step_through_time_loop_total (inner c : Nat) (hc : c < UINT_MOD) (hinner : c ≤ inner)
    (fuel : Nat) :
    ∀ (s : pressure_manager α) (t : Int),
      (∀ ws ∈ s.wavespawns, wavespawn_ok ws) → (∀ sp ∈ s.spawns, 1 ≤ sp.time_left) →
      capacity s ≤ c →
      0 < s.pressure_decay_rate * s.pressure_decay_rate_multiplier_in_time →
      potential s ≤ (fuel : α) * least_decay s c →
      ∃ r, step_through_time_loop inner fuel s t = some r := by
  induction fuel with
  | zero =>
    intro s t hws hsp hcap hd hpot
    have hp : s.pressure ≤ potential s := by
      have h1 := live_load_nonneg s.spawns hsp
      have h2 : 0 ≤ pending_load s s.wavespawns := by
        have : ∀ l : List (virtual_wavespawn α), (∀ ws ∈ l, wavespawn_ok ws) →
            0 ≤ pending_load s l := by
          intro l
          induction l with
          | nil => intro _; simp [pending_load]
          | cons w rest ih =>
            intro hl
            have hw := hl w (List.mem_cons_self _ _)
            have hrem : (0 : α) ≤ (w.spawns_remaining : α) := by exact_mod_cast hw.2.1
            have hL : (1 : α) ≤ ((make_virtual_spawn s w).time_left : α) := by
              have : 1 ≤ (make_virtual_spawn s w).time_left := Int.one_le_ceil_iff.mpr hw.1
              exact_mod_cast this
            have hm : (0 : α) ≤ max (make_virtual_spawn s w).get_pressure_per_second 0 :=
              le_max_right _ _
            have := ih (fun x hx => hl x (List.mem_cons_of_mem _ hx))
            simp only [pending_load, descriptor_load]
            have : 0 ≤ (w.spawns_remaining : α) * (((make_virtual_spawn s w).time_left : α)
                * max (make_virtual_spawn s w).get_pressure_per_second 0) :=
              mul_nonneg hrem (mul_nonneg (by linarith) hm)
            linarith
        exact this _ hws
      simp only [potential]
      linarith
    unfold step_through_time_loop
    have : ¬ 0 < s.pressure := by
      simp only [Nat.cast_zero, zero_mul] at hpot
      exact not_lt.mpr (le_trans hp hpot)
    rw [if_neg this]
    exact ⟨_, rfl⟩
  | succ f ih =>
    intro s t hws hsp hcap hd hpot
    unfold step_through_time_loop
    by_cases hp : 0 < s.pressure
    · rw [if_pos hp]
      obtain ⟨s1, ht, hws1, hsp1, hcap1, hd1, hm1, hpot1⟩ :=
        tick_progress inner c s t hws hsp hcap hc hinner (le_of_lt hd)
      simp only [ht]
      have hleast : least_decay s1 c = least_decay s c := by
        simp only [least_decay, hd1, hm1]
      apply ih s1 (t + 1) hws1 hsp1 hcap1 (by rw [hd1, hm1]; exact hd)
      rw [hleast]
      push_cast at hpot
      linarith
    · rw [if_neg hp]
      exact ⟨_, rfl⟩

end termination

section fuel

variable {α : Type} [LinearOrderedField α] [FloorRing α]

theorem fire_spawns_fuel_succ (fuel : Nat) :
    ∀ (s : pressure_manager α) (ws : virtual_wavespawn α)
      (r : pressure_manager α × virtual_wavespawn α),
      fire_spawns fuel s ws = some r → fire_spawns (fuel + 1) s ws = some r := by
  induction fuel with
  | zero =>
    intro s ws r h
    unfold fire_spawns at h
    unfold fire_spawns
    by_cases hc : ws.spawns_remaining ≠ 0 ∧ ws.time_until_next_spawn ≤ 0
    · rw [if_pos hc] at h
      simp at h
    · rw [if_neg hc] at h ⊢
      exact h
  | succ f ih =>
    intro s ws r h
    unfold fire_spawns at h
    unfold fire_spawns
    by_cases hc : ws.spawns_remaining ≠ 0 ∧ ws.time_until_next_spawn ≤ 0
    · rw [if_pos hc] at h ⊢
      exact ih _ _ _ h
    · rw [if_neg hc] at h ⊢
      exact h

theorem fire_spawns_fuel_le {f g : Nat} (hfg : f ≤ g) (s : pressure_manager α)
    (ws : virtual_wavespawn α) (r : pressure_manager α × virtual_wavespawn α)
    (h : fire_spawns f s ws = some r) : fire_spawns g s ws = some r := by
  induction hfg with
  | refl => exact h
  | step _ ih => exact fire_spawns_fuel_succ _ _ _ _ ih

theorem step_wavespawns_from_fuel_le {f g : Nat} (hfg : f ≤ g)
    (l : List (virtual_wavespawn α)) :
    ∀ (s : pressure_manager α) (r : pressure_manager α × List (virtual_wavespawn α)),
      step_wavespawns_from f s l = some r → step_wavespawns_from g s l = some r := by
  induction l with
  | nil =>
    intro s r h
    simpa [step_wavespawns_from] using h
  | cons ws rest ih =>
    intro s r h
    simp only [step_wavespawns_from] at h ⊢
    cases hf : fire_spawns f s
        { ws with time_until_next_spawn := ws.time_until_next_spawn - 1 } with
    | none => simp [hf] at h
    | some r1 =>
      obtain ⟨s1, ws1⟩ := r1
      simp only [hf] at h
      rw [fire_spawns_fuel_le hfg _ _ _ hf]
      simp only
      cases hrest : step_wavespawns_from f s1 rest with
      | none => simp [hrest] at h
      | some r2 =>
        simp only [hrest] at h
        rw [ih _ _ hrest]
        exact h

theorem step_spawns_from_fuel_succ (fuel : Nat) :
    ∀ (i : Nat) (s r : pressure_manager α),
      step_spawns_from fuel i s = some r → step_spawns_from (fuel + 1) i s = some r := by
  induction fuel with
  | zero =>
    intro i s r h
    unfold step_spawns_from at h
    unfold step_spawns_from
    by_cases hi : i < s.spawns.length
    · rw [dif_pos hi] at h
      simp at h
    · rw [dif_neg hi] at h ⊢
      exact h
  | succ f ih =>
    intro i s r h
    unfold step_spawns_from at h
    unfold step_spawns_from
    by_cases hi : i < s.spawns.length
    · rw [dif_pos hi] at h ⊢
      simp only at h ⊢
      split at h
      · rename_i hd
        rw [if_pos hd]
        exact ih _ _ _ h
      · rename_i hd
        rw [if_neg hd]
        exact ih _ _ _ h
    · rw [dif_neg hi] at h ⊢
      exact h

theorem step_spawns_from_fuel_le {f g : Nat} (hfg : f ≤ g) (i : Nat)
    (s r : pressure_manager α) (h : step_spawns_from f i s = some r) :
    step_spawns_from g i s = some r := by
  induction hfg with
  | refl => exact h
  | step _ ih => exact step_spawns_from_fuel_succ _ _ _ _ ih

/-- More fuel does not change what a tick returns. -/
theorem tick_fuel_le {f g : Nat} (hfg : f ≤ g) (s : pressure_manager α) (t : Int)
    (r : pressure_manager α × Int) (h : tick f s t = some r) : tick g s t = some r := by
  simp only [tick, step_wavespawns] at h ⊢
  cases hw : step_wavespawns_from f s s.wavespawns with
  | none => simp [hw] at h
  | some r1 =>
    obtain ⟨s1, l1⟩ := r1
    simp only [hw] at h
    rw [step_wavespawns_from_fuel_le hfg _ _ _ hw]
    simp only at h ⊢
    cases hs : step_spawns f { s1 with wavespawns := l1 } with
    | none => simp [hs] at h
    | some s2 =>
      simp only [hs] at h
      rw [show step_spawns g { s1 with wavespawns := l1 } = some s2 from
        step_spawns_from_fuel_le hfg 0 _ _ hs]
      exact h

/-- More fuel, for the inner loops or for the `while` itself, does not change what
`step_through_time` returns. -/
theorem step_through_time_loop_fuel_le {i j : Nat} (hij : i ≤ j) (f : Nat) :
    ∀ (g : Nat), f ≤ g → ∀ (s : pressure_manager α) (t : Int) (r : pressure_manager α × Int),
      step_through_time_loop i f s t = some r → step_through_time_loop j g s t = some r := by
  induction f with
  | zero =>
    intro g _ s t r h
    unfold step_through_time_loop at h
    by_cases hp : 0 < s.pressure
    · rw [if_pos hp] at h
      simp at h
    · rw [if_neg hp] at h
      unfold step_through_time_loop
      rw [if_neg hp]
      exact h
  | succ f ih =>
    intro g hg s t r h
    obtain ⟨g1, rfl⟩ : ∃ g1, g = g1 + 1 := ⟨g - 1, by omega⟩
    unfold step_through_time_loop at h
    unfold step_through_time_loop
    by_cases hp : 0 < s.pressure
    · rw [if_pos hp] at h ⊢
      cases hk : tick i s t with
      | none => simp [hk] at h
      | some r1 =>
        obtain ⟨s1, t1⟩ := r1
        simp only [hk] at h
        rw [tick_fuel_le hij _ _ _ hk]
        exact ih g1 (by omega) _ _ _ h
    · rw [if_neg hp] at h ⊢
      exact h

theorem step_through_time_fuel_le {f g : Nat} (hfg : f ≤ g) (s : pressure_manager α) (t : Int)
    (r : pressure_manager α × Int) (h : step_through_time f s t = some r) :
    step_through_time g s t = some r :=
  step_through_time_loop_fuel_le hfg f g hfg s t r h

end fuel

section termination_claim

variable {α : Type} [LinearOrderedField α] [FloorRing α]

/-- C1 (as amended): from every engine state with `decay_rate > 0` and
`decay_rate_multiplier_in_time > 0`, whose descriptors satisfy the caller preconditions, whose
live instances have at least one tick to live, and whose live and pending instances together fit
an `unsigned int` index, `step_through_time` returns: with enough fuel the call yields one and the
same result, after finitely many ticks `n`, with `pressure ≤ 0`. -/
theorem step_through_time_terminates (s : pressure_manager α) (t : Int)
    (hd : 0 < s.pressure_decay_rate) (hm : 0 < s.pressure_decay_rate_multiplier_in_time)
    (hws : ∀ ws ∈ s.wavespawns, wavespawn_ok ws) (hsp : ∀ sp ∈ s.spawns, 1 ≤ sp.time_left)
    (hcap : capacity s < UINT_MOD) :
    ∃ (fuel0 : Nat) (s1 : pressure_manager α) (n : Nat),
      (∀ fuel, fuel0 ≤ fuel → step_through_time fuel s t = some (s1, t + (n : Int)))
      ∧ ticks fuel0 n s t = some (s1, t + (n : Int))
      ∧ s1.pressure ≤ 0 := by
  have hdm : 0 < s.pressure_decay_rate * s.pressure_decay_rate_multiplier_in_time :=
    mul_pos hd hm
  have hden : (0 : α) < ((capacity s : Nat) : α) * (2 / 10) + 1 := by
    have : (0 : α) ≤ ((capacity s : Nat) : α) := Nat.cast_nonneg _
    linarith
  have hleast : 0 < least_decay s (capacity s) := div_pos hdm hden
  obtain ⟨N, hN⟩ := exists_nat_ge (potential s / least_decay s (capacity s))
  rw [div_le_iff₀ hleast] at hN
  have hfuel : potential s
      ≤ ((max N (capacity s) : Nat) : α) * least_decay s (capacity s) := by
    have : (N : α) ≤ ((max N (capacity s) : Nat) : α) := by
      exact_mod_cast le_max_left N (capacity s)
    exact le_trans hN (mul_le_mul_of_nonneg_right this (le_of_lt hleast))
  obtain ⟨r, hr⟩ := step_through_time_loop_total (max N (capacity s)) (capacity s) hcap
    (le_max_right _ _) (max N (capacity s)) s t hws hsp (le_refl _) hdm hfuel
  obtain ⟨s1, t1⟩ := r
  obtain ⟨hle, n, -, ht1, hticks, -⟩ := step_through_time_loop_eq _ _ s s1 t t1 hr
  subst ht1
  exact ⟨max N (capacity s), s1, n,
    fun fuel hf => step_through_time_fuel_le hf s t _ hr, hticks, hle⟩

/-- A call for C1: the default engine with decay rate 42 on which a descriptor with three
instances still to spawn has been registered. -/
theorem step_through_time_terminates_witness :
    ∃ (fuel0 : Nat) (s1 : pressure_manager ℚ) (n : Nat),
      (∀ fuel, fuel0 ≤ fuel →
        step_through_time fuel (add_virtual_wavespawn engine_42 descriptor_wave) 0
          = some (s1, 0 + (n : Int)))
      ∧ ticks fuel0 n (add_virtual_wavespawn engine_42 descriptor_wave) 0
          = some (s1, 0 + (n : Int))
      ∧ s1.pressure ≤ 0 := by
  have hok : wavespawn_ok descriptor_wave := by
    refine ⟨?_, ?_, ?_⟩ <;> norm_num [descriptor_wave]
  apply step_through_time_terminates (add_virtual_wavespawn engine_42 descriptor_wave) 0
  · norm_num [add_virtual_wavespawn, add_virtual_spawn, engine_42,
      pressure_manager.pressure_manager]
  · norm_num [add_virtual_wavespawn, add_virtual_spawn, engine_42,
      pressure_manager.pressure_manager]
  · intro ws hws
    have : (add_virtual_wavespawn engine_42 descriptor_wave).wavespawns = [descriptor_wave] := rfl
    rw [this] at hws
    simp at hws
    rw [hws]
    exact hok
  · intro sp hsp
    have : (add_virtual_wavespawn engine_42 descriptor_wave).spawns
        = [make_virtual_spawn engine_42 descriptor_wave] := rfl
    rw [this] at hsp
    simp at hsp
    rw [hsp]
    exact Int.one_le_ceil_iff.mpr hok.1
  · have : capacity (add_virtual_wavespawn engine_42 descriptor_wave) = 4 := rfl
    rw [this]
    decide

/-- A tick over inert descriptors and no live instance only counts the descriptors down and
applies the decay. -/
theorem tick_idle (fuel : Nat) (s : pressure_manager α) (t : Int)
    (hinert : ∀ ws ∈ s.wavespawns, ws.spawns_remaining = 0) (hs : s.spawns = []) :
    tick fuel s t
      = some (apply_decay { s with wavespawns := s.wavespawns.map counted_down }, t + 1) := by
  have hw := step_wavespawns_inert fuel s hinert
  have hsp : step_spawns fuel { s with wavespawns := s.wavespawns.map counted_down }
      = some { s with wavespawns := s.wavespawns.map counted_down } := by
    unfold step_spawns step_spawns_from
    simp [hs]
  simp only [tick, hw, hsp]

/-- With the multiplier in time at 0, positive pressure, inert descriptors and no live instance,
the `while` of `step_through_time` never ends: no tick changes the pressure. -/
theorem step_through_time_loop_stalled (inner fuel : Nat) :
    ∀ (s : pressure_manager α) (t : Int),
      (∀ ws ∈ s.wavespawns, ws.spawns_remaining = 0) → s.spawns = [] →
      s.pressure_decay_rate_multiplier_in_time = 0 → 0 < s.pressure →
      step_through_time_loop inner fuel s t = none := by
  induction fuel with
  | zero =>
    intro s t _ _ _ hp
    unfold step_through_time_loop
    rw [if_pos hp]
  | succ f ih =>
    intro s t hinert hs hm hp
    unfold step_through_time_loop
    rw [if_pos hp]
    simp only [tick_idle inner s t hinert hs]
    apply ih
    · intro ws hws
      simp only [apply_decay, List.mem_map] at hws
      obtain ⟨w, hw, rfl⟩ := hws
      exact hinert w hw
    · simp only [apply_decay, hs]
    · simp only [apply_decay, hm]
    · simp only [apply_decay, hm, mul_zero, zero_div, sub_zero]
      exact hp

/-- Counterexample to C1 as stated: on the default engine with `decay_rate = 42 > 0` the
multiplier in time is set to 0 and one descriptor satisfying the caller preconditions is
registered (`time_to_kill = 1`, `effective_pressure = 50`, nothing left to spawn). The pressure is
50 and every tick subtracts `42 * 0 / (...) = 0`, so `step_through_time` does not return, whatever
the fuel. -/
theorem step_through_time_stalls :
    0 < engine_no_decay.pressure_decay_rate
    ∧ (∀ ws ∈ engine_no_decay.wavespawns, wavespawn_ok ws)
    ∧ (∀ sp ∈ engine_no_decay.spawns, 1 ≤ sp.time_left)
    ∧ capacity engine_no_decay < UINT_MOD
    ∧ engine_no_decay.pressure = 50
    ∧ (∀ (fuel : Nat) (t : Int), step_through_time fuel engine_no_decay t = none) := by
  have hc : Int.ceil (descriptor_quick.time_to_kill) = 1 := by
    simp [descriptor_quick]
  have hws : engine_no_decay.wavespawns = [descriptor_quick] := rfl
  have hsp : engine_no_decay.spawns
      = [make_virtual_spawn (set_pressure_decay_rate_multiplier_in_time engine_42 0)
          descriptor_quick] := rfl
  have hl : (make_virtual_spawn (set_pressure_decay_rate_multiplier_in_time engine_42 0)
      descriptor_quick).time_left = 1 := hc
  have hinert : ∀ ws ∈ engine_no_decay.wavespawns, ws.spawns_remaining = 0 := by
    intro ws hw
    rw [hws] at hw
    simp at hw
    rw [hw]
    rfl
  have hp : engine_no_decay.pressure = 50 := by
    simp only [engine_no_decay, add_virtual_wavespawn, add_virtual_spawn, make_virtual_spawn,
      virtual_spawn.get_pressure_per_second, hc]
    norm_num [set_pressure_decay_rate_multiplier_in_time, engine_42,
      pressure_manager.pressure_manager, descriptor_quick]
  refine ⟨?_, ?_, ?_, ?_, hp, ?_⟩
  · norm_num [engine_no_decay, add_virtual_wavespawn, add_virtual_spawn,
      set_pressure_decay_rate_multiplier_in_time, engine_42, pressure_manager.pressure_manager]
  · intro ws hw
    rw [hws] at hw
    simp at hw
    rw [hw]
    refine ⟨?_, ?_, ?_⟩ <;> norm_num [descriptor_quick]
  · intro sp hmem
    rw [hsp] at hmem
    simp at hmem
    rw [hmem, hl]
  · have : capacity engine_no_decay = 1 := rfl
    rw [this]
    decide
  · intro fuel t
    unfold step_through_time
    have hpos : (0 : ℚ) < engine_no_decay.pressure := by rw [hp]; norm_num
    cases fuel with
    | zero =>
      unfold step_through_time_loop
      rw [if_pos hpos]
    | succ f =>
      unfold step_through_time_loop
      rw [if_pos hpos]
      simp only [tick_lone_dying f engine_no_decay t _ hinert hsp hl]
      apply step_through_time_loop_stalled
      · intro ws hw
        simp only [apply_decay, List.mem_map] at hw
        obtain ⟨w, hw1, rfl⟩ := hw
        exact hinert w hw1
      · rfl
      · rfl
      · simp only [apply_decay]
        rw [hp]
        norm_num [engine_no_decay, add_virtual_wavespawn, add_virtual_spawn,
          set_pressure_decay_rate_multiplier_in_time]

end termination_claim

section decay_amount

variable {α : Type} [LinearOrderedField α] [FloorRing α]

theorem decay_subtracted_eq (s : pressure_manager α) (hfit : s.spawns.length < UINT_MOD) :
    decay_subtracted s
      = s.pressure_decay_rate * s.pressure_decay_rate_multiplier_in_time
        / ((s.spawns.length : α) * (2 / 10) + 1) := by
  simp only [decay_subtracted, apply_decay, Nat.mod_eq_of_lt hfit]
  ring

/-- C11 (as amended): for a fixed `decay_rate` and a fixed `decay_rate_multiplier_in_time` whose
product is positive, the amount one tick subtracts from the pressure,
`decay_rate * decay_rate_multiplier_in_time / (active_spawn_count * 0.2 + 1)`, is strictly
decreasing in the number of live instances: with more instances live (within `unsigned int`
range) strictly less is subtracted. -/
theorem decay_strictly_decreasing (s s1 : pressure_manager α)
    (hd : s1.pressure_decay_rate = s.pressure_decay_rate)
    (hm : s1.pressure_decay_rate_multiplier_in_time = s.pressure_decay_rate_multiplier_in_time)
    (hpos : 0 < s.pressure_decay_rate * s.pressure_decay_rate_multiplier_in_time)
    (hlt : s.spawns.length < s1.spawns.length) (hfit : s1.spawns.length < UINT_MOD) :
    decay_subtracted s
        = s.pressure_decay_rate * s.pressure_decay_rate_multiplier_in_time
          / ((s.spawns.length : α) * (2 / 10) + 1)
    ∧ decay_subtracted s1
        = s.pressure_decay_rate * s.pressure_decay_rate_multiplier_in_time
          / ((s1.spawns.length : α) * (2 / 10) + 1)
    ∧ decay_subtracted s1 < decay_subtracted s := by
  have h0 := decay_subtracted_eq s (lt_trans hlt hfit)
  have h1 := decay_subtracted_eq s1 hfit
  rw [hd, hm] at h1
  refine ⟨h0, h1, ?_⟩
  rw [h0, h1]
  have hn : (0 : α) ≤ (s.spawns.length : α) := Nat.cast_nonneg _
  have hnm : (s.spawns.length : α) < (s1.spawns.length : α) := by exact_mod_cast hlt
  apply div_lt_div_of_pos_left hpos
  · linarith
  · linarith

/-- Two counts for C11 on the default engine (decay rate 42, multiplier in time 3): with one live
instance less is subtracted than with none. -/
theorem decay_strictly_decreasing_witness :
    decay_subtracted (add_virtual_wavespawn engine_42 descriptor_50)
      < decay_subtracted engine_42 := by
  have h := decay_strictly_decreasing engine_42 (add_virtual_wavespawn engine_42 descriptor_50)
    rfl rfl (by norm_num [engine_42, pressure_manager.pressure_manager])
    (by simp [add_virtual_wavespawn, add_virtual_spawn, engine_42,
      pressure_manager.pressure_manager])
    (by simp [add_virtual_wavespawn, add_virtual_spawn, engine_42,
      pressure_manager.pressure_manager, UINT_MOD])
  exact h.2.2

/-- Counterexample to C11 as stated: with the positive decay rate 42 fixed and the multiplier in
time fixed at 0, a tick subtracts 0 with no live instance and 0 with one live instance, so the
amount is not strictly smaller for the larger count. -/
theorem decay_not_strictly_decreasing :
    (set_pressure_decay_rate_multiplier_in_time engine_42 0).pressure_decay_rate
        = engine_no_decay.pressure_decay_rate
    ∧ (set_pressure_decay_rate_multiplier_in_time engine_42 0).pressure_decay_rate_multiplier_in_time
        = engine_no_decay.pressure_decay_rate_multiplier_in_time
    ∧ (set_pressure_decay_rate_multiplier_in_time engine_42 0).spawns.length = 0
    ∧ engine_no_decay.spawns.length = 1
    ∧ decay_subtracted (set_pressure_decay_rate_multiplier_in_time engine_42 0) = 0
    ∧ decay_subtracted engine_no_decay = 0
    ∧ ¬ (decay_subtracted engine_no_decay
          < decay_subtracted (set_pressure_decay_rate_multiplier_in_time engine_42 0)) := by
  have h0 : decay_subtracted (set_pressure_decay_rate_multiplier_in_time engine_42 0) = 0 := by
    rw [decay_subtracted_eq _ (by simp [set_pressure_decay_rate_multiplier_in_time, engine_42,
      pressure_manager.pressure_manager, UINT_MOD])]
    simp [set_pressure_decay_rate_multiplier_in_time]
  have h1 : decay_subtracted engine_no_decay = 0 := by
    rw [decay_subtracted_eq _ (by simp [engine_no_decay, add_virtual_wavespawn,
      add_virtual_spawn, set_pressure_decay_rate_multiplier_in_time, engine_42,
      pressure_manager.pressure_manager, UINT_MOD])]
    simp [engine_no_decay, add_virtual_wavespawn, add_virtual_spawn,
      set_pressure_decay_rate_multiplier_in_time]
  refine ⟨rfl, rfl, rfl, rfl, h0, h1, ?_⟩
  rw [h0, h1]
  exact lt_irrefl 0

end decay_amount

section frame

variable {α : Type} [LinearOrderedField α] [FloorRing α]

theorem same_settings_refl (s : pressure_manager α) : same_settings s s :=
  ⟨rfl, rfl, rfl, rfl, rfl, rfl, rfl, rfl, rfl⟩

theorem same_settings_trans {s s1 s2 : pressure_manager α} (h1 : same_settings s s1)
    (h2 : same_settings s1 s2) : same_settings s s2 := by
  obtain ⟨a1, a2, a3, a4, a5, a6, a7, a8, a9⟩ := h1
  obtain ⟨b1, b2, b3, b4, b5, b6, b7, b8, b9⟩ := h2
  exact ⟨b1.trans a1, b2.trans a2, b3.trans a3, b4.trans a4, b5.trans a5, b6.trans a6,
    b7.trans a7, b8.trans a8, b9.trans a9⟩

/-- The live-spawn loop writes nothing but the live-spawn list, the pressure and the currency
manager, whatever the length of the list. -/
theorem step_spawns_from_frame (fuel : Nat) :
    ∀ (i : Nat) (s r : pressure_manager α), step_spawns_from fuel i s = some r →
      same_settings s r ∧ r.wavespawns = s.wavespawns := by
  induction fuel with
  | zero =>
    intro i s r h
    unfold step_spawns_from at h
    by_cases hi : i < s.spawns.length
    · rw [dif_pos hi] at h
      simp at h
    · rw [dif_neg hi] at h
      simp at h
      subst h
      exact ⟨same_settings_refl s, rfl⟩
  | succ f ih =>
    intro i s r h
    unfold step_spawns_from at h
    by_cases hi : i < s.spawns.length
    · rw [dif_pos hi] at h
      simp only at h
      split at h
      · obtain ⟨h1, h2⟩ := ih _ _ _ h
        exact ⟨same_settings_trans (same_settings_refl s) h1, h2⟩
      · obtain ⟨h1, h2⟩ := ih _ _ _ h
        exact ⟨same_settings_trans (same_settings_refl s) h1, h2⟩
    · rw [dif_neg hi] at h
      simp at h
      subst h
      exact ⟨same_settings_refl s, rfl⟩

/-- A tick writes neither a tunable nor the stored decay rate. -/
theorem tick_frame {fuel : Nat} {s s1 : pressure_manager α} {t t1 : Int}
    (h : tick fuel s t = some (s1, t1)) : same_settings s s1 := by
  unfold tick at h
  cases hw : step_wavespawns fuel s with
  | none => simp [hw] at h
  | some s2 =>
    simp only [hw] at h
    cases hsp : step_spawns fuel s2 with
    | none => simp [hsp] at h
    | some s3 =>
      simp only [hsp] at h
      simp at h
      obtain ⟨new, hnew⟩ := step_wavespawns_spawned hw
      have h2 : same_settings s s2 := by
        rw [hnew]
        exact ⟨rfl, rfl, rfl, rfl, rfl, rfl, rfl, rfl, rfl⟩
      have h3 : same_settings s2 s3 := (step_spawns_from_frame fuel 0 s2 s3 hsp).1
      have h4 : same_settings s3 s1 := by
        rw [← h.1]
        exact ⟨rfl, rfl, rfl, rfl, rfl, rfl, rfl, rfl, rfl⟩
      exact same_settings_trans (same_settings_trans h2 h3) h4

theorem step_through_time_loop_frame (inner fuel : Nat) :
    ∀ (s s1 : pressure_manager α) (t t1 : Int),
      step_through_time_loop inner fuel s t = some (s1, t1) → same_settings s s1 := by
  induction fuel with
  | zero =>
    intro s s1 t t1 h
    unfold step_through_time_loop at h
    by_cases hp : 0 < s.pressure
    · simp [hp] at h
    · simp [hp] at h
      rw [← h.1]
      exact same_settings_refl s
  | succ f ih =>
    intro s s1 t t1 h
    unfold step_through_time_loop at h
    by_cases hp : 0 < s.pressure
    · simp only [hp, if_true] at h
      cases hk : tick inner s t with
      | none => simp [hk] at h
      | some r =>
        obtain ⟨s2, t2⟩ := r
        simp only [hk] at h
        exact same_settings_trans (tick_frame hk) (ih _ _ _ _ h)
    · simp [hp] at h
      rw [← h.1]
      exact same_settings_refl s

/-- C12: the stored `decay_rate` is written by `calculate_pressure_decay_rate` only. Each of
`set_players`, `multiply_pressure_decay_rate_multiplier`,
`set_pressure_decay_rate_multiplier_in_time` and `set_bot_path_length` changes its own member and
nothing else; `reset_pressure` sets the pressure to 0 and changes nothing else, the two live lists
included; `add_virtual_wavespawn` and `step_through_time` leave the stored decay rate and every
tunable as they were. -/
theorem decay_rate_written_by_calculate_only :
    (∀ (s : pressure_manager α) (n : Int),
        set_players s n = { s with players := n }
        ∧ (set_players s n).pressure_decay_rate = s.pressure_decay_rate)
    ∧ (∀ (s : pressure_manager α) (x : α),
        multiply_pressure_decay_rate_multiplier s x
          = { s with pressure_decay_rate_multiplier := s.pressure_decay_rate_multiplier * x }
        ∧ (multiply_pressure_decay_rate_multiplier s x).pressure_decay_rate
            = s.pressure_decay_rate)
    ∧ (∀ (s : pressure_manager α) (x : α),
        set_pressure_decay_rate_multiplier_in_time s x
          = { s with pressure_decay_rate_multiplier_in_time := x }
        ∧ (set_pressure_decay_rate_multiplier_in_time s x).pressure_decay_rate
            = s.pressure_decay_rate)
    ∧ (∀ (s : pressure_manager α) (x : α),
        set_bot_path_length s x = { s with bot_path_length := x }
        ∧ (set_bot_path_length s x).pressure_decay_rate = s.pressure_decay_rate)
    ∧ (∀ s : pressure_manager α,
        reset_pressure s = { s with pressure := 0 }
        ∧ (reset_pressure s).pressure_decay_rate = s.pressure_decay_rate
        ∧ (reset_pressure s).wavespawns = s.wavespawns
        ∧ (reset_pressure s).spawns = s.spawns)
    ∧ (∀ (s : pressure_manager α) (ws : virtual_wavespawn α),
        same_settings s (add_virtual_wavespawn s ws)
        ∧ (add_virtual_wavespawn s ws).pressure_decay_rate = s.pressure_decay_rate)
    ∧ (∀ (fuel : Nat) (s s1 : pressure_manager α) (t t1 : Int),
        step_through_time fuel s t = some (s1, t1) →
        same_settings s s1 ∧ s1.pressure_decay_rate = s.pressure_decay_rate)
    ∧ (∀ (e : externals α) (s : pressure_manager α),
        calculate_pressure_decay_rate e s
          = { s with pressure_decay_rate :=
                (e.get_currency_pressure s.mission_currency + s.base_pressure_decay_rate)
                  * get_effective_players e s * s.pressure_decay_rate_multiplier
                  * s.bot_path_length }) := by
  refine ⟨fun _ _ => ⟨rfl, rfl⟩, fun _ _ => ⟨rfl, rfl⟩, fun _ _ => ⟨rfl, rfl⟩,
    fun _ _ => ⟨rfl, rfl⟩, fun _ => ⟨rfl, rfl, rfl, rfl⟩,
    fun _ _ => ⟨⟨rfl, rfl, rfl, rfl, rfl, rfl, rfl, rfl, rfl⟩, rfl⟩, ?_, fun _ _ => rfl⟩
  intro fuel s s1 t t1 h
  have hf := step_through_time_loop_frame fuel fuel s s1 t t1 h
  exact ⟨hf, hf.1⟩

/-- A call for C12: the step of the scenario `effective_pressure = 50`, `time_to_kill = 4.2` on
the default engine returns with the decay rate still 42. -/
theorem decay_rate_written_by_calculate_only_witness :
    ∃ r : pressure_manager ℚ,
      step_through_time 1 (add_virtual_wavespawn engine_42 descriptor_50) 0 = some (r, 1)
      ∧ r.pressure_decay_rate = 42 := by
  obtain ⟨r, h, -⟩ := step_registered_50
  refine ⟨r, h, ?_⟩
  rw [((@decay_rate_written_by_calculate_only ℚ _ _).2.2.2.2.2.2.1 1 _ r 0 1 h).2]
  rfl

end frame

section firing

variable {α : Type} [LinearOrderedField α] [FloorRing α]

theorem fired_blocks_spawned (s : pressure_manager α) (new : List (virtual_spawn α))
    (l : List (virtual_wavespawn α)) :
    ∀ ks : List Nat, fired_blocks (spawned s new) l ks = fired_blocks s l ks := by
  induction l with
  | nil => intro ks; rfl
  | cons ws rest ih =>
    intro ks
    cases ks with
    | nil => rfl
    | cons k ks =>
      simp only [fired_blocks, ih]
      rfl

/-- A run of the descriptor loop fires every descriptor some number of times, in list order. -/
theorem wavespawns_run_counts {s s1 : pressure_manager α} {l l1 : List (virtual_wavespawn α)}
    (h : wavespawns_run s l s1 l1) :
    ∃ ks : List Nat, List.Forall₂ fires l ks
      ∧ s1 = spawned s (fired_blocks s l ks) ∧ l1 = rearmed_all l ks := by
  induction h with
  | nil s => exact ⟨[], List.Forall₂.nil, (spawned_nil s).symm, rfl⟩
  | cons s ws rest k s1 rest1 hbefore hafter _ ih =>
    obtain ⟨ks, hks, hs1, hl1⟩ := ih
    refine ⟨k :: ks, List.Forall₂.cons ⟨hbefore, hafter⟩ hks, ?_, ?_⟩
    · rw [hs1, spawned_spawned, fired_blocks_spawned]
      rfl
    · rw [hl1]
      rfl

/-- The descriptor phase of a tick, when it returns, has fired every registered descriptor some
number of times, in list order. -/
theorem step_wavespawns_counts {fuel : Nat} {s s1 : pressure_manager α}
    (h : step_wavespawns fuel s = some s1) :
    ∃ ks : List Nat, List.Forall₂ fires s.wavespawns ks
      ∧ s1 = { spawned s (fired_blocks s s.wavespawns ks) with
                wavespawns := rearmed_all s.wavespawns ks } := by
  obtain ⟨s2, l1, hrun, hs1⟩ := step_wavespawns_eq h
  obtain ⟨ks, hks, hs2, hl1⟩ := wavespawns_run_counts hrun
  exact ⟨ks, hks, by rw [hs1, hs2, hl1]⟩

theorem rearmed_all_not_may_fire (l : List (virtual_wavespawn α)) :
    ∀ ks : List Nat, List.Forall₂ fires l ks → ∀ ws ∈ rearmed_all l ks, ¬ may_fire ws := by
  induction l with
  | nil =>
    intro ks _ ws hws
    cases ks <;> simp [rearmed_all] at hws
  | cons w rest ih =>
    intro ks hks ws hws
    cases hks with
    | cons hk hrest =>
      simp only [rearmed_all, List.mem_cons] at hws
      rcases hws with rfl | hws
      · exact hk.2
      · exact ih _ hrest ws hws

/-- The number of times a descriptor fires in a tick is determined by the descriptor. -/
theorem fires_unique (ws : virtual_wavespawn α) (k k1 : Nat) (h : fires ws k)
    (h1 : fires ws k1) : k = k1 := by
  rcases Nat.lt_trichotomy k k1 with hlt | heq | hgt
  · exact absurd (h1.1 k hlt) h.2
  · exact heq
  · exact absurd (h.1 k1 hgt) h1.2

end firing

section descriptor_claim

variable {α : Type} [LinearOrderedField α] [FloorRing α]

theorem may_fire_rearmed_iff (ws : virtual_wavespawn α) (j : Nat) :
    may_fire (rearmed (counted_down ws) j)
      ↔ ws.spawns_remaining - (j : Int) ≠ 0
        ∧ ws.time_until_next_spawn - 1 + (j : α) * ws.wait_between_spawns ≤ 0 := by
  simp only [may_fire, rearmed, counted_down]

theorem step_wavespawns_some_fuel_frame {fuel : Nat} {s s1 s2 : pressure_manager α}
    {t t1 : Int} (hw : step_wavespawns fuel s = some s2) (h : tick fuel s t = some (s1, t1)) :
    s1.wavespawns = s2.wavespawns := by
  unfold tick at h
  simp only [hw] at h
  cases hsp : step_spawns fuel s2 with
  | none => simp [hsp] at h
  | some s3 =>
    simp only [hsp] at h
    simp at h
    rw [← h.1]
    exact (step_spawns_from_frame fuel 0 s2 s3 hsp).2

/-- The descriptor due now with interval 1/2 and five instances left fires three times. -/
theorem fires_descriptor_burst : fires descriptor_burst 3 := by
  refine ⟨?_, ?_⟩
  · intro j hj
    rw [may_fire_rearmed_iff]
    have : j = 0 ∨ j = 1 ∨ j = 2 := by omega
    rcases this with rfl | rfl | rfl <;> norm_num [descriptor_burst]
  · rw [may_fire_rearmed_iff]
    norm_num [descriptor_burst]

end descriptor_claim

section lifetimes

variable {α : Type} [LinearOrderedField α] [FloorRing α]

theorem mem_fired_blocks (s : pressure_manager α) (l : List (virtual_wavespawn α)) :
    ∀ (ks : List Nat) (sp : virtual_spawn α), sp ∈ fired_blocks s l ks →
      ∃ ws ∈ l, sp = make_virtual_spawn s ws := by
  induction l with
  | nil =>
    intro ks sp h
    cases ks <;> simp [fired_blocks] at h
  | cons w rest ih =>
    intro ks sp h
    cases ks with
    | nil => simp [fired_blocks] at h
    | cons k ks =>
      simp only [fired_blocks, List.mem_append] at h
      rcases h with h | h
      · exact ⟨w, List.mem_cons_self _ _, List.eq_of_mem_replicate h⟩
      · obtain ⟨ws, hws, hsp⟩ := ih ks sp h
        exact ⟨ws, List.mem_cons_of_mem _ hws, hsp⟩

theorem mem_rearmed_all (l : List (virtual_wavespawn α)) :
    ∀ (ks : List Nat) (ws1 : virtual_wavespawn α), ws1 ∈ rearmed_all l ks →
      ∃ ws ∈ l, ∃ k : Nat, ws1 = rearmed (counted_down ws) k := by
  induction l with
  | nil =>
    intro ks ws1 h
    cases ks <;> simp [rearmed_all] at h
  | cons w rest ih =>
    intro ks ws1 h
    cases ks with
    | nil => simp [rearmed_all] at h
    | cons k ks =>
      simp only [rearmed_all, List.mem_cons] at h
      rcases h with h | h
      · exact ⟨w, List.mem_cons_self _ _, k, h⟩
      · obtain ⟨ws, hws, hk⟩ := ih ks ws1 h
        exact ⟨ws, List.mem_cons_of_mem _ hws, hk⟩

/-- The survivors of a pass are the instances with a lifetime other than 1, one tick older. -/
theorem survivors_eq_filter (l : List (virtual_spawn α)) :
    survivors l
      = (l.filter (fun sp => decide (sp.time_left ≠ 1))).map virtual_spawn.decrement_time := by
  induction l with
  | nil => rfl
  | cons x rest ih =>
    by_cases hx : x.time_left = 1
    · have hd : x.decrement_time.is_dead = true := by
        simp [virtual_spawn.is_dead, virtual_spawn.decrement_time, hx]
      rw [survivors_cons_dead _ _ hd, ih]
      simp [hx]
    · have hd : x.decrement_time.is_dead = false := by
        simp only [virtual_spawn.is_dead, virtual_spawn.decrement_time, beq_eq_false_iff_ne]
        omega
      rw [survivors_cons_alive _ _ hd, ih]
      simp [hx]

/-- The casualties of a pass are the instances with lifetime 1, now at 0. -/
theorem casualties_eq_filter (l : List (virtual_spawn α)) :
    casualties l
      = (l.filter (fun sp => decide (sp.time_left = 1))).map virtual_spawn.decrement_time := by
  induction l with
  | nil => rfl
  | cons x rest ih =>
    by_cases hx : x.time_left = 1
    · have hd : x.decrement_time.is_dead = true := by
        simp [virtual_spawn.is_dead, virtual_spawn.decrement_time, hx]
      rw [casualties_cons_dead _ _ hd, ih]
      simp [hx]
    · have hd : x.decrement_time.is_dead = false := by
        simp only [virtual_spawn.is_dead, virtual_spawn.decrement_time, beq_eq_false_iff_ne]
        omega
      rw [casualties_cons_alive _ _ hd, ih]
      simp [hx]

/-- C14: with `time_to_kill > 0` on every registered descriptor, (1) an instance has
`remaining_lifetime ≥ 1` when it is created; (2) the invariant "every descriptor has
`time_to_kill > 0` and every live instance has `remaining_lifetime ≥ 1`" holds in a fresh engine
and is kept by registration, by every configuration call and by every completed tick; (3) a tick
removes exactly the instances whose lifetime reaches zero in it, those that entered it with
lifetime 1, and keeps every other one, one tick older. -/
theorem lifetime_invariant :
    (∀ (s : pressure_manager α) (ws : virtual_wavespawn α), 0 < ws.time_to_kill →
        1 ≤ (make_virtual_spawn s ws).time_left)
    ∧ (∀ (cm : currency_manager) (decay0 : α),
        lifetimes_ok (pressure_manager.pressure_manager cm decay0))
    ∧ (∀ (s : pressure_manager α) (ws : virtual_wavespawn α), lifetimes_ok s →
        0 < ws.time_to_kill → lifetimes_ok (add_virtual_wavespawn s ws))
    ∧ (∀ (e : externals α) (s : pressure_manager α) (n : Int) (x : α), lifetimes_ok s →
        lifetimes_ok (calculate_pressure_decay_rate e s) ∧ lifetimes_ok (set_players s n)
        ∧ lifetimes_ok (multiply_pressure_decay_rate_multiplier s x)
        ∧ lifetimes_ok (set_pressure_decay_rate_multiplier_in_time s x)
        ∧ lifetimes_ok (set_bot_path_length s x) ∧ lifetimes_ok (reset_pressure s))
    ∧ (∀ (fuel : Nat) (s s1 : pressure_manager α) (t t1 : Int), lifetimes_ok s →
        tick fuel s t = some (s1, t1) →
        (s.spawns ++ spawned_in_tick fuel s).length < UINT_MOD →
        lifetimes_ok s1
        ∧ (∀ sp ∈ spawned_in_tick fuel s, 1 ≤ sp.time_left)
        ∧ s1.spawns
            = ((s.spawns ++ spawned_in_tick fuel s).filter
                (fun sp => decide (sp.time_left ≠ 1))).map virtual_spawn.decrement_time
        ∧ casualties (s.spawns ++ spawned_in_tick fuel s)
            = ((s.spawns ++ spawned_in_tick fuel s).filter
                (fun sp => decide (sp.time_left = 1))).map virtual_spawn.decrement_time
        ∧ (∀ sp ∈ casualties (s.spawns ++ spawned_in_tick fuel s), sp.time_left = 0)) := by
  refine ⟨?_, ?_, ?_, ?_, ?_⟩
  · intro s ws hT
    exact Int.one_le_ceil_iff.mpr hT
  · intro cm decay0
    refine ⟨?_, ?_⟩
    · intro ws hws
      simp [pressure_manager.pressure_manager] at hws
    · intro sp hsp
      simp [pressure_manager.pressure_manager] at hsp
  · intro s ws hok hT
    refine ⟨?_, ?_⟩
    · intro w hw
      have : (add_virtual_wavespawn s ws).wavespawns = s.wavespawns ++ [ws] := rfl
      rw [this, List.mem_append] at hw
      rcases hw with hw | hw
      · exact hok.1 w hw
      · simp at hw
        rw [hw]
        exact hT
    · intro sp hsp
      have : (add_virtual_wavespawn s ws).spawns = s.spawns ++ [make_virtual_spawn s ws] := rfl
      rw [this, List.mem_append] at hsp
      rcases hsp with hsp | hsp
      · exact hok.2 sp hsp
      · simp at hsp
        rw [hsp]
        exact Int.one_le_ceil_iff.mpr hT
  · intro e s n x hok
    exact ⟨hok, hok, hok, hok, hok, hok⟩
  · intro fuel s s1 t t1 hok h hfit
    obtain ⟨-, s2, hw, hs2, -⟩ := tick_eq h
    obtain ⟨ks, hks, hcounts⟩ := step_wavespawns_counts hw
    have hnew : spawned_in_tick fuel s = fired_blocks s s.wavespawns ks := by
      apply spawned_in_tick_eq hw
      rw [hcounts]
      rfl
    have hnew_ok : ∀ sp ∈ spawned_in_tick fuel s, 1 ≤ sp.time_left := by
      intro sp hsp
      rw [hnew] at hsp
      obtain ⟨ws, hws, rfl⟩ := mem_fired_blocks s _ ks sp hsp
      exact Int.one_le_ceil_iff.mpr (hok.1 ws hws)
    have hall : ∀ sp ∈ s.spawns ++ spawned_in_tick fuel s, 1 ≤ sp.time_left := by
      intro sp hsp
      rcases List.mem_append.mp hsp with hsp | hsp
      · exact hok.2 sp hsp
      · exact hnew_ok sp hsp
    have hspawns := (tick_calls h hfit).2
    have hws1 : s1.wavespawns = rearmed_all s.wavespawns ks := by
      rw [step_wavespawns_some_fuel_frame hw h, hcounts]
    refine ⟨⟨?_, ?_⟩, hnew_ok, ?_, casualties_eq_filter _, ?_⟩
    · intro ws1 hws1m
      rw [hws1] at hws1m
      obtain ⟨ws, hws, k, rfl⟩ := mem_rearmed_all _ ks ws1 hws1m
      exact hok.1 ws hws
    · rw [hspawns]
      exact survivors_alive _ hall
    · rw [hspawns, survivors_eq_filter]
    · intro sp hsp
      simp only [casualties, List.mem_filter] at hsp
      simpa [virtual_spawn.is_dead] using hsp.2

/-- A tick for C14: after the first tick of the scenario `effective_pressure = 50`,
`time_to_kill = 4.2` the invariant holds, the one live instance having 4 ticks left. -/
theorem lifetime_invariant_witness :
    ∃ r : pressure_manager ℚ,
      tick 1 (add_virtual_wavespawn engine_42 descriptor_50) 0 = some (r, 1)
      ∧ lifetimes_ok r
      ∧ r.spawns = [{ time_left := 4, pressure_per_second := 10, effective_pressure := 50,
                      currency := 7 }] := by
  obtain ⟨r, ht, -, hsp, -⟩ := tick_registered_50
  have hT : (0 : ℚ) < descriptor_50.time_to_kill := by norm_num [descriptor_50]
  have hok : lifetimes_ok (add_virtual_wavespawn engine_42 descriptor_50) :=
    (@lifetime_invariant ℚ _ _).2.2.1 engine_42 descriptor_50
      ((@lifetime_invariant ℚ _ _).2.1 { calls := [] } 42) hT
  have hinert : ∀ ws ∈ (add_virtual_wavespawn engine_42 descriptor_50).wavespawns,
      ws.spawns_remaining = 0 := by
    intro ws hws
    have : (add_virtual_wavespawn engine_42 descriptor_50).wavespawns = [descriptor_50] := rfl
    rw [this] at hws
    simp at hws
    rw [hws]
    rfl
  have hfit : ((add_virtual_wavespawn engine_42 descriptor_50).spawns
      ++ spawned_in_tick 1 (add_virtual_wavespawn engine_42 descriptor_50)).length
      < UINT_MOD := by
    have h0 : spawned_in_tick 1 (add_virtual_wavespawn engine_42 descriptor_50) = [] := by
      simp [spawned_in_tick, step_wavespawns_inert _ _ hinert]
    rw [h0]
    simp [add_virtual_wavespawn, add_virtual_spawn, engine_42,
      pressure_manager.pressure_manager, UINT_MOD]
  exact ⟨r, ht, ((@lifetime_invariant ℚ _ _).2.2.2.2 1 _ r 0 1 hok ht hfit).1, hsp⟩

end lifetimes

section descriptor_lists

variable {α : Type} [LinearOrderedField α] [FloorRing α]

theorem descriptor_step_refl (ws : virtual_wavespawn α) : descriptor_step ws ws :=
  ⟨le_refl _, fun h => h, rfl, rfl, rfl, rfl, rfl⟩

theorem descriptor_step_trans {a b c : virtual_wavespawn α} (h1 : descriptor_step a b)
    (h2 : descriptor_step b c) : descriptor_step a c := by
  obtain ⟨a1, a2, a3, a4, a5, a6, a7⟩ := h1
  obtain ⟨b1, b2, b3, b4, b5, b6, b7⟩ := h2
  exact ⟨le_trans b1 a1, fun h => b2 (a2 h), b3.trans a3, b4.trans a4, b5.trans a5,
    b6.trans a6, b7.trans a7⟩

theorem forall2_descriptor_step_refl (l : List (virtual_wavespawn α)) :
    List.Forall₂ descriptor_step l l := by
  induction l with
  | nil => exact List.Forall₂.nil
  | cons w rest ih => exact List.Forall₂.cons (descriptor_step_refl w) ih

theorem forall2_descriptor_step_trans {l1 l2 l3 : List (virtual_wavespawn α)}
    (h1 : List.Forall₂ descriptor_step l1 l2) (h2 : List.Forall₂ descriptor_step l2 l3) :
    List.Forall₂ descriptor_step l1 l3 := by
  induction h1 generalizing l3 with
  | nil =>
    cases h2
    exact List.Forall₂.nil
  | cons hab _ ih =>
    cases h2 with
    | cons hbc hrest => exact List.Forall₂.cons (descriptor_step_trans hab hbc) (ih hrest)

theorem descriptor_step_fires (ws : virtual_wavespawn α) (k : Nat) (h : fires ws k) :
    descriptor_step ws (rearmed (counted_down ws) k) := by
  refine ⟨?_, ?_, rfl, rfl, rfl, rfl, rfl⟩
  · simp only [rearmed, counted_down]
    omega
  · intro h0
    have := fired_le_remaining (counted_down ws) k h0 h.1
    simp only [rearmed, counted_down] at this ⊢
    omega

theorem forall2_descriptor_step_rearmed (l : List (virtual_wavespawn α)) (ks : List Nat)
    (h : List.Forall₂ fires l ks) : List.Forall₂ descriptor_step l (rearmed_all l ks) := by
  induction h with
  | nil => exact List.Forall₂.nil
  | cons hk _ ih => exact List.Forall₂.cons (descriptor_step_fires _ _ hk) ih

/-- A tick keeps every descriptor in its place. -/
theorem tick_descriptors {fuel : Nat} {s s1 : pressure_manager α} {t t1 : Int}
    (h : tick fuel s t = some (s1, t1)) :
    List.Forall₂ descriptor_step s.wavespawns s1.wavespawns := by
  have hw : ∃ s2, step_wavespawns fuel s = some s2 := by
    unfold tick at h
    cases hw : step_wavespawns fuel s with
    | none => simp [hw] at h
    | some s2 => exact ⟨s2, rfl⟩
  obtain ⟨s2, hw⟩ := hw
  obtain ⟨ks, hks, hs2⟩ := step_wavespawns_counts hw
  rw [step_wavespawns_some_fuel_frame hw h, hs2]
  exact forall2_descriptor_step_rearmed _ ks hks

theorem step_through_time_loop_descriptors (inner fuel : Nat) :
    ∀ (s s1 : pressure_manager α) (t t1 : Int),
      step_through_time_loop inner fuel s t = some (s1, t1) →
      List.Forall₂ descriptor_step s.wavespawns s1.wavespawns := by
  induction fuel with
  | zero =>
    intro s s1 t t1 h
    unfold step_through_time_loop at h
    by_cases hp : 0 < s.pressure
    · simp [hp] at h
    · simp [hp] at h
      rw [← h.1]
      exact forall2_descriptor_step_refl _
  | succ f ih =>
    intro s s1 t t1 h
    unfold step_through_time_loop at h
    by_cases hp : 0 < s.pressure
    · simp only [hp, if_true] at h
      cases hk : tick inner s t with
      | none => simp [hk] at h
      | some r =>
        obtain ⟨s2, t2⟩ := r
        simp only [hk] at h
        exact forall2_descriptor_step_trans (tick_descriptors hk) (ih _ _ _ _ h)
    · simp [hp] at h
      rw [← h.1]
      exact forall2_descriptor_step_refl _

theorem forall2_descriptor_step_nonneg {l l1 : List (virtual_wavespawn α)}
    (h : List.Forall₂ descriptor_step l l1) (h0 : ∀ ws ∈ l, 0 ≤ ws.spawns_remaining) :
    ∀ ws ∈ l1, 0 ≤ ws.spawns_remaining := by
  induction h with
  | nil =>
    intro ws hws
    simp at hws
  | cons hab _ ih =>
    intro ws hws
    rcases List.mem_cons.mp hws with rfl | hws
    · exact hab.2.1 (h0 _ (List.mem_cons_self _ _))
    · exact ih (fun w hw => h0 w (List.mem_cons_of_mem _ hw)) ws hws

/-- C15: (1) a tick, and so a whole `step_through_time` call, leaves the descriptor list with the
same descriptors in the same places, each with `spawns_remaining` no larger than before, still
non-negative if it was, and all its other members but the countdown unchanged; (2) registration
appends one descriptor and every other operation leaves the list as it is, so no descriptor is
ever removed or reordered; (3) a descriptor with `spawns_remaining = 0` is not fired, whatever
its countdown: the inner `while` returns at once and creates no instance. -/
theorem descriptor_invariants :
    (∀ (fuel : Nat) (s s1 : pressure_manager α) (t t1 : Int),
        tick fuel s t = some (s1, t1) →
        List.Forall₂ descriptor_step s.wavespawns s1.wavespawns
        ∧ s1.wavespawns.length = s.wavespawns.length
        ∧ ((∀ ws ∈ s.wavespawns, 0 ≤ ws.spawns_remaining) →
            ∀ ws ∈ s1.wavespawns, 0 ≤ ws.spawns_remaining))
    ∧ (∀ (fuel : Nat) (s s1 : pressure_manager α) (t t1 : Int),
        step_through_time fuel s t = some (s1, t1) →
        List.Forall₂ descriptor_step s.wavespawns s1.wavespawns
        ∧ s1.wavespawns.length = s.wavespawns.length
        ∧ ((∀ ws ∈ s.wavespawns, 0 ≤ ws.spawns_remaining) →
            ∀ ws ∈ s1.wavespawns, 0 ≤ ws.spawns_remaining))
    ∧ (∀ (s : pressure_manager α) (ws : virtual_wavespawn α),
        (add_virtual_wavespawn s ws).wavespawns = s.wavespawns ++ [ws])
    ∧ (∀ (e : externals α) (s : pressure_manager α) (n : Int) (x : α),
        (calculate_pressure_decay_rate e s).wavespawns = s.wavespawns
        ∧ (set_players s n).wavespawns = s.wavespawns
        ∧ (multiply_pressure_decay_rate_multiplier s x).wavespawns = s.wavespawns
        ∧ (set_pressure_decay_rate_multiplier_in_time s x).wavespawns = s.wavespawns
        ∧ (set_bot_path_length s x).wavespawns = s.wavespawns
        ∧ (reset_pressure s).wavespawns = s.wavespawns)
    ∧ (∀ (ws : virtual_wavespawn α), ws.spawns_remaining = 0 →
        (∀ (fuel : Nat) (s : pressure_manager α),
          fire_spawns fuel s (counted_down ws) = some (s, counted_down ws))
        ∧ ∀ k : Nat, fires ws k → k = 0)
    ∧ (∀ (fuel : Nat) (s : pressure_manager α),
        (∀ ws ∈ s.wavespawns, ws.spawns_remaining = 0) → spawned_in_tick fuel s = []) := by
  refine ⟨?_, ?_, fun _ _ => rfl, fun _ _ _ _ => ⟨rfl, rfl, rfl, rfl, rfl, rfl⟩, ?_, ?_⟩
  · intro fuel s s1 t t1 h
    have hf := tick_descriptors h
    exact ⟨hf, hf.length_eq.symm, forall2_descriptor_step_nonneg hf⟩
  · intro fuel s s1 t t1 h
    have hf := step_through_time_loop_descriptors fuel fuel s s1 t t1 h
    exact ⟨hf, hf.length_eq.symm, forall2_descriptor_step_nonneg hf⟩
  · intro ws h0
    refine ⟨fun fuel s => fire_spawns_inert fuel s (counted_down ws) h0, ?_⟩
    intro k hk
    by_contra hne
    have := (hk.1 0 (Nat.pos_of_ne_zero hne)).1
    simp only [rearmed, counted_down] at this
    omega
  · intro fuel s hinert
    simp [spawned_in_tick, step_wavespawns_inert _ _ hinert]

/-- A call for C15: the step of the scenario `effective_pressure = 50`, `time_to_kill = 4.2`
leaves one descriptor, still with nothing to spawn. -/
theorem descriptor_invariants_witness :
    ∃ r : pressure_manager ℚ,
      step_through_time 1 (add_virtual_wavespawn engine_42 descriptor_50) 0 = some (r, 1)
      ∧ r.wavespawns.length = 1
      ∧ ∀ ws ∈ r.wavespawns, 0 ≤ ws.spawns_remaining := by
  obtain ⟨r, h, -⟩ := step_registered_50
  obtain ⟨-, hlen, hnonneg⟩ := (@descriptor_invariants ℚ _ _).2.1 1 _ r 0 1 h
  refine ⟨r, h, hlen, hnonneg ?_⟩
  intro ws hws
  have : (add_virtual_wavespawn engine_42 descriptor_50).wavespawns = [descriptor_50] := rfl
  rw [this] at hws
  simp at hws
  rw [hws]
  decide

end descriptor_lists

section refinement

variable {α : Type} [LinearOrderedField α] [FloorRing α]

/-- C16: for every live-spawn list within `unsigned int` index range, the erase-and-step-back
loop (index `i`, erase at `i`, `--i` and `++i` modulo `2 ^ 32`, so that erasing at `i = 0` wraps
to `2 ^ 32 - 1` and back to 0) returns, once the fuel covers the length of the list, exactly what
the keep-predicate formulation `step_spawns_filter` gives: every instance decremented once, the
list left with the instances not dead after the decrement in their original order, the pressure
raised by the sum of the survivors' rates, and the credits of the dead instances issued in list
order. -/
theorem erase_loop_refines_filter (s : pressure_manager α)
    (hfit : s.spawns.length < UINT_MOD) :
    (∀ fuel : Nat, s.spawns.length ≤ fuel → step_spawns fuel s = some (step_spawns_filter s))
    ∧ (∀ (fuel : Nat) (r : pressure_manager α),
        step_spawns fuel s = some r → r = step_spawns_filter s)
    ∧ (step_spawns_filter s).spawns
        = (s.spawns.map virtual_spawn.decrement_time).filter (fun sp => !sp.is_dead)
    ∧ List.Sublist (step_spawns_filter s).spawns (s.spawns.map virtual_spawn.decrement_time)
    ∧ List.Perm (casualties s.spawns ++ (step_spawns_filter s).spawns)
        (s.spawns.map virtual_spawn.decrement_time)
    ∧ (step_spawns_filter s).pressure = s.pressure + pps_sum (step_spawns_filter s).spawns
    ∧ (step_spawns_filter s).mission_currency.calls
        = s.mission_currency.calls
          ++ death_calls ((s.spawns.map virtual_spawn.decrement_time).filter
              (fun sp => sp.is_dead))
    ∧ same_settings s (step_spawns_filter s)
    ∧ (step_spawns_filter s).wavespawns = s.wavespawns
    ∧ ((0 + UINT_MOD - 1) % UINT_MOD = UINT_MOD - 1 ∧ (UINT_MOD - 1 + 1) % UINT_MOD = 0) := by
  refine ⟨?_, ?_, rfl, ?_, ?_, rfl, rfl, ⟨rfl, rfl, rfl, rfl, rfl, rfl, rfl, rfl, rfl⟩, rfl,
    by decide, by decide⟩
  · intro fuel hfuel
    rw [step_spawns_eq fuel s hfit, if_pos hfuel]
  · intro fuel r hr
    rw [step_spawns_eq fuel s hfit] at hr
    by_cases hle : s.spawns.length ≤ fuel
    · rw [if_pos hle] at hr
      simp at hr
      exact hr.symm
    · rw [if_neg hle] at hr
      simp at hr
  · exact List.filter_sublist _
  · exact List.filter_append_perm (fun sp : virtual_spawn α => sp.is_dead)
      (s.spawns.map virtual_spawn.decrement_time)

/-- A list for C16 whose first instance dies, so that the index steps back from 0: the loop
leaves the second instance with 2 ticks, adds its rate 5 and credits the 7 currency of the
first. -/
theorem erase_loop_refines_filter_witness :
    step_spawns 2 engine_two = some (step_spawns_filter engine_two)
    ∧ (step_spawns_filter engine_two).spawns
        = [{ time_left := 2, pressure_per_second := 5, effective_pressure := 50, currency := 2 }]
    ∧ (step_spawns_filter engine_two).pressure = engine_two.pressure + 5
    ∧ (step_spawns_filter engine_two).mission_currency.calls
        = [currency_call.add_currency 7, currency_call.add_approximated_additional_currency 7] := by
  have hfit : engine_two.spawns.length < UINT_MOD := by
    simp [engine_two, UINT_MOD]
  refine ⟨(erase_loop_refines_filter engine_two hfit).1 2 (by simp [engine_two]), rfl, ?_, rfl⟩
  simp [step_spawns_filter, survivors, pps_sum, engine_two, virtual_spawn.decrement_time,
    virtual_spawn.is_dead, virtual_spawn.get_pressure_per_second]

end refinement

section rounded_lifetime

variable {α : Type} [LinearOrderedField α] [FloorRing α]

/-- C17 (as amended): `add_virtual_spawn` uses `rounded_lifetime = ceil(time_to_kill)` as it is,
without a minimum. For `time_to_kill > 0` this is `max(1, ceil(time_to_kill))`, the divisor of
`effective_pressure / rounded_lifetime` is not zero and the instance is created with
`remaining_lifetime ≥ 1`; for `time_to_kill ≤ 0` the instance is created with
`remaining_lifetime ≤ 0`, and for `-1 < time_to_kill ≤ 0` the divisor is zero. -/
theorem rounded_lifetime_unclamped (s : pressure_manager α) (ws : virtual_wavespawn α) :
    (add_virtual_spawn s ws).spawns = s.spawns ++ [make_virtual_spawn s ws]
    ∧ (make_virtual_spawn s ws).time_left = Int.ceil ws.time_to_kill
    ∧ (make_virtual_spawn s ws).get_pressure_per_second
        = ws.effective_pressure / ((Int.ceil ws.time_to_kill : Int) : α)
          * (if ws.is_tank then s.pps_factor_tank else s.pps_factor_tfbot)
    ∧ (0 < ws.time_to_kill →
        (make_virtual_spawn s ws).time_left = max 1 (Int.ceil ws.time_to_kill)
        ∧ 1 ≤ (make_virtual_spawn s ws).time_left
        ∧ ((Int.ceil ws.time_to_kill : Int) : α) ≠ 0)
    ∧ (ws.time_to_kill ≤ 0 → (make_virtual_spawn s ws).time_left ≤ 0)
    ∧ (-1 < ws.time_to_kill → ws.time_to_kill ≤ 0 →
        ((Int.ceil ws.time_to_kill : Int) : α) = 0) := by
  refine ⟨rfl, rfl, rfl, ?_, ?_, ?_⟩
  · intro hT
    have h1 : 1 ≤ Int.ceil ws.time_to_kill := Int.one_le_ceil_iff.mpr hT
    refine ⟨?_, h1, ?_⟩
    · show Int.ceil ws.time_to_kill = max 1 (Int.ceil ws.time_to_kill)
      rw [max_eq_right h1]
    · have : (0 : Int) < Int.ceil ws.time_to_kill := by omega
      exact_mod_cast ne_of_gt this
  · intro hT
    show Int.ceil ws.time_to_kill ≤ 0
    exact Int.ceil_le.mpr (by simpa using hT)
  · intro h1 h0
    have : Int.ceil ws.time_to_kill = 0 := by
      rw [Int.ceil_eq_iff]
      constructor
      · simpa using h1
      · simpa using h0
    rw [this]
    simp

/-- The scenario `time_to_kill = 4.2` for C17: the lifetime is 5, which is
`max(1, ceil(4.2))`. -/
theorem rounded_lifetime_unclamped_witness :
    (make_virtual_spawn engine_42 descriptor_50).time_left
        = max 1 (Int.ceil descriptor_50.time_to_kill)
    ∧ 1 ≤ (make_virtual_spawn engine_42 descriptor_50).time_left
    ∧ ((Int.ceil descriptor_50.time_to_kill : Int) : ℚ) ≠ 0 :=
  (rounded_lifetime_unclamped engine_42 descriptor_50).2.2.2.1 (by norm_num [descriptor_50])

/-- Counterexample to C17 as stated: for a descriptor with `time_to_kill = 0` the rounded
lifetime is `ceil(0) = 0`, not `max(1, ceil(0)) = 1`: the divisor of
`effective_pressure / rounded_lifetime` is zero and the instance appended to the live-spawn list
has `remaining_lifetime = 0`. -/
theorem rounded_lifetime_zero :
    descriptor_zero.time_to_kill = 0
    ∧ (add_virtual_spawn engine_42 descriptor_zero).spawns
        = engine_42.spawns ++ [make_virtual_spawn engine_42 descriptor_zero]
    ∧ (make_virtual_spawn engine_42 descriptor_zero).time_left = 0
    ∧ (make_virtual_spawn engine_42 descriptor_zero).time_left
        ≠ max 1 (Int.ceil descriptor_zero.time_to_kill)
    ∧ ¬ (1 ≤ (make_virtual_spawn engine_42 descriptor_zero).time_left)
    ∧ ((Int.ceil descriptor_zero.time_to_kill : Int) : ℚ) = 0 := by
  have hc : Int.ceil descriptor_zero.time_to_kill = 0 := by
    simp [descriptor_zero]
  have hl : (make_virtual_spawn engine_42 descriptor_zero).time_left = 0 := hc
  refine ⟨rfl, rfl, hl, ?_, ?_, ?_⟩
  · rw [hl, hc]; decide
  · rw [hl]; decide
  · rw [hc]; simp

end rounded_lifetime

section instance_counts

variable {α : Type} [LinearOrderedField α] [FloorRing α]

theorem forall2_fires_unique (l : List (virtual_wavespawn α)) :
    ∀ ks ks1 : List Nat, List.Forall₂ fires l ks → List.Forall₂ fires l ks1 → ks = ks1 := by
  induction l with
  | nil =>
    intro ks ks1 h h1
    cases h
    cases h1
    rfl
  | cons w rest ih =>
    intro ks ks1 h h1
    cases h with
    | cons hk hrest =>
      cases h1 with
      | cons hk1 hrest1 =>
        rw [fires_unique w _ _ hk hk1, ih _ _ hrest hrest1]

theorem forall2_booked_credit (l : List (virtual_wavespawn α)) :
    ∀ (book : List (virtual_wavespawn α × Nat)) (ks : List Nat),
      List.Forall₂ booked l book → List.Forall₂ fires l ks →
      List.Forall₂ booked (rearmed_all l ks) (credit_book book ks) := by
  induction l with
  | nil =>
    intro book ks hb hk
    cases hb
    cases hk
    exact List.Forall₂.nil
  | cons w rest ih =>
    intro book ks hb hk
    cases hb with
    | cons hp hrest =>
      cases hk with
      | cons _ hkrest =>
        refine List.Forall₂.cons ?_ (ih _ _ hrest hkrest)
        simp only [booked, rearmed, counted_down] at hp ⊢
        push_cast
        omega

/-- The blocks of instances a tick creates, descriptor by descriptor. -/
theorem tick_blocks {fuel : Nat} {s s1 : pressure_manager α} {t t1 : Int} {ks : List Nat}
    (h : tick fuel s t = some (s1, t1)) (hks : List.Forall₂ fires s.wavespawns ks) :
    spawned_in_tick fuel s = fired_blocks s s.wavespawns ks
    ∧ s1.wavespawns = rearmed_all s.wavespawns ks := by
  have hw : ∃ s2, step_wavespawns fuel s = some s2 := by
    unfold tick at h
    cases hw : step_wavespawns fuel s with
    | none => simp [hw] at h
    | some s2 => exact ⟨s2, rfl⟩
  obtain ⟨s2, hw⟩ := hw
  obtain ⟨ks1, hks1, hs2⟩ := step_wavespawns_counts hw
  have hk : ks1 = ks := forall2_fires_unique _ _ _ hks1 hks
  subst hk
  refine ⟨?_, ?_⟩
  · apply spawned_in_tick_eq hw
    rw [hs2]
    rfl
  · rw [step_wavespawns_some_fuel_frame hw h, hs2]

theorem fired_blocks_length_one (s : pressure_manager α) (ws : virtual_wavespawn α) (k : Nat) :
    (fired_blocks s [ws] [k]).length = k := by
  simp [fired_blocks]

/-- C18: (1) `add_virtual_wavespawn` stores the descriptor as it is given, `spawns_remaining` and
countdown included, and creates one instance; (2) a tick in which the descriptors fire `ks` times
each creates, for every descriptor in turn, that many instances and lowers its
`spawns_remaining` by that number; hence (3) in every state reached from a fresh engine the
number of instances created from a descriptor registered with `spawns_remaining = n` is
`1 + (n - spawns_remaining)`, and (4) it is `n + 1` once `spawns_remaining = 0`. -/
theorem registration_keeps_schedule :
    (∀ (s : pressure_manager α) (ws : virtual_wavespawn α),
        (add_virtual_wavespawn s ws).wavespawns = s.wavespawns ++ [ws]
        ∧ (add_virtual_wavespawn s ws).spawns = s.spawns ++ [make_virtual_spawn s ws])
    ∧ (∀ (fuel : Nat) (s s1 : pressure_manager α) (t t1 : Int) (ks : List Nat),
        tick fuel s t = some (s1, t1) → List.Forall₂ fires s.wavespawns ks →
        spawned_in_tick fuel s = fired_blocks s s.wavespawns ks
        ∧ s1.wavespawns = rearmed_all s.wavespawns ks)
    ∧ (∀ (e : externals α) (s : pressure_manager α) (book : List (virtual_wavespawn α × Nat)),
        instance_book e s book → List.Forall₂ booked s.wavespawns book)
    ∧ (∀ (ws : virtual_wavespawn α) (p : virtual_wavespawn α × Nat), booked ws p →
        ws.spawns_remaining = 0 → (p.2 : Int) = p.1.spawns_remaining + 1) := by
  refine ⟨fun _ _ => ⟨rfl, rfl⟩, ?_, ?_, ?_⟩
  · intro fuel s s1 t t1 ks h hks
    exact tick_blocks h hks
  · intro e s book h
    induction h with
    | fresh cm decay0 => exact List.Forall₂.nil
    | @register s0 b0 ws _ ih =>
      have hw : (add_virtual_wavespawn s0 ws).wavespawns = s0.wavespawns ++ [ws] := rfl
      rw [hw]
      refine List.rel_append ih (List.Forall₂.cons ?_ List.Forall₂.nil)
      simp [booked]
    | recalculate _ ih => exact ih
    | players n _ ih => exact ih
    | multiply x _ ih => exact ih
    | in_time x _ ih => exact ih
    | path_length x _ ih => exact ih
    | reset _ ih => exact ih
    | @tick s0 s1 b0 fuel t t1 ks _ ht hks ih =>
      rw [(tick_blocks ht hks).2]
      exact forall2_booked_credit _ _ _ ih hks
  · intro ws p hb h0
    simp only [booked] at hb
    omega

end instance_counts

section instance_counts_scenario

/-- Two ticks for C18: a descriptor registered with five instances left, due now, interval 1/2.
It fires three times in the first tick and twice in the second; with `spawns_remaining = 0` the
book shows `5 + 1 = 6` instances. -/
theorem registration_keeps_schedule_witness :
    ∃ (r : pressure_manager ℚ) (n : Nat),
      instance_book ({ get_currency_pressure := fun _ => 0, pow := fun x _ => x } : externals ℚ)
        r [(descriptor_burst, n)]
      ∧ List.Forall₂ booked r.wavespawns [(descriptor_burst, n)]
      ∧ r.wavespawns.map (fun ws => ws.spawns_remaining) = [0]
      ∧ n = 6 := by
  have hok : ∀ ws ∈ (add_virtual_wavespawn engine_42 descriptor_burst).wavespawns,
      wavespawn_ok ws := by
    intro ws hws
    have : (add_virtual_wavespawn engine_42 descriptor_burst).wavespawns
        = [descriptor_burst] := rfl
    rw [this] at hws
    simp at hws
    rw [hws]
    refine ⟨?_, ?_, ?_⟩ <;> norm_num [descriptor_burst]
  have hsp : ∀ sp ∈ (add_virtual_wavespawn engine_42 descriptor_burst).spawns,
      1 ≤ sp.time_left := by
    intro sp hmem
    have : (add_virtual_wavespawn engine_42 descriptor_burst).spawns
        = [make_virtual_spawn engine_42 descriptor_burst] := rfl
    rw [this] at hmem
    simp at hmem
    rw [hmem]
    exact Int.one_le_ceil_iff.mpr (by norm_num [descriptor_burst])
  have hcap : capacity (add_virtual_wavespawn engine_42 descriptor_burst) ≤ 6 := by
    have : capacity (add_virtual_wavespawn engine_42 descriptor_burst) = 6 := rfl
    omega
  have hd : (0 : ℚ) ≤ (add_virtual_wavespawn engine_42 descriptor_burst).pressure_decay_rate
      * (add_virtual_wavespawn engine_42 descriptor_burst).pressure_decay_rate_multiplier_in_time := by
    norm_num [add_virtual_wavespawn, add_virtual_spawn, engine_42,
      pressure_manager.pressure_manager]
  obtain ⟨s1, ht1, hok1, hsp1, hcap1, hd1, hm1, -⟩ := tick_progress 6 6
    (add_virtual_wavespawn engine_42 descriptor_burst) 0 hok hsp hcap (by decide) (le_refl _) hd
  have hk1 : List.Forall₂ fires (add_virtual_wavespawn engine_42 descriptor_burst).wavespawns
      [3] := List.Forall₂.cons fires_descriptor_burst List.Forall₂.nil
  have hw1 : s1.wavespawns = [rearmed (counted_down descriptor_burst) 3] :=
    (tick_blocks ht1 hk1).2
  obtain ⟨s2, ht2, -, -, -, -, -, -⟩ := tick_progress 6 6 s1 (0 + 1) hok1 hsp1 hcap1
    (by decide) (le_refl _) (by rw [hd1, hm1]; exact hd)
  have hf2 : fires (rearmed (counted_down descriptor_burst) 3) 2 := by
    refine ⟨?_, ?_⟩
    · intro j hj
      rw [may_fire_rearmed_iff]
      have : j = 0 ∨ j = 1 := by omega
      rcases this with rfl | rfl <;> norm_num [rearmed, counted_down, descriptor_burst]
    · rw [may_fire_rearmed_iff]
      norm_num [rearmed, counted_down, descriptor_burst]
  have hk2 : List.Forall₂ fires s1.wavespawns [2] := by
    rw [hw1]
    exact List.Forall₂.cons hf2 List.Forall₂.nil
  have hw2 : s2.wavespawns
      = [rearmed (counted_down (rearmed (counted_down descriptor_burst) 3)) 2] := by
    rw [(tick_blocks ht2 hk2).2, hw1]
    rfl
  have hfresh : instance_book
      ({ get_currency_pressure := fun _ => 0, pow := fun x _ => x } : externals ℚ)
      engine_42 [] := instance_book.fresh { calls := [] } 42
  have hbook := instance_book.tick 6 (0 + 1) (0 + 1 + 1) [2]
    (instance_book.tick 6 0 (0 + 1) [3] (instance_book.register descriptor_burst hfresh)
      ht1 hk1) ht2 hk2
  refine ⟨s2, 6, hbook, (@registration_keeps_schedule ℚ _ _).2.2.1 _ _ _ hbook, ?_, rfl⟩
  rw [hw2]
  rfl

end instance_counts_scenario

section total_pressure

variable {α : Type} [LinearOrderedField α] [FloorRing α]

/-- The inner `while` on a descriptor that is due and has one instance left: it fires once. -/
theorem fire_spawns_once (fuel : Nat) (s : pressure_manager α) (ws : virtual_wavespawn α)
    (hrem : ws.spawns_remaining = 1) (hdue : ws.time_until_next_spawn ≤ 0) :
    fire_spawns (fuel + 1) s ws
      = some (add_virtual_spawn s (rearmed ws 1), rearmed ws 1) := by
  have hre : ({ ws with
      spawns_remaining := ws.spawns_remaining - 1
      time_until_next_spawn := ws.time_until_next_spawn + ws.wait_between_spawns }
      : virtual_wavespawn α) = rearmed ws 1 := by
    simp [rearmed]
  unfold fire_spawns
  rw [if_pos ⟨by rw [hrem]; decide, hdue⟩]
  simp only
  rw [hre]
  unfold fire_spawns
  rw [if_neg]
  intro hcon
  apply hcon.1
  simp [rearmed, hrem]

/-- The descriptor phase on an engine whose only descriptor is due and has one instance left. -/
theorem step_wavespawns_once (fuel : Nat) (s : pressure_manager α) (ws : virtual_wavespawn α)
    (hws : s.wavespawns = [ws]) (hrem : ws.spawns_remaining = 1)
    (hdue : ws.time_until_next_spawn ≤ 1) :
    step_wavespawns (fuel + 1) s
      = some { add_virtual_spawn s (rearmed (counted_down ws) 1) with
          wavespawns := [rearmed (counted_down ws) 1] } := by
  have hf := fire_spawns_once fuel s (counted_down ws) hrem
    (by simp only [counted_down]; linarith)
  unfold counted_down at hf
  unfold step_wavespawns
  rw [hws]
  simp only [step_wavespawns_from, hf]
  rfl

end total_pressure

section early_return

/-- C20: `step_through_time` can return with instances still alive and nothing credited. On the
engine with the constructor defaults and decay rate 42 (multiplier in time 3), after registering
the valid descriptor `effective_pressure = 50`, `time_to_kill = 4.2`, `spawns_remaining = 0`, not
a tank, the pressure is 10 and the call runs exactly one tick: it returns with pressure
`10 + 10 - 105 = -85`, one live instance with 4 ticks left, and no credit call made, whatever fuel
(at least 1) the call is given. -/
theorem step_returns_with_live_instance :
    wavespawn_ok descriptor_50
    ∧ engine_42.pressure_decay_rate = 42
    ∧ engine_42.pressure_decay_rate_multiplier_in_time = 3
    ∧ (add_virtual_wavespawn engine_42 descriptor_50).pressure = 10
    ∧ ∃ r : pressure_manager ℚ,
        (∀ fuel : Nat,
          step_through_time (fuel + 1) (add_virtual_wavespawn engine_42 descriptor_50) 0
            = some (r, 1))
        ∧ r.pressure = -85 ∧ r.pressure < 0
        ∧ r.spawns = [{ time_left := 4, pressure_per_second := 10, effective_pressure := 50,
                        currency := 7 }]
        ∧ r.spawns ≠ []
        ∧ r.mission_currency.calls = []
        ∧ credited r = 0 := by
  have hp : (add_virtual_wavespawn engine_42 descriptor_50).pressure = 10 := by
    have : (add_virtual_wavespawn engine_42 descriptor_50).pressure
        = engine_42.pressure
          + (make_virtual_spawn engine_42 descriptor_50).get_pressure_per_second := rfl
    rw [this, make_virtual_spawn_50]
    norm_num [engine_42, pressure_manager.pressure_manager,
      virtual_spawn.get_pressure_per_second]
  refine ⟨?_, rfl, rfl, hp, ?_⟩
  · refine ⟨?_, ?_, ?_⟩ <;> norm_num [descriptor_50]
  · obtain ⟨r, ht, hpr, hsp, hcalls⟩ := tick_registered_50
    have hone : step_through_time 1 (add_virtual_wavespawn engine_42 descriptor_50) 0
        = some (r, 1) := by
      have hpos : (0 : ℚ) < (add_virtual_wavespawn engine_42 descriptor_50).pressure := by
        rw [hp]; norm_num
      have hneg : ¬ (0 : ℚ) < r.pressure := by
        rw [hpr]; norm_num
      unfold step_through_time
      unfold step_through_time_loop
      rw [if_pos hpos]
      simp only [ht]
      unfold step_through_time_loop
      rw [if_neg hneg]
    refine ⟨r, fun fuel => step_through_time_fuel_le (Nat.le_add_left 1 fuel) _ _ _ hone,
      hpr, ?_, hsp, ?_,
      hcalls, ?_⟩
    · rw [hpr]; norm_num
    · rw [hsp]; simp
    · simp [credited, hcalls, credited_calls]

end early_return

section tick_totality

variable {α : Type} [LinearOrderedField α] [FloorRing α]

/-- The instances fired in a descriptor phase are taken off the pending ones. -/
theorem pending_rearmed_all (s : pressure_manager α) {l : List (virtual_wavespawn α)}
    {ks : List Nat} (h : List.Forall₂ fires l ks) (h0 : ∀ ws ∈ l, 0 ≤ ws.spawns_remaining) :
    (fired_blocks s l ks).length + pending (rearmed_all l ks) = pending l
    ∧ ∀ ws ∈ rearmed_all l ks, 0 ≤ ws.spawns_remaining := by
  induction h with
  | nil => exact ⟨rfl, fun ws hws => by simp [rearmed_all] at hws⟩
  | @cons w k rest ks hk _ ih =>
    have hw := h0 w (List.mem_cons_self _ _)
    obtain ⟨ih1, ih2⟩ := ih (fun x hx => h0 x (List.mem_cons_of_mem _ hx))
    have hkle := fired_le_remaining (counted_down w) k hw hk.1
    simp only [counted_down] at hkle
    refine ⟨?_, ?_⟩
    · simp only [fired_blocks, rearmed_all, pending, List.length_append, List.length_replicate,
        rearmed, counted_down]
      omega
    · intro ws hws
      simp only [rearmed_all, List.mem_cons] at hws
      rcases hws with rfl | hws
      · simp only [rearmed, counted_down]
        omega
      · exact ih2 ws hws

/-- The descriptor phase returns once the fuel covers the pending instances, and fires every
descriptor as often as its loop condition holds. -/
theorem step_wavespawns_total (fuel : Nat) (s : pressure_manager α)
    (h0 : ∀ ws ∈ s.wavespawns, 0 ≤ ws.spawns_remaining) (hfuel : pending s.wavespawns ≤ fuel) :
    ∃ ks : List Nat, List.Forall₂ fires s.wavespawns ks
      ∧ step_wavespawns fuel s
          = some { spawned s (fired_blocks s s.wavespawns ks) with
                    wavespawns := rearmed_all s.wavespawns ks } := by
  obtain ⟨r, hr⟩ := step_wavespawns_from_total fuel s.wavespawns s h0 hfuel
  obtain ⟨s2, l1⟩ := r
  have hw : step_wavespawns fuel s = some { s2 with wavespawns := l1 } := by
    simp only [step_wavespawns, hr]
  obtain ⟨ks, hks, hs2⟩ := step_wavespawns_counts hw
  exact ⟨ks, hks, by rw [hw, hs2]⟩

theorem tick_result_spawns (s : pressure_manager α) (ks : List Nat) :
    (tick_result s ks).spawns = survivors (s.spawns ++ fired_blocks s s.wavespawns ks) := rfl

theorem tick_result_wavespawns (s : pressure_manager α) (ks : List Nat) :
    (tick_result s ks).wavespawns = rearmed_all s.wavespawns ks := rfl

/-- A tick that is ready returns, with the state `tick_result` for the firing counts of its
descriptors, and leaves the engine ready for the next tick. -/
theorem tick_total (fuel : Nat) (s : pressure_manager α) (t : Int) (h : tick_ready fuel s) :
    ∃ ks : List Nat, List.Forall₂ fires s.wavespawns ks
      ∧ tick fuel s t = some (tick_result s ks, t + 1)
      ∧ (s.spawns ++ fired_blocks s s.wavespawns ks).length < UINT_MOD
      ∧ tick_ready fuel (tick_result s ks) := by
  obtain ⟨h0, hcap, hfuel⟩ := h
  simp only [capacity] at hcap hfuel
  obtain ⟨ks, hks, hw⟩ := step_wavespawns_total fuel s h0 (by omega)
  obtain ⟨hcount, hnonneg⟩ := pending_rearmed_all s hks h0
  have hlen : ({ spawned s (fired_blocks s s.wavespawns ks) with
      wavespawns := rearmed_all s.wavespawns ks } : pressure_manager α).spawns.length
      = s.spawns.length + (fired_blocks s s.wavespawns ks).length := by
    simp [spawned]
  have hstep : step_spawns fuel { spawned s (fired_blocks s s.wavespawns ks) with
      wavespawns := rearmed_all s.wavespawns ks }
      = some (step_spawns_filter { spawned s (fired_blocks s s.wavespawns ks) with
          wavespawns := rearmed_all s.wavespawns ks }) := by
    rw [step_spawns_eq _ _ (by rw [hlen]; omega), if_pos (by rw [hlen]; omega)]
  have hsurv := survivors_length_le (s.spawns ++ fired_blocks s s.wavespawns ks)
  rw [List.length_append] at hsurv
  refine ⟨ks, hks, ?_, ?_, ?_, ?_, ?_⟩
  · simp only [tick, hw, hstep, tick_result]
  · rw [List.length_append]; omega
  · rw [tick_result_wavespawns]
    exact hnonneg
  · simp only [capacity, tick_result_spawns, tick_result_wavespawns]
    omega
  · simp only [capacity, tick_result_spawns, tick_result_wavespawns]
    omega

/-- The pressure a tick leaves, term by term. -/
theorem tick_result_pressure (s : pressure_manager α) (ks : List Nat)
    (hfit : (s.spawns ++ fired_blocks s s.wavespawns ks).length < UINT_MOD) :
    (tick_result s ks).pressure
      = s.pressure + pps_sum (fired_blocks s s.wavespawns ks)
        + pps_sum (survivors (s.spawns ++ fired_blocks s s.wavespawns ks))
        - s.pressure_decay_rate * s.pressure_decay_rate_multiplier_in_time
          / (((survivors (s.spawns ++ fired_blocks s s.wavespawns ks)).length : α) * (2 / 10)
              + 1) := by
  have hmod : (survivors (s.spawns ++ fired_blocks s s.wavespawns ks)).length % UINT_MOD
      = (survivors (s.spawns ++ fired_blocks s s.wavespawns ks)).length :=
    Nat.mod_eq_of_lt (lt_of_le_of_lt (survivors_length_le _) hfit)
  simp only [tick_result, apply_decay, step_spawns_filter, spawned, hmod]

theorem fires_iff_least_firing (ws : virtual_wavespawn α) (k : Nat) :
    fires ws k ↔ least_firing ws k := by
  simp only [fires, least_firing, may_fire_rearmed_iff]
  constructor
  · rintro ⟨hbefore, hafter⟩
    refine ⟨?_, ?_⟩
    · by_contra hcon
      rw [not_or, not_lt] at hcon
      exact hafter hcon
    · intro j hj hcon
      have := hbefore j hj
      rcases hcon with h0 | hpos
      · exact this.1 h0
      · exact absurd this.2 (not_le.mpr hpos)
  · rintro ⟨hk, hleast⟩
    refine ⟨?_, ?_⟩
    · intro j hj
      have := hleast j hj
      rw [not_or, not_lt] at this
      exact this
    · intro hcon
      rcases hk with h0 | hpos
      · exact hcon.1 h0
      · exact absurd hcon.2 (not_le.mpr hpos)

end tick_totality

section tick_formula

variable {α : Type} [LinearOrderedField α] [FloorRing α]

/-- A tick that returns, with its live-spawn list within `unsigned int` index range, has left
the state `tick_result` for the firing counts of its descriptors. -/
theorem tick_some_eq_result {fuel : Nat} {s s1 : pressure_manager α} {t t1 : Int}
    {ks : List Nat} (h : tick fuel s t = some (s1, t1))
    (hks : List.Forall₂ fires s.wavespawns ks)
    (hfit : (s.spawns ++ fired_blocks s s.wavespawns ks).length < UINT_MOD) :
    s1 = tick_result s ks ∧ t1 = t + 1 := by
  obtain ⟨ht, s2, hw, -, hrest⟩ := tick_eq h
  obtain ⟨ks1, hks1, hs2⟩ := step_wavespawns_counts hw
  have hk : ks1 = ks := forall2_fires_unique _ _ _ hks1 hks
  subst hk
  have hlen : s2.spawns = s.spawns ++ fired_blocks s s.wavespawns ks1 := by
    rw [hs2]; rfl
  refine ⟨?_, ht⟩
  rw [hrest (by rw [hlen]; exact hfit), hs2]
  rfl

theorem make_virtual_spawn_burst :
    make_virtual_spawn engine_busy descriptor_burst
      = { time_left := 5, pressure_per_second := 10, effective_pressure := 50, currency := 7 } := by
  have h : Int.ceil (descriptor_burst.time_to_kill) = 5 := ceil_42_10
  simp only [make_virtual_spawn, h]
  norm_num [descriptor_burst, engine_busy, engine_two, engine_42,
    pressure_manager.pressure_manager]

/-- C5: (1) a tick returns whenever no descriptor has a negative `spawns_remaining` and the live
and pending instances fit the `unsigned int` index and the fuel. With `ks` the numbers of times
the loop condition of line 75 lets each descriptor fire and `new` the instances so spawned, the
live-spawn list afterwards is the survivors of `s.spawns ++ new` and
`pressure_after = pressure_before + (front-load of new) + (sum of the survivors' rates)
 - decay_rate * multiplier_in_time / (active_spawn_count * 0.2 + 1)`, the count being the length
of the list after the removals. (2) The same holds for every tick that returns with its
live-spawn list within index range. -/
theorem tick_pressure :
    (∀ (fuel : Nat) (s : pressure_manager α) (t : Int), tick_ready fuel s →
      ∃ (s1 : pressure_manager α) (ks : List Nat),
        tick fuel s t = some (s1, t + 1)
        ∧ List.Forall₂ fires s.wavespawns ks
        ∧ s1.spawns
            = ((s.spawns ++ fired_blocks s s.wavespawns ks).map
                virtual_spawn.decrement_time).filter (fun sp => !sp.is_dead)
        ∧ s1.pressure
            = s.pressure + pps_sum (fired_blocks s s.wavespawns ks) + pps_sum s1.spawns
              - s.pressure_decay_rate * s.pressure_decay_rate_multiplier_in_time
                / ((s1.spawns.length : α) * (2 / 10) + 1))
    ∧ (∀ (fuel : Nat) (s s1 : pressure_manager α) (t t1 : Int) (ks : List Nat),
        tick fuel s t = some (s1, t1) → List.Forall₂ fires s.wavespawns ks →
        (s.spawns ++ fired_blocks s s.wavespawns ks).length < UINT_MOD →
        t1 = t + 1
        ∧ s1.spawns
            = ((s.spawns ++ fired_blocks s s.wavespawns ks).map
                virtual_spawn.decrement_time).filter (fun sp => !sp.is_dead)
        ∧ s1.pressure
            = s.pressure + pps_sum (fired_blocks s s.wavespawns ks) + pps_sum s1.spawns
              - s.pressure_decay_rate * s.pressure_decay_rate_multiplier_in_time
                / ((s1.spawns.length : α) * (2 / 10) + 1)) := by
  refine ⟨?_, ?_⟩
  · intro fuel s t h
    obtain ⟨ks, hks, ht, hfit, -⟩ := tick_total fuel s t h
    refine ⟨tick_result s ks, ks, ht, hks, rfl, ?_⟩
    rw [tick_result_pressure s ks hfit]
    rfl
  · intro fuel s s1 t t1 ks h hks hfit
    obtain ⟨hs1, ht1⟩ := tick_some_eq_result h hks hfit
    refine ⟨ht1, by rw [hs1]; rfl, ?_⟩
    rw [hs1, tick_result_pressure s ks hfit]
    rfl

/-- A tick for C5 in the middle of a wave: two live instances (lifetimes 1 and 3, rates 10 and 5)
and a descriptor that fires three instances of rate 10. The front-load is 30, the first instance
dies, the four survivors add `5 + 10 + 10 + 10 = 35`, the decay is `42 * 3 / (4 * 0.2 + 1) = 70`,
and the pressure goes from 0 to `0 + 30 + 35 - 70 = -5`. And the tick of the spec's example:
decay rate 42, multiplier in time 3, no descriptors and no live instances, where both sums are
empty and the pressure is lowered by `42 * 3 / (0 * 0.2 + 1) = 126`. -/
theorem tick_pressure_witness :
    (∃ s1 : pressure_manager ℚ,
      tick 7 engine_busy 0 = some (s1, 0 + 1)
      ∧ s1.spawns
          = [{ time_left := 2, pressure_per_second := 5, effective_pressure := 50, currency := 2 },
             { time_left := 4, pressure_per_second := 10, effective_pressure := 50,
               currency := 7 },
             { time_left := 4, pressure_per_second := 10, effective_pressure := 50,
               currency := 7 },
             { time_left := 4, pressure_per_second := 10, effective_pressure := 50,
               currency := 7 }]
      ∧ engine_busy.pressure = 0
      ∧ s1.pressure = 0 + 30 + 35 - 70)
    ∧ (∃ s1 : pressure_manager ℚ,
        tick 0 engine_42 0 = some (s1, 0 + 1)
        ∧ s1.spawns = []
        ∧ engine_42.pressure_decay_rate = 42
        ∧ engine_42.pressure_decay_rate_multiplier_in_time = 3
        ∧ s1.pressure = engine_42.pressure - 126) := by
  have hidle : tick_ready 0 engine_42 := by
    refine ⟨?_, ?_, ?_⟩
    · intro ws hws
      have : engine_42.wavespawns = [] := rfl
      rw [this] at hws
      simp at hws
    · have : capacity engine_42 = 0 := rfl
      rw [this]
      decide
    · have : capacity engine_42 = 0 := rfl
      rw [this]
  obtain ⟨i1, iks, iht, ihks, ihsp, ihpr⟩ := (@tick_pressure ℚ _ _).1 0 engine_42 0 hidle
  have ik : iks = [] := forall2_fires_unique _ _ _ ihks List.Forall₂.nil
  subst ik
  have hi1 : i1.spawns = [] := by
    rw [ihsp]; rfl
  have hidle_pressure : i1.pressure = engine_42.pressure - 126 := by
    rw [ihpr, hi1]
    have : fired_blocks engine_42 engine_42.wavespawns [] = [] := rfl
    rw [this]
    norm_num [pps_sum, engine_42, pressure_manager.pressure_manager]
  refine ⟨?_, i1, iht, hi1, rfl, rfl, hidle_pressure⟩
  have hready : tick_ready 7 engine_busy := by
    refine ⟨?_, ?_, ?_⟩
    · intro ws hws
      have : engine_busy.wavespawns = [descriptor_burst] := rfl
      rw [this] at hws
      simp at hws
      rw [hws]
      decide
    · have : capacity engine_busy = 7 := rfl
      rw [this]
      decide
    · have : capacity engine_busy = 7 := rfl
      rw [this]
  obtain ⟨s1, ks, ht, hks, hsp, hpr⟩ := (@tick_pressure ℚ _ _).1 7 engine_busy 0 hready
  have hk : ks = [3] :=
    forall2_fires_unique _ _ _ hks (List.Forall₂.cons fires_descriptor_burst List.Forall₂.nil)
  subst hk
  have hnew : fired_blocks engine_busy engine_busy.wavespawns [3]
      = [{ time_left := 5, pressure_per_second := 10, effective_pressure := 50, currency := 7 },
         { time_left := 5, pressure_per_second := 10, effective_pressure := 50, currency := 7 },
         { time_left := 5, pressure_per_second := 10, effective_pressure := 50,
           currency := 7 }] := by
    have : engine_busy.wavespawns = [descriptor_burst] := rfl
    rw [this]
    simp only [fired_blocks, make_virtual_spawn_burst]
    rfl
  have hs1 : s1.spawns
      = [{ time_left := 2, pressure_per_second := 5, effective_pressure := 50, currency := 2 },
         { time_left := 4, pressure_per_second := 10, effective_pressure := 50, currency := 7 },
         { time_left := 4, pressure_per_second := 10, effective_pressure := 50, currency := 7 },
         { time_left := 4, pressure_per_second := 10, effective_pressure := 50,
           currency := 7 }] := by
    rw [hsp, hnew]
    simp [engine_busy, engine_two, virtual_spawn.decrement_time, virtual_spawn.is_dead]
  refine ⟨s1, ht, hs1, rfl, ?_⟩
  rw [hpr, hs1, hnew]
  norm_num [pps_sum, virtual_spawn.get_pressure_per_second, engine_busy, engine_two, engine_42,
    pressure_manager.pressure_manager]

end tick_formula

section descriptor_phase_claim

variable {α : Type} [LinearOrderedField α] [FloorRing α]

theorem forall2_least_firing {l : List (virtual_wavespawn α)} {ks : List Nat}
    (h : List.Forall₂ fires l ks) : List.Forall₂ least_firing l ks :=
  h.imp (fun ws k hk => (fires_iff_least_firing ws k).mp hk)

theorem forall2_descriptor_after_tick {l : List (virtual_wavespawn α)} {ks : List Nat}
    (h : List.Forall₂ fires l ks) :
    List.Forall₂ descriptor_after_tick l (rearmed_all l ks) := by
  induction h with
  | nil => exact List.Forall₂.nil
  | @cons w k rest ks hk _ ih =>
    exact List.Forall₂.cons ⟨k, (fires_iff_least_firing w k).mp hk, rfl, rfl⟩ ih

theorem not_may_fire_iff (ws : virtual_wavespawn α) :
    ¬ may_fire ws ↔ ws.spawns_remaining = 0 ∨ 0 < ws.time_until_next_spawn := by
  simp only [may_fire, not_and_or, not_not, not_le]

/-- C13: (1) for a descriptor with `spawns_remaining = r ≥ 0`, countdown `c` and interval `w`,
the inner `while`, entered with the countdown at `c - 1`, returns having fired exactly `k`
instances, `k` being the least number with `r - k = 0` or `(c - 1) + k * w > 0`, and leaves
`spawns_remaining = r - k` and the countdown `(c - 1) + k * w`. (2) The descriptor phase of a tick
returns once the fuel covers the pending instances; it counts every descriptor down by one and
does this to each in list order, appending for each its `k` instances. (3) A tick that is ready
returns and leaves every descriptor so changed, hence with `spawns_remaining = 0` or
`time_until_next_spawn > 0`; (4) the latter holds after every tick that returns. (5) `k` can
exceed 1: a descriptor due now with interval 1/2 and five instances left fires three times. -/
theorem descriptor_phase_firing :
    (∀ ws : virtual_wavespawn α, 0 ≤ ws.spawns_remaining →
      ∃ k : Nat,
        (∀ (fuel : Nat) (s : pressure_manager α), ws.spawns_remaining.toNat ≤ fuel →
          fire_spawns fuel s (counted_down ws)
            = some (spawned s (List.replicate k (make_virtual_spawn s ws)),
                rearmed (counted_down ws) k))
        ∧ least_firing ws k
        ∧ (rearmed (counted_down ws) k).spawns_remaining = ws.spawns_remaining - (k : Int)
        ∧ (rearmed (counted_down ws) k).time_until_next_spawn
            = ws.time_until_next_spawn - 1 + (k : α) * ws.wait_between_spawns
        ∧ (k : Int) ≤ ws.spawns_remaining)
    ∧ (∀ (fuel : Nat) (s : pressure_manager α),
        (∀ ws ∈ s.wavespawns, 0 ≤ ws.spawns_remaining) → pending s.wavespawns ≤ fuel →
        ∃ (s2 : pressure_manager α) (ks : List Nat),
          step_wavespawns fuel s = some s2
          ∧ List.Forall₂ least_firing s.wavespawns ks
          ∧ List.Forall₂ descriptor_after_tick s.wavespawns s2.wavespawns
          ∧ s2.spawns = s.spawns ++ fired_blocks s s.wavespawns ks
          ∧ s2.pressure = s.pressure + pps_sum (fired_blocks s s.wavespawns ks))
    ∧ (∀ (fuel : Nat) (s : pressure_manager α) (t : Int), tick_ready fuel s →
        ∃ (s1 : pressure_manager α) (ks : List Nat),
          tick fuel s t = some (s1, t + 1)
          ∧ List.Forall₂ least_firing s.wavespawns ks
          ∧ List.Forall₂ descriptor_after_tick s.wavespawns s1.wavespawns
          ∧ s1.spawns = survivors (s.spawns ++ fired_blocks s s.wavespawns ks)
          ∧ ∀ ws ∈ s1.wavespawns, ws.spawns_remaining = 0 ∨ 0 < ws.time_until_next_spawn)
    ∧ (∀ (fuel : Nat) (s s1 : pressure_manager α) (t t1 : Int),
        tick fuel s t = some (s1, t1) →
        List.Forall₂ descriptor_after_tick s.wavespawns s1.wavespawns
        ∧ ∀ ws ∈ s1.wavespawns, ws.spawns_remaining = 0 ∨ 0 < ws.time_until_next_spawn)
    ∧ least_firing descriptor_burst 3 := by
  refine ⟨?_, ?_, ?_, ?_, (fires_iff_least_firing _ _).mp fires_descriptor_burst⟩
  · intro ws hrem
    obtain ⟨r0, hr0⟩ := fire_spawns_total ws.spawns_remaining.toNat
      (pressure_manager.pressure_manager { calls := [] } 0) (counted_down ws) hrem (le_refl _)
    obtain ⟨k, -, -, hbefore, hafter⟩ := fire_spawns_eq _ _ _ r0 hr0
    refine ⟨k, ?_, (fires_iff_least_firing ws k).mp ⟨hbefore, hafter⟩, rfl, rfl, ?_⟩
    · intro fuel s hfuel
      obtain ⟨r, hr⟩ := fire_spawns_total fuel s (counted_down ws) hrem hfuel
      obtain ⟨k1, -, hrk, hbefore1, hafter1⟩ := fire_spawns_eq _ _ _ r hr
      have hk : k1 = k := fires_unique ws k1 k ⟨hbefore1, hafter1⟩ ⟨hbefore, hafter⟩
      rw [hr, hrk, hk]
      rfl
    · exact fired_le_remaining (counted_down ws) k hrem hbefore
  · intro fuel s h0 hfuel
    obtain ⟨ks, hks, hw⟩ := step_wavespawns_total fuel s h0 hfuel
    exact ⟨_, ks, hw, forall2_least_firing hks, forall2_descriptor_after_tick hks, rfl, rfl⟩
  · intro fuel s t h
    obtain ⟨ks, hks, ht, -, -⟩ := tick_total fuel s t h
    refine ⟨tick_result s ks, ks, ht, forall2_least_firing hks,
      forall2_descriptor_after_tick hks, rfl, ?_⟩
    intro ws hws
    rw [tick_result_wavespawns] at hws
    exact (not_may_fire_iff ws).mp (rearmed_all_not_may_fire _ ks hks ws hws)
  · intro fuel s s1 t t1 h
    have hw : ∃ s2, step_wavespawns fuel s = some s2 := by
      unfold tick at h
      cases hw : step_wavespawns fuel s with
      | none => simp [hw] at h
      | some s2 => exact ⟨s2, rfl⟩
    obtain ⟨s2, hw⟩ := hw
    obtain ⟨ks, hks, hs2⟩ := step_wavespawns_counts hw
    have hws1 : s1.wavespawns = rearmed_all s.wavespawns ks := by
      rw [step_wavespawns_some_fuel_frame hw h, hs2]
    rw [hws1]
    refine ⟨forall2_descriptor_after_tick hks, ?_⟩
    intro ws hws
    exact (not_may_fire_iff ws).mp (rearmed_all_not_may_fire _ ks hks ws hws)

/-- A tick for C13 in the middle of a wave: the descriptor due now with interval 1/2 and five
instances left is counted down to -1, fires three times, and is left with two instances and
countdown 1/2; its three instances stand at the end of the live-spawn list. -/
theorem descriptor_phase_firing_witness :
    ∃ s1 : pressure_manager ℚ,
      tick 7 engine_busy 0 = some (s1, 0 + 1)
      ∧ List.Forall₂ descriptor_after_tick engine_busy.wavespawns s1.wavespawns
      ∧ s1.wavespawns.map (fun ws => (ws.spawns_remaining, ws.time_until_next_spawn))
          = [(2, 1 / 2)]
      ∧ s1.spawns.length = 4 := by
  have hready : tick_ready 7 engine_busy := by
    refine ⟨?_, ?_, ?_⟩
    · intro ws hws
      have : engine_busy.wavespawns = [descriptor_burst] := rfl
      rw [this] at hws
      simp at hws
      rw [hws]
      decide
    · have : capacity engine_busy = 7 := rfl
      rw [this]
      decide
    · have : capacity engine_busy = 7 := rfl
      rw [this]
  obtain ⟨s1, ks, ht, hks, hafter, hsp, -⟩ :=
    (@descriptor_phase_firing ℚ _ _).2.2.1 7 engine_busy 0 hready
  have hk : ks = [3] := by
    have hf : List.Forall₂ fires engine_busy.wavespawns ks :=
      hks.imp (fun ws k hk => (fires_iff_least_firing ws k).mpr hk)
    exact forall2_fires_unique _ _ _ hf
      (List.Forall₂.cons fires_descriptor_burst List.Forall₂.nil)
  subst hk
  have hw : engine_busy.wavespawns = [descriptor_burst] := rfl
  refine ⟨s1, ht, hafter, ?_, ?_⟩
  · have hafter1 := hafter
    rw [hw, List.forall₂_cons_left_iff] at hafter1
    obtain ⟨w1, l1, h1, hrest, heq⟩ := hafter1
    rw [List.forall₂_nil_left_iff] at hrest
    subst hrest
    obtain ⟨k, hk, hr, hc⟩ := h1
    have hk3 : k = 3 :=
      fires_unique descriptor_burst k 3 ((fires_iff_least_firing _ _).mpr hk)
        fires_descriptor_burst
    subst hk3
    rw [heq]
    simp only [List.map_cons, List.map_nil, hr, hc]
    norm_num [descriptor_burst]
  · have hnew : fired_blocks engine_busy engine_busy.wavespawns [3]
        = [{ time_left := 5, pressure_per_second := 10, effective_pressure := 50, currency := 7 },
           { time_left := 5, pressure_per_second := 10, effective_pressure := 50, currency := 7 },
           { time_left := 5, pressure_per_second := 10, effective_pressure := 50,
             currency := 7 }] := by
      rw [hw]
      simp only [fired_blocks, make_virtual_spawn_burst]
      rfl
    rw [hsp, hnew]
    simp [survivors, engine_busy, engine_two, virtual_spawn.decrement_time,
      virtual_spawn.is_dead]

end descriptor_phase_claim

section shares

variable {α : Type} [LinearOrderedField α] [FloorRing α]

theorem survivors_append (l1 l2 : List (virtual_spawn α)) :
    survivors (l1 ++ l2) = survivors l1 ++ survivors l2 := by
  simp [survivors]

theorem survivors_singleton (sp : virtual_spawn α) : survivors [sp] = kept sp := by
  cases hd : sp.decrement_time.is_dead with
  | true => simp [survivors, kept, hd]
  | false => simp [survivors, kept, hd]

/-- The survivors of a list around one of its instances. -/
theorem survivors_split (pre suf : List (virtual_spawn α)) (sp : virtual_spawn α) :
    survivors (pre ++ sp :: suf) = survivors pre ++ kept sp ++ survivors suf := by
  have : pre ++ sp :: suf = pre ++ ([sp] ++ suf) := rfl
  rw [this, survivors_append, survivors_append, survivors_singleton, List.append_assoc]

theorem pps_sum_kept (sp : virtual_spawn α) : pps_sum (kept sp) = tick_share sp := by
  cases hd : sp.decrement_time.is_dead with
  | true => simp [kept, tick_share, hd, pps_sum]
  | false => simp [kept, tick_share, hd, pps_sum]

/-- What a pass of the live-spawn loop adds, instance by instance around one of them. -/
theorem pps_sum_survivors_split (pre suf : List (virtual_spawn α)) (sp : virtual_spawn α) :
    pps_sum (survivors (pre ++ sp :: suf))
      = pps_sum (survivors pre) + tick_share sp + pps_sum (survivors suf) := by
  rw [survivors_split, pps_sum_append, pps_sum_append, pps_sum_kept]

theorem tick_share_alive (sp : virtual_spawn α) (h : 1 < sp.time_left) :
    tick_share sp = sp.get_pressure_per_second ∧ kept sp = [sp.decrement_time] := by
  have hd : sp.decrement_time.is_dead = false := by
    simp only [virtual_spawn.is_dead, virtual_spawn.decrement_time, beq_eq_false_iff_ne]
    omega
  simp only [tick_share, kept, hd]
  exact ⟨rfl, rfl⟩

theorem tick_share_dying (sp : virtual_spawn α) (h : sp.time_left = 1) :
    tick_share sp = 0 ∧ kept sp = [] := by
  have hd : sp.decrement_time.is_dead = true := by
    simp [virtual_spawn.is_dead, virtual_spawn.decrement_time, h]
  simp only [tick_share, kept, hd]
  exact ⟨rfl, rfl⟩

theorem aged_zero (sp : virtual_spawn α) : aged sp 0 = sp := by
  cases sp
  simp [aged]

theorem aged_succ (sp : virtual_spawn α) (n : Nat) :
    (aged sp n).decrement_time = aged sp (n + 1) := by
  simp only [aged, virtual_spawn.decrement_time]
  congr 1
  push_cast
  ring

/-- The share and the fate of an instance of lifetime `L` in pass `n + 1` of its life. -/
theorem tick_share_aged (sp : virtual_spawn α) (n : Nat) (h : (n : Int) < sp.time_left) :
    tick_share (aged sp n)
        = (if (n : Int) + 1 < sp.time_left then sp.get_pressure_per_second else 0)
    ∧ kept (aged sp n) = (if (n : Int) + 1 < sp.time_left then [aged sp (n + 1)] else []) := by
  by_cases hlt : (n : Int) + 1 < sp.time_left
  · have ha : 1 < (aged sp n).time_left := by
      simp only [aged]; omega
    obtain ⟨h1, h2⟩ := tick_share_alive (aged sp n) ha
    rw [if_pos hlt, if_pos hlt, h1, h2, aged_succ]
    exact ⟨rfl, rfl⟩
  · have ha : (aged sp n).time_left = 1 := by
      simp only [aged]; omega
    obtain ⟨h1, h2⟩ := tick_share_dying (aged sp n) ha
    rw [if_neg hlt, if_neg hlt, h1, h2]
    exact ⟨rfl, rfl⟩

/-- One tick, seen from one instance of the list the live-spawn loop runs over: the tick returns,
the instance adds its share, and the others theirs. -/
theorem tick_share_law (fuel : Nat) (s : pressure_manager α) (t : Int) (ks : List Nat)
    (pre suf : List (virtual_spawn α)) (sp : virtual_spawn α) (h : tick_ready fuel s)
    (hks : List.Forall₂ fires s.wavespawns ks)
    (hs : s.spawns ++ fired_blocks s s.wavespawns ks = pre ++ sp :: suf) :
    tick fuel s t = some (tick_result s ks, t + 1)
    ∧ tick_ready fuel (tick_result s ks)
    ∧ (tick_result s ks).spawns = survivors pre ++ kept sp ++ survivors suf
    ∧ (tick_result s ks).pressure
        = s.pressure + pps_sum (fired_blocks s s.wavespawns ks)
          + (pps_sum (survivors pre) + tick_share sp + pps_sum (survivors suf))
          - s.pressure_decay_rate * s.pressure_decay_rate_multiplier_in_time
            / (((tick_result s ks).spawns.length : α) * (2 / 10) + 1) := by
  obtain ⟨ks1, hks1, ht, hfit, hready⟩ := tick_total fuel s t h
  have hk : ks1 = ks := forall2_fires_unique _ _ _ hks1 hks
  subst hk
  refine ⟨ht, hready, ?_, ?_⟩
  · rw [tick_result_spawns, hs, survivors_split]
  · rw [tick_result_pressure s ks1 hfit, tick_result_spawns, hs, pps_sum_survivors_split]

/-- An instance of the live-spawn list is still in the list, `n` ticks older, after `n` ticks
that are less than its lifetime. -/
theorem ticks_track (fuel : Nat) (n : Nat) :
    ∀ (s : pressure_manager α) (t : Int) (pre suf : List (virtual_spawn α))
      (sp : virtual_spawn α), tick_ready fuel s → s.spawns = pre ++ sp :: suf →
      (n : Int) < sp.time_left →
      ∃ (sn : pressure_manager α) (pre1 suf1 : List (virtual_spawn α)),
        ticks fuel n s t = some (sn, t + (n : Int))
        ∧ sn.spawns = pre1 ++ aged sp n :: suf1
        ∧ tick_ready fuel sn ∧ same_settings s sn := by
  induction n with
  | zero =>
    intro s t pre suf sp h hs _
    exact ⟨s, pre, suf, by simp [ticks], by rw [aged_zero]; exact hs, h, same_settings_refl s⟩
  | succ n ih =>
    intro s t pre suf sp h hs hlt
    obtain ⟨sn, pre1, suf1, hticks, hsn, hready, hsame⟩ :=
      ih s t pre suf sp h hs (by push_cast at hlt; omega)
    obtain ⟨ks, hks, -⟩ := tick_total fuel sn (t + (n : Int)) hready
    have hdec : sn.spawns ++ fired_blocks sn sn.wavespawns ks
        = pre1 ++ aged sp n :: (suf1 ++ fired_blocks sn sn.wavespawns ks) := by
      rw [hsn]; simp
    obtain ⟨ht, hready1, hsp1, -⟩ := tick_share_law fuel sn (t + (n : Int)) ks pre1
      (suf1 ++ fired_blocks sn sn.wavespawns ks) (aged sp n) hready hks hdec
    have hkept := (tick_share_aged sp n (by push_cast at hlt; omega)).2
    rw [if_pos (by push_cast at hlt; omega)] at hkept
    refine ⟨tick_result sn ks, survivors pre1,
      survivors (suf1 ++ fired_blocks sn sn.wavespawns ks), ?_, ?_, hready1,
      same_settings_trans hsame (tick_frame ht)⟩
    · have := ticks_succ_last fuel n s sn (tick_result sn ks) t (t + (n : Int))
        (t + (n : Int) + 1) hticks ht
      rw [this]
      push_cast
      rw [add_assoc]
    · rw [hsp1, hkept]
      simp

/-- The life of an instance of the live-spawn list under `step_through_time`'s ticks: as long as
`n` is less than its lifetime the first `n` ticks return and leave it in the list, `n` ticks
older, and the next tick returns and adds its rate for it if it survives that tick and nothing if
it dies in it, the other instances adding theirs. -/
theorem life_law (fuel : Nat) (s : pressure_manager α) (t : Int)
    (pre suf : List (virtual_spawn α)) (sp : virtual_spawn α) (h : tick_ready fuel s)
    (hs : s.spawns = pre ++ sp :: suf) (n : Nat) (hn : (n : Int) < sp.time_left) :
    ∃ (sn : pressure_manager α) (pre1 suf1 : List (virtual_spawn α)) (ks : List Nat),
      ticks fuel n s t = some (sn, t + (n : Int))
      ∧ sn.spawns = pre1 ++ aged sp n :: suf1
      ∧ List.Forall₂ fires sn.wavespawns ks
      ∧ tick fuel sn (t + (n : Int)) = some (tick_result sn ks, t + (n : Int) + 1)
      ∧ (tick_result sn ks).pressure
          = sn.pressure + pps_sum (fired_blocks sn sn.wavespawns ks)
            + (pps_sum (survivors pre1)
                + (if (n : Int) + 1 < sp.time_left then sp.get_pressure_per_second else 0)
                + pps_sum (survivors (suf1 ++ fired_blocks sn sn.wavespawns ks)))
            - sn.pressure_decay_rate * sn.pressure_decay_rate_multiplier_in_time
              / (((tick_result sn ks).spawns.length : α) * (2 / 10) + 1)
      ∧ (tick_result sn ks).spawns
          = survivors pre1
            ++ (if (n : Int) + 1 < sp.time_left then [aged sp (n + 1)] else [])
            ++ survivors (suf1 ++ fired_blocks sn sn.wavespawns ks)
      ∧ same_settings s sn := by
  obtain ⟨sn, pre1, suf1, hticks, hsn, hready, hsame⟩ := ticks_track fuel n s t pre suf sp h hs hn
  obtain ⟨ks, hks, -⟩ := tick_total fuel sn (t + (n : Int)) hready
  have hdec : sn.spawns ++ fired_blocks sn sn.wavespawns ks
      = pre1 ++ aged sp n :: (suf1 ++ fired_blocks sn sn.wavespawns ks) := by
    rw [hsn]; simp
  obtain ⟨ht, -, hsp1, hpr⟩ := tick_share_law fuel sn (t + (n : Int)) ks pre1
    (suf1 ++ fired_blocks sn sn.wavespawns ks) (aged sp n) hready hks hdec
  obtain ⟨hshare, hkept⟩ := tick_share_aged sp n hn
  refine ⟨sn, pre1, suf1, ks, hticks, hsn, hks, ht, ?_, ?_, hsame⟩
  · rw [hpr, hshare]
  · rw [hsp1, hkept]

/-- The shares of an instance of lifetime `L ≥ 1` and rate `r` over the `L` ticks of its life
add up to `(L - 1) * r`. -/
theorem life_shares_sum (L : Nat) (r : α) (tl : Int) (htl : tl = (L : Int)) (hL : 1 ≤ L) :
    (Finset.range L).sum (fun n : Nat => if (n : Int) + 1 < tl then r else 0)
      = ((L : α) - 1) * r := by
  obtain ⟨m, rfl⟩ : ∃ m, L = m + 1 := ⟨L - 1, by omega⟩
  rw [Finset.sum_range_succ]
  have hlast : ¬ ((m : Int) + 1 < tl) := by rw [htl]; push_cast; omega
  rw [if_neg hlast, add_zero]
  have : ∀ n ∈ Finset.range m, (if (n : Int) + 1 < tl then r else 0) = r := by
    intro n hn
    rw [Finset.mem_range] at hn
    rw [if_pos (by rw [htl]; push_cast; omega)]
  rw [Finset.sum_congr rfl this, Finset.sum_const, Finset.card_range]
  simp

end shares

section accumulation_claim

variable {α : Type} [LinearOrderedField α] [FloorRing α]

/-- C9 (as amended): for a non-tank instance created with standard factor 1 from a descriptor
with `effective_pressure = P` and `time_to_kill = T > 0`, `pressure_per_second = P / ceil(T)`.
Wherever it stands in the live-spawn list, as long as `n < ceil(T)` the first `n` ticks of
`step_through_time` return and leave it in the list, `n` ticks older, and the next tick returns
and adds for it, apart from what the other instances add and the decay, `pressure_per_second` if
`n + 1 < ceil(T)` and nothing if `n + 1 = ceil(T)`, the tick in which it dies and is removed. Over
the `ceil(T)` ticks of its life that is `pressure_per_second * (ceil(T) - 1)
= P - pressure_per_second`, not `P`. -/
theorem instance_accumulation (fuel : Nat) (s : pressure_manager α) (ws : virtual_wavespawn α)
    (pre suf : List (virtual_spawn α)) (t : Int)
    (hT : 0 < ws.time_to_kill) (htank : ws.is_tank = false) (hfac : s.pps_factor_tfbot = 1)
    (hs : s.spawns = pre ++ make_virtual_spawn s ws :: suf) (hready : tick_ready fuel s) :
    (make_virtual_spawn s ws).get_pressure_per_second
        = ws.effective_pressure / ((Int.ceil ws.time_to_kill : Int) : α)
    ∧ (∀ n : Nat, (n : Int) < Int.ceil ws.time_to_kill →
        ∃ (sn : pressure_manager α) (pre1 suf1 : List (virtual_spawn α)) (ks : List Nat),
          ticks fuel n s t = some (sn, t + (n : Int))
          ∧ sn.spawns = pre1 ++ aged (make_virtual_spawn s ws) n :: suf1
          ∧ List.Forall₂ fires sn.wavespawns ks
          ∧ tick fuel sn (t + (n : Int)) = some (tick_result sn ks, t + (n : Int) + 1)
          ∧ (tick_result sn ks).pressure
              = sn.pressure + pps_sum (fired_blocks sn sn.wavespawns ks)
                + (pps_sum (survivors pre1)
                    + (if (n : Int) + 1 < Int.ceil ws.time_to_kill
                        then (make_virtual_spawn s ws).get_pressure_per_second else 0)
                    + pps_sum (survivors (suf1 ++ fired_blocks sn sn.wavespawns ks)))
                - sn.pressure_decay_rate * sn.pressure_decay_rate_multiplier_in_time
                  / (((tick_result sn ks).spawns.length : α) * (2 / 10) + 1)
          ∧ (tick_result sn ks).spawns
              = survivors pre1
                ++ (if (n : Int) + 1 < Int.ceil ws.time_to_kill
                    then [aged (make_virtual_spawn s ws) (n + 1)] else [])
                ++ survivors (suf1 ++ fired_blocks sn sn.wavespawns ks))
    ∧ (Finset.range (Int.ceil ws.time_to_kill).toNat).sum
          (fun n : Nat => if (n : Int) + 1 < Int.ceil ws.time_to_kill
            then (make_virtual_spawn s ws).get_pressure_per_second else 0)
        = (((Int.ceil ws.time_to_kill : Int) : α) - 1)
          * (make_virtual_spawn s ws).get_pressure_per_second
    ∧ (((Int.ceil ws.time_to_kill : Int) : α) - 1)
          * (make_virtual_spawn s ws).get_pressure_per_second
        = ws.effective_pressure - (make_virtual_spawn s ws).get_pressure_per_second := by
  have hL : 1 ≤ Int.ceil ws.time_to_kill := Int.one_le_ceil_iff.mpr hT
  have hpps : (make_virtual_spawn s ws).get_pressure_per_second
      = ws.effective_pressure / ((Int.ceil ws.time_to_kill : Int) : α) := by
    simp [make_virtual_spawn, virtual_spawn.get_pressure_per_second, htank, hfac]
  have hcne : ((Int.ceil ws.time_to_kill : Int) : α) ≠ 0 := by
    have : (0 : Int) < Int.ceil ws.time_to_kill := by omega
    exact_mod_cast (ne_of_gt this)
  have htl : (make_virtual_spawn s ws).time_left = Int.ceil ws.time_to_kill := rfl
  refine ⟨hpps, ?_, ?_, ?_⟩
  · intro n hn
    obtain ⟨sn, pre1, suf1, ks, h1, h2, h3, h4, h5, h6, -⟩ :=
      life_law fuel s t pre suf (make_virtual_spawn s ws) hready hs n (by rw [htl]; exact hn)
    rw [htl] at h5 h6
    exact ⟨sn, pre1, suf1, ks, h1, h2, h3, h4, h5, h6⟩
  · have hnat : Int.ceil ws.time_to_kill = ((Int.ceil ws.time_to_kill).toNat : Int) := by omega
    have hsum := life_shares_sum (Int.ceil ws.time_to_kill).toNat
      (make_virtual_spawn s ws).get_pressure_per_second (Int.ceil ws.time_to_kill) hnat
      (by omega)
    rw [hsum]
    congr 1
    have : (((Int.ceil ws.time_to_kill).toNat : Int) : α)
        = ((Int.ceil ws.time_to_kill : Int) : α) := by rw [← hnat]
    rw [← this]
    push_cast
    ring
  · rw [hpps]
    field_simp
    ring

/-- The scenario of C9 with company: the instance `P = 50`, `T = 4.2` registered behind two live
instances on the default engine. Its rate is 10, the first four ticks return with it still in the
list, the fifth returns too, and its shares over the five ticks add up to 40. -/
theorem instance_accumulation_witness :
    (make_virtual_spawn (add_virtual_wavespawn engine_two descriptor_50)
        descriptor_50).get_pressure_per_second = 10
    ∧ (∃ (s4 : pressure_manager ℚ) (pre1 suf1 : List (virtual_spawn ℚ)) (ks : List Nat),
        ticks 3 4 (add_virtual_wavespawn engine_two descriptor_50) 0 = some (s4, 0 + ((4 : Nat) : Int))
        ∧ s4.spawns
            = pre1 ++ aged (make_virtual_spawn (add_virtual_wavespawn engine_two descriptor_50)
                descriptor_50) 4 :: suf1
        ∧ tick 3 s4 (0 + ((4 : Nat) : Int)) = some (tick_result s4 ks, 0 + ((4 : Nat) : Int) + 1))
    ∧ (Finset.range (Int.ceil descriptor_50.time_to_kill).toNat).sum
          (fun n : Nat => if (n : Int) + 1 < Int.ceil descriptor_50.time_to_kill
            then (make_virtual_spawn (add_virtual_wavespawn engine_two descriptor_50)
              descriptor_50).get_pressure_per_second else 0)
        = 40 := by
  have hc : Int.ceil (descriptor_50.time_to_kill) = 5 := ceil_42_10
  have hready : tick_ready 3 (add_virtual_wavespawn engine_two descriptor_50) := by
    refine ⟨?_, ?_, ?_⟩
    · intro ws hws
      have : (add_virtual_wavespawn engine_two descriptor_50).wavespawns = [descriptor_50] := rfl
      rw [this] at hws
      simp at hws
      rw [hws]
      decide
    · have : capacity (add_virtual_wavespawn engine_two descriptor_50) = 3 := rfl
      rw [this]
      decide
    · have : capacity (add_virtual_wavespawn engine_two descriptor_50) = 3 := rfl
      rw [this]
  obtain ⟨h1, h2, h3, h4⟩ := instance_accumulation 3
    (add_virtual_wavespawn engine_two descriptor_50) descriptor_50 engine_two.spawns [] 0
    (by norm_num [descriptor_50]) rfl rfl rfl hready
  have hpps : (make_virtual_spawn (add_virtual_wavespawn engine_two descriptor_50)
      descriptor_50).get_pressure_per_second = 10 := by
    rw [h1, hc]
    norm_num [descriptor_50]
  refine ⟨hpps, ?_, ?_⟩
  · obtain ⟨s4, pre1, suf1, ks, g1, g2, -, g4, -, -⟩ := h2 4 (by rw [hc]; decide)
    exact ⟨s4, pre1, suf1, ks, g1, g2, g4⟩
  · rw [h3, hpps, hc]
    norm_num

end accumulation_claim

section total_pressure_claim

variable {α : Type} [LinearOrderedField α] [FloorRing α]

theorem aged_aged (sp : virtual_spawn α) (a n : Nat) : aged (aged sp a) n = aged sp (a + n) := by
  simp only [aged]
  congr 1
  push_cast
  ring

/-- The life of an instance that stands in the live-spawn list at age `a`: the ticks before its
last return and keep it, and each tick adds its share. -/
theorem life_law_from (fuel : Nat) (s : pressure_manager α) (t : Int)
    (pre suf : List (virtual_spawn α)) (sp : virtual_spawn α) (a n : Nat)
    (h : tick_ready fuel s) (hs : s.spawns = pre ++ aged sp a :: suf)
    (hn : ((a + n : Nat) : Int) < sp.time_left) :
    ∃ (sn : pressure_manager α) (pre1 suf1 : List (virtual_spawn α)) (ks : List Nat),
      ticks fuel n s t = some (sn, t + (n : Int))
      ∧ sn.spawns = pre1 ++ aged sp (a + n) :: suf1
      ∧ List.Forall₂ fires sn.wavespawns ks
      ∧ tick fuel sn (t + (n : Int)) = some (tick_result sn ks, t + (n : Int) + 1)
      ∧ (tick_result sn ks).pressure
          = sn.pressure + pps_sum (fired_blocks sn sn.wavespawns ks)
            + (pps_sum (survivors pre1)
                + (if ((a + n : Nat) : Int) + 1 < sp.time_left
                    then sp.get_pressure_per_second else 0)
                + pps_sum (survivors (suf1 ++ fired_blocks sn sn.wavespawns ks)))
            - sn.pressure_decay_rate * sn.pressure_decay_rate_multiplier_in_time
              / (((tick_result sn ks).spawns.length : α) * (2 / 10) + 1)
      ∧ (tick_result sn ks).spawns
          = survivors pre1
            ++ (if ((a + n : Nat) : Int) + 1 < sp.time_left
                then [aged sp (a + n + 1)] else [])
            ++ survivors (suf1 ++ fired_blocks sn sn.wavespawns ks) := by
  have htl : (aged sp a).time_left = sp.time_left - (a : Int) := rfl
  have hpps : (aged sp a).get_pressure_per_second = sp.get_pressure_per_second := rfl
  obtain ⟨sn, pre1, suf1, ks, h1, h2, h3, h4, h5, h6, -⟩ :=
    life_law fuel s t pre suf (aged sp a) h hs n (by rw [htl]; push_cast at hn; omega)
  refine ⟨sn, pre1, suf1, ks, h1, ?_, h3, h4, ?_, ?_⟩
  · rw [h2, aged_aged]
  · rw [h5, hpps, htl]
    by_cases hc : ((a + n : Nat) : Int) + 1 < sp.time_left
    · rw [if_pos hc, if_pos (by push_cast at hc; omega)]
    · rw [if_neg hc, if_neg (by push_cast at hc; omega)]
  · rw [h6, htl]
    by_cases hc : ((a + n : Nat) : Int) + 1 < sp.time_left
    · rw [if_pos hc, if_pos (by push_cast at hc; omega), aged_aged]
      rfl
    · rw [if_neg hc, if_neg (by push_cast at hc; omega)]

/-- The lifetime and the total of an instance created from a descriptor with a positive
`time_to_kill`. -/
theorem make_virtual_spawn_total (s : pressure_manager α) (ws : virtual_wavespawn α)
    (hT : 0 < ws.time_to_kill) :
    (make_virtual_spawn s ws).time_left = Int.ceil ws.time_to_kill
    ∧ 1 ≤ (make_virtual_spawn s ws).time_left
    ∧ (((make_virtual_spawn s ws).time_left : Int) : α)
          * (make_virtual_spawn s ws).get_pressure_per_second
        = ws.effective_pressure
          * (if ws.is_tank then s.pps_factor_tank else s.pps_factor_tfbot) := by
  have hL : 1 ≤ Int.ceil ws.time_to_kill := Int.one_le_ceil_iff.mpr hT
  have hcne : ((Int.ceil ws.time_to_kill : Int) : α) ≠ 0 := by
    have : (0 : Int) < Int.ceil ws.time_to_kill := by omega
    exact_mod_cast (ne_of_gt this)
  have hpps : (make_virtual_spawn s ws).get_pressure_per_second
      = ws.effective_pressure / ((Int.ceil ws.time_to_kill : Int) : α)
        * (if ws.is_tank then s.pps_factor_tank else s.pps_factor_tfbot) := rfl
  have htl : (make_virtual_spawn s ws).time_left = Int.ceil ws.time_to_kill := rfl
  refine ⟨htl, by rw [htl]; exact hL, ?_⟩
  rw [hpps, htl]
  generalize (if ws.is_tank then s.pps_factor_tank else s.pps_factor_tfbot) = f
  field_simp

theorem tick_ready_engine_busy : tick_ready 7 engine_busy := by
  refine ⟨?_, ?_, ?_⟩
  · intro ws hws
    have : engine_busy.wavespawns = [descriptor_burst] := rfl
    rw [this] at hws
    simp at hws
    rw [hws]
    decide
  · have : capacity engine_busy = 7 := rfl
    rw [this]
    decide
  · have : capacity engine_busy = 7 := rfl
    rw [this]

theorem fires_engine_busy : List.Forall₂ fires engine_busy.wavespawns [3] :=
  List.Forall₂.cons fires_descriptor_burst List.Forall₂.nil

theorem fired_blocks_engine_busy :
    fired_blocks engine_busy engine_busy.wavespawns [3]
      = [make_virtual_spawn engine_busy descriptor_burst]
        ++ make_virtual_spawn engine_busy descriptor_burst
          :: [make_virtual_spawn engine_busy descriptor_burst] := rfl

theorem tick_ready_registered_two :
    tick_ready 3 (add_virtual_wavespawn engine_two descriptor_50) := by
  refine ⟨?_, ?_, ?_⟩
  · intro ws hws
    have : (add_virtual_wavespawn engine_two descriptor_50).wavespawns = [descriptor_50] := rfl
    rw [this] at hws
    simp at hws
    rw [hws]
    decide
  · have : capacity (add_virtual_wavespawn engine_two descriptor_50) = 3 := rfl
    rw [this]
    decide
  · have : capacity (add_virtual_wavespawn engine_two descriptor_50) = 3 := rfl
    rw [this]

/-- C19: an instance created from a descriptor with `time_to_kill > 0` has lifetime
`L = ceil(time_to_kill) ≥ 1` and `L * pressure_per_second = effective_pressure * pps_factor`.
(1) Created at registration it is appended to the live-spawn list with lifetime `L`, and its rate
is added to the pressure (the front-load). (2) Created inside a tick, at any place among the
instances the descriptors fire in that tick, it is an instance of one of the descriptors, its
rate is part of what the tick adds for the new instances (the front-load), the tick returns, and
in the same tick the live-spawn loop adds its rate again if `1 < L` and removes it if `L = 1`.
(3) From then on, wherever the instance stands in the list at age `a`, as long as `a + n < L` the
next `n` ticks return and keep it, and the tick after them returns and adds for it, apart from
what the other instances add and the decay, its rate if `a + n + 1 < L` and nothing if
`a + n + 1 = L`, the tick in which it dies and is removed. (4) So over the `L` ticks of its life
the loop adds its rate in exactly `L - 1` of them, and with the front-load the pressure injected
is `L * pressure_per_second`. -/
theorem instance_total_pressure :
    (∀ (s0 : pressure_manager α) (ws : virtual_wavespawn α), 0 < ws.time_to_kill →
        (add_virtual_wavespawn s0 ws).spawns = s0.spawns ++ [make_virtual_spawn s0 ws]
        ∧ (add_virtual_wavespawn s0 ws).pressure
            = s0.pressure + (make_virtual_spawn s0 ws).get_pressure_per_second
        ∧ (make_virtual_spawn s0 ws).time_left = Int.ceil ws.time_to_kill
        ∧ 1 ≤ (make_virtual_spawn s0 ws).time_left
        ∧ (((make_virtual_spawn s0 ws).time_left : Int) : α)
              * (make_virtual_spawn s0 ws).get_pressure_per_second
            = ws.effective_pressure
              * (if ws.is_tank then s0.pps_factor_tank else s0.pps_factor_tfbot))
    ∧ (∀ (fuel : Nat) (s : pressure_manager α) (t : Int) (ks : List Nat)
        (n1 n2 : List (virtual_spawn α)) (sp : virtual_spawn α),
        tick_ready fuel s → (∀ ws ∈ s.wavespawns, 0 < ws.time_to_kill) →
        List.Forall₂ fires s.wavespawns ks →
        fired_blocks s s.wavespawns ks = n1 ++ sp :: n2 →
        (∃ ws ∈ s.wavespawns, sp = make_virtual_spawn s ws
            ∧ sp.time_left = Int.ceil ws.time_to_kill
            ∧ ((sp.time_left : Int) : α) * sp.get_pressure_per_second
                = ws.effective_pressure
                  * (if ws.is_tank then s.pps_factor_tank else s.pps_factor_tfbot))
        ∧ 1 ≤ sp.time_left
        ∧ tick fuel s t = some (tick_result s ks, t + 1)
        ∧ tick_ready fuel (tick_result s ks)
        ∧ (tick_result s ks).pressure
            = s.pressure + (pps_sum n1 + sp.get_pressure_per_second + pps_sum n2)
              + (pps_sum (survivors (s.spawns ++ n1))
                  + (if 1 < sp.time_left then sp.get_pressure_per_second else 0)
                  + pps_sum (survivors n2))
              - s.pressure_decay_rate * s.pressure_decay_rate_multiplier_in_time
                / (((tick_result s ks).spawns.length : α) * (2 / 10) + 1)
        ∧ (tick_result s ks).spawns
            = survivors (s.spawns ++ n1)
              ++ (if 1 < sp.time_left then [aged sp 1] else [])
              ++ survivors n2)
    ∧ (∀ (fuel : Nat) (s : pressure_manager α) (t : Int) (pre suf : List (virtual_spawn α))
        (sp : virtual_spawn α) (a n : Nat),
        tick_ready fuel s → s.spawns = pre ++ aged sp a :: suf →
        ((a + n : Nat) : Int) < sp.time_left →
        ∃ (sn : pressure_manager α) (pre1 suf1 : List (virtual_spawn α)) (ks : List Nat),
          ticks fuel n s t = some (sn, t + (n : Int))
          ∧ sn.spawns = pre1 ++ aged sp (a + n) :: suf1
          ∧ List.Forall₂ fires sn.wavespawns ks
          ∧ tick fuel sn (t + (n : Int)) = some (tick_result sn ks, t + (n : Int) + 1)
          ∧ (tick_result sn ks).pressure
              = sn.pressure + pps_sum (fired_blocks sn sn.wavespawns ks)
                + (pps_sum (survivors pre1)
                    + (if ((a + n : Nat) : Int) + 1 < sp.time_left
                        then sp.get_pressure_per_second else 0)
                    + pps_sum (survivors (suf1 ++ fired_blocks sn sn.wavespawns ks)))
                - sn.pressure_decay_rate * sn.pressure_decay_rate_multiplier_in_time
                  / (((tick_result sn ks).spawns.length : α) * (2 / 10) + 1)
          ∧ (tick_result sn ks).spawns
              = survivors pre1
                ++ (if ((a + n : Nat) : Int) + 1 < sp.time_left
                    then [aged sp (a + n + 1)] else [])
                ++ survivors (suf1 ++ fired_blocks sn sn.wavespawns ks))
    ∧ (∀ (sp : virtual_spawn α) (L : Nat), sp.time_left = (L : Int) → 1 ≤ L →
        ((Finset.range L).filter (fun n : Nat => (n : Int) + 1 < sp.time_left)).card = L - 1
        ∧ (Finset.range L).sum
              (fun n : Nat => if (n : Int) + 1 < sp.time_left
                then sp.get_pressure_per_second else 0)
            = ((L : α) - 1) * sp.get_pressure_per_second
        ∧ sp.get_pressure_per_second
            + (Finset.range L).sum
                (fun n : Nat => if (n : Int) + 1 < sp.time_left
                  then sp.get_pressure_per_second else 0)
            = ((sp.time_left : Int) : α) * sp.get_pressure_per_second) := by
  refine ⟨?_, ?_, ?_, ?_⟩
  · intro s0 ws hT
    obtain ⟨h1, h2, h3⟩ := make_virtual_spawn_total s0 ws hT
    exact ⟨rfl, rfl, h1, h2, h3⟩
  · intro fuel s t ks n1 n2 sp hready hT hks hnew
    have hmem : sp ∈ fired_blocks s s.wavespawns ks := by
      rw [hnew]; simp
    obtain ⟨ws, hws, hsp⟩ := mem_fired_blocks s s.wavespawns ks sp hmem
    obtain ⟨g1, g2, g3⟩ := make_virtual_spawn_total s ws (hT ws hws)
    rw [← hsp] at g1 g2 g3
    have hs : s.spawns ++ fired_blocks s s.wavespawns ks = (s.spawns ++ n1) ++ sp :: n2 := by
      rw [hnew, List.append_assoc]
    obtain ⟨k1, k2, k3, k4⟩ := tick_share_law fuel s t ks (s.spawns ++ n1) n2 sp hready hks hs
    have hage := tick_share_aged sp 0 (by push_cast; omega)
    rw [aged_zero] at hage
    have hc : ((0 : Nat) : Int) + 1 < sp.time_left ↔ 1 < sp.time_left := by
      push_cast; omega
    refine ⟨⟨ws, hws, hsp, g1, g3⟩, g2, k1, k2, ?_, ?_⟩
    · rw [k4, hage.1, hnew, pps_sum_append, pps_sum_cons]
      by_cases h1 : 1 < sp.time_left
      · rw [if_pos h1, if_pos (hc.mpr h1)]; ring
      · rw [if_neg h1, if_neg (fun h => h1 (hc.mp h))]; ring
    · rw [k3, hage.2]
      by_cases h1 : 1 < sp.time_left
      · rw [if_pos h1, if_pos (hc.mpr h1)]
      · rw [if_neg h1, if_neg (fun h => h1 (hc.mp h))]
  · intro fuel s t pre suf sp a n hready hs hn
    exact life_law_from fuel s t pre suf sp a n hready hs hn
  · intro sp L htl hL
    have hsum := life_shares_sum L sp.get_pressure_per_second sp.time_left htl hL
    refine ⟨?_, hsum, ?_⟩
    · have hset : (Finset.range L).filter (fun n : Nat => (n : Int) + 1 < sp.time_left)
          = Finset.range (L - 1) := by
        ext n
        simp only [Finset.mem_filter, Finset.mem_range]
        omega
      rw [hset, Finset.card_range]
    · rw [hsum, htl]
      push_cast
      ring

/-- The scenario `effective_pressure = 50`, `time_to_kill = 4.2` for C19, in company. Registered
behind two live instances on the default engine, the instance joins the list with rate 10 and
lifetime 5, the pressure goes from 0 to 10, four ticks return with it in the list and the fifth
returns too. Fired as the second of three by a descriptor inside a tick of an engine with two
live instances, it has rate 10 and lifetime 5, the tick returns, and it is in the list one tick
older. In either case the loop adds its rate in 4 ticks, and the pressure injected is
`10 + 40 = 50`. -/
theorem instance_total_pressure_witness :
    ((add_virtual_wavespawn engine_two descriptor_50).spawns
        = engine_two.spawns ++ [make_virtual_spawn engine_two descriptor_50]
      ∧ (add_virtual_wavespawn engine_two descriptor_50).pressure = 0 + 10
      ∧ (make_virtual_spawn engine_two descriptor_50).time_left = 5
      ∧ (∃ (s4 : pressure_manager ℚ) (pre1 suf1 : List (virtual_spawn ℚ)) (ks : List Nat),
          ticks 3 4 (add_virtual_wavespawn engine_two descriptor_50) 0
            = some (s4, 0 + ((4 : Nat) : Int))
          ∧ s4.spawns = pre1 ++ aged (make_virtual_spawn engine_two descriptor_50) (0 + 4) :: suf1
          ∧ tick 3 s4 (0 + ((4 : Nat) : Int))
              = some (tick_result s4 ks, 0 + ((4 : Nat) : Int) + 1)))
    ∧ ((make_virtual_spawn engine_busy descriptor_burst).time_left = 5
      ∧ tick 7 engine_busy 0 = some (tick_result engine_busy [3], 0 + 1)
      ∧ (tick_result engine_busy [3]).spawns
          = survivors (engine_busy.spawns ++ [make_virtual_spawn engine_busy descriptor_burst])
            ++ [aged (make_virtual_spawn engine_busy descriptor_burst) 1]
            ++ survivors [make_virtual_spawn engine_busy descriptor_burst])
    ∧ ((Finset.range 5).filter
          (fun n : Nat => (n : Int) + 1
            < (make_virtual_spawn engine_busy descriptor_burst).time_left)).card = 5 - 1
    ∧ (make_virtual_spawn engine_busy descriptor_burst).get_pressure_per_second
        + (Finset.range 5).sum
            (fun n : Nat => if (n : Int) + 1
                < (make_virtual_spawn engine_busy descriptor_burst).time_left
              then (make_virtual_spawn engine_busy descriptor_burst).get_pressure_per_second
              else 0)
        = 50 := by
  obtain ⟨hA, hB, hC, hD⟩ := @instance_total_pressure ℚ _ _
  have hc50 : Int.ceil (descriptor_50.time_to_kill) = 5 := ceil_42_10
  have hcb : Int.ceil (descriptor_burst.time_to_kill) = 5 := ceil_42_10
  obtain ⟨a1, a2, a3, -, a5⟩ := hA engine_two descriptor_50 (by norm_num [descriptor_50])
  have hpps50 : (make_virtual_spawn engine_two descriptor_50).get_pressure_per_second = 10 := by
    have : (make_virtual_spawn engine_two descriptor_50).get_pressure_per_second
        = descriptor_50.effective_pressure / ((Int.ceil descriptor_50.time_to_kill : Int) : ℚ)
          * (if descriptor_50.is_tank then engine_two.pps_factor_tank
              else engine_two.pps_factor_tfbot) := rfl
    rw [this, hc50]
    norm_num [descriptor_50, engine_two, engine_42, pressure_manager.pressure_manager]
  have hsp0 : (add_virtual_wavespawn engine_two descriptor_50).spawns
      = engine_two.spawns ++ aged (make_virtual_spawn engine_two descriptor_50) 0 :: [] := by
    rw [aged_zero]; rfl
  obtain ⟨s4, pre1, suf1, ks, c1, c2, -, c4, -, -⟩ :=
    hC 3 (add_virtual_wavespawn engine_two descriptor_50) 0 engine_two.spawns []
      (make_virtual_spawn engine_two descriptor_50) 0 4 tick_ready_registered_two hsp0
      (by rw [a3, hc50]; decide)
  have hTb : ∀ ws ∈ engine_busy.wavespawns, 0 < ws.time_to_kill := by
    intro ws hws
    have : engine_busy.wavespawns = [descriptor_burst] := rfl
    rw [this] at hws
    simp at hws
    rw [hws]
    norm_num [descriptor_burst]
  obtain ⟨⟨ws, -, -, -, -⟩, -, b3, -, -, b6⟩ :=
    hB 7 engine_busy 0 [3] [make_virtual_spawn engine_busy descriptor_burst]
      [make_virtual_spawn engine_busy descriptor_burst]
      (make_virtual_spawn engine_busy descriptor_burst)
      tick_ready_engine_busy hTb fires_engine_busy fired_blocks_engine_busy
  have htlb : (make_virtual_spawn engine_busy descriptor_burst).time_left = 5 := hcb
  have hppsb : (make_virtual_spawn engine_busy descriptor_burst).get_pressure_per_second = 10 := by
    rw [make_virtual_spawn_burst]; rfl
  obtain ⟨d1, -, d3⟩ := hD (make_virtual_spawn engine_busy descriptor_burst) 5 htlb (by decide)
  refine ⟨⟨a1, ?_, ?_, s4, pre1, suf1, ks, c1, c2, c4⟩, ⟨htlb, b3, ?_⟩, d1, ?_⟩
  · rw [a2, hpps50]
    norm_num [engine_two, engine_42, pressure_manager.pressure_manager]
  · rw [a3, hc50]
  · rw [b6, if_pos (by rw [htlb]; decide)]
  · rw [d3, htlb, hppsb]
    norm_num

end total_pressure_claim

section accumulation_scenario

variable {α : Type} [LinearOrderedField α] [FloorRing α]

/-- A tick over inert descriptors and a single instance with more than one tick left: the
instance adds its rate and stays, one tick older, and the decay is applied. -/
theorem tick_lone_alive (fuel : Nat) (s : pressure_manager α) (t : Int) (sp : virtual_spawn α)
    (hinert : ∀ ws ∈ s.wavespawns, ws.spawns_remaining = 0)
    (hs : s.spawns = [sp]) (hl : 2 ≤ sp.time_left) :
    tick (fuel + 1) s t
      = some (apply_decay { s with
          pressure := s.pressure + sp.get_pressure_per_second
          wavespawns := s.wavespawns.map counted_down
          spawns := [sp.decrement_time] }, t + 1) := by
  have hw := step_wavespawns_inert (fuel + 1) s hinert
  have hsp := step_spawns_lone_alive fuel
    { s with wavespawns := s.wavespawns.map counted_down } sp hs hl
  simp only [tick, hw, hsp]

theorem inert_counted_down (l : List (virtual_wavespawn α))
    (h : ∀ ws ∈ l, ws.spawns_remaining = 0) :
    ∀ ws ∈ l.map counted_down, ws.spawns_remaining = 0 := by
  intro ws hws
  rw [List.mem_map] at hws
  obtain ⟨w, hw, rfl⟩ := hws
  exact h w hw

/-- With no decay (multiplier in time 0), inert descriptors and a single live instance, `n` ticks
short of the instance's lifetime raise the pressure by `n` times its rate and nothing else. -/
theorem ticks_lone_no_decay (fuel : Nat) (n : Nat) :
    ∀ (s : pressure_manager α) (t : Int) (sp : virtual_spawn α),
      (∀ ws ∈ s.wavespawns, ws.spawns_remaining = 0) → s.spawns = [sp] →
      (n : Int) < sp.time_left → s.pressure_decay_rate_multiplier_in_time = 0 →
      ∃ sn : pressure_manager α,
        ticks (fuel + 1) n s t = some (sn, t + (n : Int))
        ∧ sn.spawns = [aged sp n]
        ∧ sn.pressure = s.pressure + (n : α) * sp.get_pressure_per_second
        ∧ (∀ ws ∈ sn.wavespawns, ws.spawns_remaining = 0)
        ∧ sn.pressure_decay_rate_multiplier_in_time = 0 := by
  induction n with
  | zero =>
    intro s t sp hinert hs _ hm
    refine ⟨s, by simp [ticks], by rw [aged_zero]; exact hs, by simp, hinert, hm⟩
  | succ n ih =>
    intro s t sp hinert hs hn hm
    have h2 : 2 ≤ sp.time_left := by push_cast at hn; omega
    have ht := tick_lone_alive fuel s t sp hinert hs h2
    have hdec : sp.decrement_time = aged sp 1 := by
      rw [← aged_succ, aged_zero]
    obtain ⟨sn, g1, g2, g3, g4, g5⟩ := ih
      (apply_decay { s with
          pressure := s.pressure + sp.get_pressure_per_second
          wavespawns := s.wavespawns.map counted_down
          spawns := [sp.decrement_time] }) (t + 1) sp.decrement_time
      (inert_counted_down _ hinert) rfl
      (by simp only [virtual_spawn.decrement_time]; push_cast at hn; omega) hm
    refine ⟨sn, ?_, ?_, ?_, g4, g5⟩
    · simp only [ticks, ht, g1]
      congr 2
      push_cast
      ring
    · rw [g2, hdec, aged_aged, Nat.add_comm]
    · rw [g3]
      have hp : (apply_decay { s with
          pressure := s.pressure + sp.get_pressure_per_second
          wavespawns := s.wavespawns.map counted_down
          spawns := [sp.decrement_time] }).pressure
          = s.pressure + sp.get_pressure_per_second := by
        simp [apply_decay, hm]
      have hq : sp.decrement_time.get_pressure_per_second = sp.get_pressure_per_second := rfl
      rw [hp, hq]
      push_cast
      ring

/-- With no decay, inert descriptors and a single live instance of lifetime `n + 1`, the
`n + 1` ticks of its life raise the pressure by `n` times its rate, and the instance is gone. -/
theorem ticks_lone_life_no_decay (fuel : Nat) (n : Nat) (s : pressure_manager α) (t : Int)
    (sp : virtual_spawn α) (hinert : ∀ ws ∈ s.wavespawns, ws.spawns_remaining = 0)
    (hs : s.spawns = [sp]) (hl : sp.time_left = (n : Int) + 1)
    (hm : s.pressure_decay_rate_multiplier_in_time = 0) :
    ∃ r : pressure_manager α,
      ticks (fuel + 1) (n + 1) s t = some (r, t + (n : Int) + 1)
      ∧ r.spawns = []
      ∧ r.pressure = s.pressure + (n : α) * sp.get_pressure_per_second := by
  obtain ⟨sn, g1, g2, g3, g4, g5⟩ :=
    ticks_lone_no_decay fuel n s t sp hinert hs (by omega) hm
  have hd := tick_lone_dying fuel sn (t + (n : Int)) (aged sp n) g4 g2
    (by simp only [aged]; omega)
  refine ⟨_, ticks_succ_last (fuel + 1) n s sn _ t _ _ g1 hd, rfl, ?_⟩
  simp [apply_decay, g5, g3]

/-- Counterexample to C9 as stated: the instance of the scenario `P = 50`, `T = 4.2` has rate 10
and lifetime 5, so `pressure_per_second * ceil(T) = 50`, but the live-spawn loop adds only 40 on
its behalf over the five passes of its life. The same in whole ticks: registered on the default
engine with the decay switched off (multiplier in time 0), where the instance is the only one and
its descriptor has nothing left to spawn, the five ticks of its life return with the instance
gone and the pressure raised by 40, not 50. -/
theorem per_tick_accumulation_counterexample :
    (make_virtual_spawn engine_42 descriptor_50).get_pressure_per_second
        * ((Int.ceil descriptor_50.time_to_kill : Int) : ℚ) = 50
    ∧ (∃ r, spawn_phases 1 5 (add_virtual_spawn engine_42 descriptor_50) = some r
        ∧ r.spawns = []
        ∧ r.pressure - (add_virtual_spawn engine_42 descriptor_50).pressure = 40
        ∧ r.pressure - (add_virtual_spawn engine_42 descriptor_50).pressure
            ≠ (make_virtual_spawn engine_42 descriptor_50).get_pressure_per_second
              * ((Int.ceil descriptor_50.time_to_kill : Int) : ℚ))
    ∧ (∃ r : pressure_manager ℚ,
        ticks 1 5
            (add_virtual_wavespawn (set_pressure_decay_rate_multiplier_in_time engine_42 0)
              descriptor_50) 0 = some (r, 5)
        ∧ r.spawns = []
        ∧ r.pressure
            - (add_virtual_wavespawn (set_pressure_decay_rate_multiplier_in_time engine_42 0)
                descriptor_50).pressure = 40
        ∧ r.pressure
            - (add_virtual_wavespawn (set_pressure_decay_rate_multiplier_in_time engine_42 0)
                descriptor_50).pressure
            ≠ (make_virtual_spawn (set_pressure_decay_rate_multiplier_in_time engine_42 0)
                descriptor_50).get_pressure_per_second
              * ((Int.ceil descriptor_50.time_to_kill : Int) : ℚ)) := by
  have hc : Int.ceil (descriptor_50.time_to_kill) = 5 := ceil_42_10
  have hsp : (add_virtual_spawn engine_42 descriptor_50).spawns
      = [make_virtual_spawn engine_42 descriptor_50] := rfl
  have hlife := spawn_phases_lone_life 0 4 (add_virtual_spawn engine_42 descriptor_50)
    (make_virtual_spawn engine_42 descriptor_50) hsp (by rw [make_virtual_spawn_50]; rfl)
  have hpps : (make_virtual_spawn engine_42 descriptor_50).get_pressure_per_second = 10 := by
    rw [make_virtual_spawn_50]; rfl
  have hmk : make_virtual_spawn (set_pressure_decay_rate_multiplier_in_time engine_42 0)
      descriptor_50 = make_virtual_spawn engine_42 descriptor_50 := rfl
  have hinert : ∀ ws ∈ (add_virtual_wavespawn
      (set_pressure_decay_rate_multiplier_in_time engine_42 0) descriptor_50).wavespawns,
      ws.spawns_remaining = 0 := by
    intro ws hws
    have : (add_virtual_wavespawn (set_pressure_decay_rate_multiplier_in_time engine_42 0)
        descriptor_50).wavespawns = [descriptor_50] := rfl
    rw [this] at hws
    simp at hws
    rw [hws]
    rfl
  obtain ⟨r, k1, k2, k3⟩ := ticks_lone_life_no_decay 0 4
    (add_virtual_wavespawn (set_pressure_decay_rate_multiplier_in_time engine_42 0)
      descriptor_50) 0 (make_virtual_spawn engine_42 descriptor_50) hinert rfl
    (by rw [make_virtual_spawn_50]; rfl) rfl
  refine ⟨by rw [hpps, hc]; norm_num, ⟨_, hlife, rfl, ?_, ?_⟩, ⟨r, ?_, k2, ?_, ?_⟩⟩
  · simp only [hpps]; norm_num
  · simp only [hpps, hc]; norm_num
  · rw [k1]; norm_num
  · rw [k3, hpps]; norm_num
  · rw [k3, hmk, hpps, hc]; norm_num

end accumulation_scenario

end MannVsFate
